import Mathlib

/-!
# hf1: P2P packet stream and wheel speed controller

A shallow embedding of `hf1/common/p2p_packet_stream.h`, `hf1/common/p2p_packet_stream.hh`,
`hf1/common/status_or.h` and `hf1/arduino/wheel_controller.cpp`, followed by theorems about it.

Bytes are natural numbers; memory is a list of bytes. A multi-byte integer (sequence number,
checksum) is the list of its bytes in memory order, so that `reinterpret_cast<uint8_t *>(&x)[i]`
is the i-th element of the list.
-/

namespace HF1

/-! ## Definitions -/

/-- Modelled from the spec: the constants and type sizes of `p2p_packet_protocol.h`, which is not
among the sources: the two reserved byte values, the smaller of them, the maximum content length,
`sizeof(P2PSequenceNumberType)`, `sizeof(P2PChecksumType)` (the footer holds only the checksum) and
the checksum function `P2PPacket::CalculateChecksum`, applied to the header bytes followed by the
content bytes and returning the bytes of the checksum. -/
structure P2PProtocol where
  kP2PStartToken : Nat
  kP2PSpecialToken : Nat
  kP2PLowestToken : Nat
  kP2PMaxContentLength : Nat
  sizeofSequenceNumber : Nat
  sizeofChecksum : Nat
  CalculateChecksum : List Nat → List Nat

/-- Modelled from the spec: the endianness helper. The byte order of the host. -/
inductive Endianness where
  | kLittleEndian
  | kBigEndian
  deriving DecidableEq, Repr

/-- Modelled from the spec: `LocalToNetwork<LocalEndianness>`. The wire is little-endian, so a
little-endian host keeps the bytes and a big-endian host reverses them. -/
def LocalToNetwork (e : Endianness) (bytes : List Nat) : List Nat :=
  match e with
  | .kLittleEndian => bytes
  | .kBigEndian => bytes.reverse

/-- Modelled from the spec: `NetworkToLocal<LocalEndianness>`, the same byte permutation. -/
def NetworkToLocal (e : Endianness) (bytes : List Nat) : List Nat :=
  match e with
  | .kLittleEndian => bytes
  | .kBigEndian => bytes.reverse

/-- `P2PPriority::Level`, without the sentinel `kNumLevels`. -/
inductive P2PPriority where
  | kLow
  | kMedium
  | kHigh
  deriving DecidableEq, Repr

namespace P2PPriority

/-- `enum Level { kLow = 0, kMedium, kHigh, kNumLevels }`. -/
def kNumLevels : Nat := 3

/-- `operator int()`. -/
def toInt : P2PPriority → Nat
  | kLow => 0
  | kMedium => 1
  | kHigh => 2

/-- `P2PPriority(int numeric_priority)`: the assertion `level_ < kNumLevels` fails on any other
number, which is `none` here. -/
def ofInt : Nat → Option P2PPriority
  | 0 => some kLow
  | 1 => some kMedium
  | 2 => some kHigh
  | _ => none

end P2PPriority

/-- Modelled from the spec: `P2PHeader` of `p2p_packet_protocol.h`, packed, one byte per field
except the sequence number, in the order start token, priority, continuation flag, length,
sequence number. `length` is one byte because `P2PPacket::length()` returns `uint8_t &`. -/
structure P2PHeader where
  start_token : Nat
  priority : Nat
  is_continuation : Nat
  length : Nat
  sequence_number : List Nat
  deriving DecidableEq, Repr

namespace P2PHeader

/-- The bytes of the header in memory order. -/
def toBytes (h : P2PHeader) : List Nat :=
  [h.start_token, h.priority, h.is_continuation, h.length] ++ h.sequence_number

/-- `sizeof(P2PHeader)`. -/
def sizeof (cfg : P2PProtocol) : Nat := 4 + cfg.sizeofSequenceNumber

/-- `reinterpret_cast<uint8_t *>(&header)[i] = b`. -/
def setByte (h : P2PHeader) (i b : Nat) : P2PHeader :=
  match i with
  | 0 => { h with start_token := b }
  | 1 => { h with priority := b }
  | 2 => { h with is_continuation := b }
  | 3 => { h with length := b }
  | k + 4 => { h with sequence_number := h.sequence_number.set k b }

end P2PHeader

/-- `P2PPacket`: the packed `data_` member, a header followed by
`content_and_footer[kP2PMaxContentLength + sizeof(P2PFooter)]`. -/
structure P2PPacket where
  header : P2PHeader
  content_and_footer : List Nat
  deriving DecidableEq, Repr

namespace P2PPacket

/-- `length()`. -/
def length (p : P2PPacket) : Nat := p.header.length

/-- `sequence_number()`. -/
def sequence_number (p : P2PPacket) : List Nat := p.header.sequence_number

/-- The content: the first `length()` bytes of `content()`. -/
def contentBytes (p : P2PPacket) : List Nat := p.content_and_footer.take p.length

/-- `checksum()` const: the footer bytes found at `content_and_footer[length()]`. -/
def checksum (cfg : P2PProtocol) (p : P2PPacket) : List Nat :=
  (p.content_and_footer.drop p.length).take cfg.sizeofChecksum

/-- `checksum() = v`: overwrite the footer bytes at `content_and_footer[length()]`. -/
def setChecksum (p : P2PPacket) (v : List Nat) : P2PPacket :=
  { p with content_and_footer :=
      p.content_and_footer.take p.length ++ v ++ p.content_and_footer.drop (p.length + v.length) }

/-- The bytes of the packet in memory order, as seen through
`reinterpret_cast<const uint8_t *>(header())`. -/
def bytes (p : P2PPacket) : List Nat := p.header.toBytes ++ p.content_and_footer

/-- Modelled from the spec: the escaping of `PrepareToSend` (`p2p_packet_stream.cpp` is not among
the sources): `special_token` is inserted after each content byte equal to `start_token`. -/
def escape (cfg : P2PProtocol) : List Nat → List Nat
  | [] => []
  | b :: bs =>
    if b = cfg.kP2PStartToken then b :: cfg.kP2PSpecialToken :: escape cfg bs
    else b :: escape cfg bs

/-- Modelled from the spec: `P2PPacket::CalculateChecksum`, a function of header and content. -/
def CalculateChecksum (cfg : P2PProtocol) (p : P2PPacket) : List Nat :=
  (cfg.CalculateChecksum (p.header.toBytes ++ p.contentBytes)).take cfg.sizeofChecksum

/-- Modelled from the spec: `P2PPacket::PrepareToSend` (`p2p_packet_stream.cpp` is not among the
sources). Escapes the content in place, growing it; fails if the escaped content exceeds
`kP2PMaxContentLength`; then writes the checksum in the footer at `content_base + length`. -/
def PrepareToSend (cfg : P2PProtocol) (p : P2PPacket) : Option P2PPacket :=
  let escaped := escape cfg p.contentBytes
  if cfg.kP2PMaxContentLength < escaped.length then none
  else
    let q : P2PPacket :=
      { header := { p.header with length := escaped.length }
        content_and_footer := escaped ++ p.content_and_footer.drop escaped.length }
    some (q.setChecksum (q.CalculateChecksum cfg))

/-- Modelled from the spec: the inverse of the escaping: each pair `start_token, special_token`
collapses to `start_token`; a `start_token` followed by anything else is malformed. -/
def unescape (cfg : P2PProtocol) : List Nat → Option (List Nat)
  | [] => some []
  | [b] => if b = cfg.kP2PStartToken then none else some [b]
  | b :: c :: rest =>
    if b = cfg.kP2PStartToken then
      if c = cfg.kP2PSpecialToken then (unescape cfg rest).map (b :: ·) else none
    else (unescape cfg (c :: rest)).map (b :: ·)

/-- Modelled from the spec: `P2PPacket::PrepareToRead` (`p2p_packet_stream.cpp` is not among the
sources). Verifies the checksum found in the footer against the header and content as received,
and decodes the content in place, updating the length; fails on a checksum mismatch or a
malformed escape. -/
def PrepareToRead (cfg : P2PProtocol) (p : P2PPacket) : Option P2PPacket :=
  if p.checksum cfg ≠ p.CalculateChecksum cfg then none
  else
    match unescape cfg p.contentBytes with
    | none => none
    | some content =>
      some
        { header := { p.header with length := content.length }
          content_and_footer := content ++ p.content_and_footer.drop content.length }

/-- `content()[i] = b`: `none` when the index is outside `content_and_footer`. -/
def setContent (p : P2PPacket) (i b : Nat) : Option P2PPacket :=
  if i < p.content_and_footer.length then
    some { p with content_and_footer := p.content_and_footer.set i b }
  else none

end P2PPacket

/-- Modelled from the spec: one priority of `PriorityRingBuffer` (`priority_ring_buffer.h` is not
among the sources): a bounded FIFO stored in a ring of `kCapacity` slots. The committed packets are
the `size` slots starting at `read_index`; the write head is the slot after them. -/
structure RingBuffer where
  values : List P2PPacket
  read_index : Nat
  size : Nat
  deriving DecidableEq, Repr

namespace RingBuffer

/-- Modelled from the spec: `Capacity()`. -/
def Capacity (r : RingBuffer) : Nat := r.values.length

/-- Modelled from the spec: `Size()`. -/
def Size (r : RingBuffer) : Nat := r.size

/-- Modelled from the spec: the index of the write head. -/
def write_index (r : RingBuffer) : Nat := (r.read_index + r.size) % r.Capacity

/-- Modelled from the spec: `NewValue()`: the slot at the write head (a reference in the
source). -/
def NewValue (r : RingBuffer) : Option P2PPacket := r.values.get? r.write_index

/-- Modelled from the spec: assignment through the reference returned by `NewValue()`. -/
def setNewValue (r : RingBuffer) (p : P2PPacket) : RingBuffer :=
  { r with values := r.values.set r.write_index p }

/-- Modelled from the spec: `Commit()`: advances the write head. On a full ring, a case the spec
does not describe, the oldest packet is overwritten. -/
def Commit (r : RingBuffer) : RingBuffer :=
  if r.size < r.Capacity then { r with size := r.size + 1 }
  else { r with read_index := (r.read_index + 1) % r.Capacity }

/-- Modelled from the spec: `OldestValue()`: the slot at the read head, or `NULL` when empty. -/
def OldestValue (r : RingBuffer) : Option P2PPacket :=
  if r.size = 0 then none else r.values.get? r.read_index

/-- Modelled from the spec: `Consume()`: drops the oldest packet. -/
def Consume (r : RingBuffer) : RingBuffer :=
  if r.size = 0 then r
  else { r with read_index := (r.read_index + 1) % r.Capacity, size := r.size - 1 }

/-- Modelled from the spec: the committed packets, oldest first. -/
def committed (r : RingBuffer) : List P2PPacket :=
  (List.range r.size).filterMap fun i => r.values.get? ((r.read_index + i) % r.Capacity)

end RingBuffer

/-- Modelled from the spec: `PriorityRingBuffer<P2PPacket, kCapacity, P2PPriority>`
(`priority_ring_buffer.h` is not among the sources): one bounded FIFO per priority level. -/
structure PriorityRingBuffer where
  low : RingBuffer
  medium : RingBuffer
  high : RingBuffer
  deriving DecidableEq, Repr

namespace PriorityRingBuffer

/-- Modelled from the spec: `operator[]`: the ring of one priority. -/
def ring (b : PriorityRingBuffer) : P2PPriority → RingBuffer
  | .kLow => b.low
  | .kMedium => b.medium
  | .kHigh => b.high

/-- Modelled from the spec: replace the ring of one priority. -/
def setRing (b : PriorityRingBuffer) (p : P2PPriority) (r : RingBuffer) : PriorityRingBuffer :=
  match p with
  | .kLow => { b with low := r }
  | .kMedium => { b with medium := r }
  | .kHigh => { b with high := r }

/-- Modelled from the spec: `Capacity(priority)`. -/
def Capacity (b : PriorityRingBuffer) (p : P2PPriority) : Nat := (b.ring p).Capacity

/-- Modelled from the spec: `Size(priority)`. -/
def Size (b : PriorityRingBuffer) (p : P2PPriority) : Nat := (b.ring p).Size

/-- Modelled from the spec: `NewValue(priority)`. -/
def NewValue (b : PriorityRingBuffer) (p : P2PPriority) : Option P2PPacket := (b.ring p).NewValue

/-- Modelled from the spec: assignment through the reference returned by
`NewValue(priority)`. -/
def setNewValue (b : PriorityRingBuffer) (p : P2PPriority) (v : P2PPacket) : PriorityRingBuffer :=
  b.setRing p ((b.ring p).setNewValue v)

/-- Modelled from the spec: `Commit(priority)`. -/
def Commit (b : PriorityRingBuffer) (p : P2PPriority) : PriorityRingBuffer :=
  b.setRing p (b.ring p).Commit

/-- Modelled from the spec: the highest priority that holds a committed packet. -/
def highestNonEmpty (b : PriorityRingBuffer) : Option P2PPriority :=
  if b.high.size ≠ 0 then some .kHigh
  else if b.medium.size ≠ 0 then some .kMedium
  else if b.low.size ≠ 0 then some .kLow
  else none

/-- Modelled from the spec: `OldestValue()`: the oldest packet of the highest non-empty
priority, or `NULL`. -/
def OldestValue (b : PriorityRingBuffer) : Option P2PPacket :=
  match b.highestNonEmpty with
  | none => none
  | some p => (b.ring p).OldestValue

/-- Modelled from the spec: `Consume()`: drops the oldest packet of the highest non-empty
priority; false if there is none. -/
def Consume (b : PriorityRingBuffer) : PriorityRingBuffer × Bool :=
  match b.highestNonEmpty with
  | none => (b, false)
  | some p => (b.setRing p (b.ring p).Consume, true)

end PriorityRingBuffer

/-- A `const P2PPacket *` into the buffer: a priority and a slot index. -/
structure PacketPtr where
  priority : P2PPriority
  index : Nat
  deriving DecidableEq, Repr

namespace PriorityRingBuffer

/-- Modelled from the spec: `OldestValue()` as a pointer into the buffer, `none` for
`NULL`. -/
def OldestValuePtr (b : PriorityRingBuffer) : Option PacketPtr :=
  match b.highestNonEmpty with
  | none => none
  | some p => some { priority := p, index := (b.ring p).read_index }

/-- Modelled from the spec: dereference a pointer into the buffer. -/
def deref (b : PriorityRingBuffer) (ptr : PacketPtr) : Option P2PPacket :=
  (b.ring ptr.priority).values.get? ptr.index

end PriorityRingBuffer

/-- `Status`. -/
inductive Status where
  | kSuccess
  | kUnavailableError
  deriving DecidableEq, Repr

/-- `StatusOr<ValueType>`: a status and, when built from a value, the value. -/
structure StatusOr (ValueType : Type) where
  status_ : Status
  value_ : Option ValueType

namespace StatusOr

/-- `StatusOr(ValueType &&v)`. -/
def ofValue {ValueType : Type} (v : ValueType) : StatusOr ValueType :=
  { status_ := .kSuccess, value_ := some v }

/-- `StatusOr(Status e)`. -/
def ofStatus {ValueType : Type} (e : Status) : StatusOr ValueType :=
  { status_ := e, value_ := none }

/-- `ok()`. -/
def ok {ValueType : Type} (r : StatusOr ValueType) : Bool := r.status_ = .kSuccess

end StatusOr

/-- The value of an expression of type `int` whose mathematical result is `x`: `int` has 32 bits
and wraps in two's complement, so the value lies between -2^31 and 2^31 - 1. -/
def int32 (x : Int) : Int := (x + 2 ^ 31) % 2 ^ 32 - 2 ^ 31

/-- The parameters of the byte stream that the output stream reads:
`GetBurstMaxLength()` and `GetBurstIngestionNanosecondsPerByte()`. -/
structure P2PByteStream where
  GetBurstMaxLength : Int
  GetBurstIngestionNanosecondsPerByte : Int

/-- The states of `P2PPacketOutputStream`. -/
inductive OutputState where
  | kGettingNextPacket
  | kSendingBurst
  | kWaitingForBurstIngestion
  deriving DecidableEq, Repr

/-- The members of `P2PPacketOutputStream`; the byte stream is a parameter of `Run`. -/
structure P2PPacketOutputStream where
  packet_buffer_ : PriorityRingBuffer
  total_packet_length_ : Int
  current_packet_ : Option PacketPtr
  pending_packet_bytes_ : Int
  pending_burst_bytes_ : Int
  burst_end_timestamp_ns_ : Nat
  current_sequence_number_ : List Nat
  state_ : OutputState
  deriving DecidableEq, Repr

/-- The loop of `Commit` that advances the sequence counter: each byte in turn is incremented
(as a `uint8_t`) and reduced modulo `kP2PLowestToken`, stopping at the first byte left positive. -/
def incrementSequenceNumber (lowestToken : Nat) : List Nat → List Nat
  | [] => []
  | b :: rest =>
    let b1 := ((b + 1) % 256) % lowestToken
    if 0 < b1 then b1 :: rest else b1 :: incrementSequenceNumber lowestToken rest

namespace P2PPacketOutputStream

/-- The constructor: counter 0, state `kGettingNextPacket`; the buffer and the members the
constructor leaves uninitialised are taken from `mem`. -/
def init (cfg : P2PProtocol) (mem : P2PPacketOutputStream) : P2PPacketOutputStream :=
  { mem with
    current_sequence_number_ := List.replicate cfg.sizeofSequenceNumber 0
    state_ := .kGettingNextPacket }

/-- `NumAvailableSlots(priority)`. -/
def NumAvailableSlots (s : P2PPacketOutputStream) (priority : P2PPriority) : Int :=
  (s.packet_buffer_.Capacity priority : Int) - (s.packet_buffer_.Size priority : Int)

/-- `NewPacket(priority)`: the stream afterwards and the result. The view
`P2PMutablePacketView(&packet_buffer_.NewValue(priority))` is a pointer to the slot at the write
head of `priority`. -/
def NewPacket (s : P2PPacketOutputStream) (priority : P2PPriority) :
    P2PPacketOutputStream × StatusOr PacketPtr :=
  if s.NumAvailableSlots priority = 0 then (s, StatusOr.ofStatus .kUnavailableError)
  else
    (s, StatusOr.ofValue
      { priority := priority, index := (s.packet_buffer_.ring priority).write_index })

/-- The assignments of `Commit` under "Fix endianness": checksum, length (one byte, unchanged)
and sequence number go to network order. -/
def fixEndianness (cfg : P2PProtocol) (e : Endianness) (packet : P2PPacket) : P2PPacket :=
  let packet1 := packet.setChecksum (LocalToNetwork e (packet.checksum cfg))
  { packet1 with
    header := { packet1.header with
      sequence_number := LocalToNetwork e packet1.header.sequence_number } }

/-- `Commit(priority)`. `none` stands for a buffer without slots, where `NewValue` has nothing to
refer to. -/
def Commit (cfg : P2PProtocol) (e : Endianness) (s : P2PPacketOutputStream)
    (priority : P2PPriority) : Option (P2PPacketOutputStream × Bool) :=
  match s.packet_buffer_.NewValue priority with
  | none => none
  | some packet0 =>
    let packet1 : P2PPacket :=
      { packet0 with
        header := { packet0.header with
          priority := priority.toInt
          is_continuation := 0
          sequence_number := s.current_sequence_number_ } }
    match packet1.PrepareToSend cfg with
    | none => some ({ s with packet_buffer_ := s.packet_buffer_.setNewValue priority packet1 }, false)
    | some packet2 =>
      let packet3 := fixEndianness cfg e packet2
      some ({ s with
              packet_buffer_ := (s.packet_buffer_.setNewValue priority packet3).Commit priority
              current_sequence_number_ :=
                incrementSequenceNumber cfg.kP2PLowestToken s.current_sequence_number_ }, true)

/-- The result of one call of `Run`: the new state, the returned hint and the bytes the transport
accepted. -/
structure RunResult where
  stream : P2PPacketOutputStream
  time_until_next_event : Nat
  written : List Nat
  deriving DecidableEq, Repr

/-- `byte_stream_.Write(&bytes(current_packet_)[offset], length)` where the transport answers
`written_bytes`: the bytes that went out. `none` when `current_packet_` is not a slot. -/
def writeFrom (s : P2PPacketOutputStream) (offset written_bytes : Int) : Option (List Nat) :=
  match s.current_packet_ with
  | none => none
  | some ptr =>
    match s.packet_buffer_.deref ptr with
    | none => none
    | some packet => some ((packet.bytes.drop offset.toNat).take written_bytes.toNat)

/-- `Run(timestamp_ns)`. `Write n` is what the transport's `Write(buffer, n)` returns in this
call. In `timestamp_ns + burst_length * GetBurstIngestionNanosecondsPerByte()` the product is an
`int` times an `int`, hence an `int` (`int32`), which is then converted to `uint64_t` and added
modulo 2^64; `NetworkToLocal` of the one-byte length is the identity. -/
def Run (cfg : P2PProtocol) (byte_stream_ : P2PByteStream) (Write : Int → Int)
    (s : P2PPacketOutputStream) (timestamp_ns : Nat) : Option RunResult :=
  match s.state_ with
  | .kGettingNextPacket =>
    match s.packet_buffer_.OldestValuePtr with
    | none =>
      -- No more packets to send: keep waiting for one.
      some { stream := { s with current_packet_ := none }, time_until_next_event := 0, written := [] }
    | some ptr =>
      match s.packet_buffer_.deref ptr with
      | none => none
      | some packet =>
        let total_packet_length : Int :=
          (P2PHeader.sizeof cfg : Int) + (packet.length : Int) + (cfg.sizeofChecksum : Int)
        let burst_length : Int := min total_packet_length byte_stream_.GetBurstMaxLength
        let burst_end : Nat :=
          (((timestamp_ns : Int) +
              int32 (burst_length * byte_stream_.GetBurstIngestionNanosecondsPerByte))
            % (2 ^ 64 : Int)).toNat
        let written_bytes := Write burst_length
        some
          { stream :=
              { s with
                current_packet_ := some ptr
                state_ := .kSendingBurst
                total_packet_length_ := total_packet_length
                burst_end_timestamp_ns_ := burst_end
                pending_packet_bytes_ := total_packet_length - written_bytes
                pending_burst_bytes_ := burst_length - written_bytes }
            time_until_next_event := 0
            written := (packet.bytes).take written_bytes.toNat }
  | .kSendingBurst =>
    if s.pending_burst_bytes_ ≤ 0 then
      -- Burst fully sent: wait for other end to ingest.
      some { stream := { s with state_ := .kWaitingForBurstIngestion },
             time_until_next_event := 0, written := [] }
    else
      let written_bytes := Write s.pending_burst_bytes_
      match s.writeFrom (s.total_packet_length_ - s.pending_packet_bytes_) written_bytes with
      | none => none
      | some out =>
        some
          { stream :=
              { s with
                pending_packet_bytes_ := s.pending_packet_bytes_ - written_bytes
                pending_burst_bytes_ := s.pending_burst_bytes_ - written_bytes }
            time_until_next_event := 0
            written := out }
  | .kWaitingForBurstIngestion =>
    if timestamp_ns < s.burst_end_timestamp_ns_ then
      -- Ingestion time not expired: keep waiting.
      some { stream := s, time_until_next_event := s.burst_end_timestamp_ns_ - timestamp_ns,
             written := [] }
    else if s.pending_packet_bytes_ ≤ 0 then
      -- No more bursts: next packet.
      some { stream := { s with packet_buffer_ := s.packet_buffer_.Consume.1,
                                state_ := .kGettingNextPacket },
             time_until_next_event := 0, written := [] }
    else
      -- Send next burst.
      let pending_burst_bytes : Int := min s.pending_packet_bytes_ byte_stream_.GetBurstMaxLength
      let burst_end : Nat :=
        (((timestamp_ns : Int) +
            int32 (pending_burst_bytes * byte_stream_.GetBurstIngestionNanosecondsPerByte))
          % (2 ^ 64 : Int)).toNat
      let written_bytes := Write pending_burst_bytes
      match s.writeFrom (s.total_packet_length_ - s.pending_packet_bytes_) written_bytes with
      | none => none
      | some out =>
        some
          { stream :=
              { s with
                state_ := .kSendingBurst
                burst_end_timestamp_ns_ := burst_end
                pending_packet_bytes_ := s.pending_packet_bytes_ - written_bytes
                pending_burst_bytes_ := pending_burst_bytes - written_bytes }
            time_until_next_event := 0
            written := out }

/-- What the application does with the view returned by `NewPacket(priority)`: through
`length()` and `content()` it writes the length and the content of the packet at the write head.
Nothing is written when `NewPacket` fails. -/
def fillNewPacket (s : P2PPacketOutputStream) (priority : P2PPriority) (length : Nat)
    (content : List Nat) : P2PPacketOutputStream :=
  if (s.NewPacket priority).2.ok then
    match s.packet_buffer_.NewValue priority with
    | none => s
    | some packet =>
      let filled : P2PPacket :=
        { header := { packet.header with length := length }
          content_and_footer := content ++ packet.content_and_footer.drop content.length }
      { s with packet_buffer_ := s.packet_buffer_.setNewValue priority filled }
  else s

end P2PPacketOutputStream

/-- The states of `P2PPacketInputStream`. -/
inductive InputState where
  | kWaitingForPacket
  | kReadingHeader
  | kReadingContent
  | kDisambiguatingStartTokenInContent
  | kReadingFooter
  deriving DecidableEq, Repr

/-- The members of `P2PPacketInputStream`; the bytes the byte stream holds are a parameter of
`Run`. -/
structure P2PPacketInputStream where
  packet_buffer_ : PriorityRingBuffer
  current_field_read_bytes_ : Nat
  state_ : InputState
  incoming_header_ : P2PHeader
  deriving DecidableEq, Repr

namespace P2PPacketInputStream

/-- The constructor: state `kWaitingForPacket`; the buffer and the members the constructor leaves
uninitialised are taken from `mem`. -/
def init (mem : P2PPacketInputStream) : P2PPacketInputStream :=
  { mem with state_ := .kWaitingForPacket }

/-- `NumAvailablePackets(priority)`. -/
def NumAvailablePackets (s : P2PPacketInputStream) (priority : P2PPriority) : Nat :=
  (s.packet_buffer_.ring priority).Size

/-- `packet_buffer_.NewValue(incoming_header_.priority)`: the priority goes through
`P2PPriority(int)`, whose assertion fails on a number that is not a level. -/
def NewValue (s : P2PPacketInputStream) : Option (P2PPriority × P2PPacket) :=
  match P2PPriority.ofInt s.incoming_header_.priority with
  | none => none
  | some priority =>
    match s.packet_buffer_.NewValue priority with
    | none => none
    | some packet => some (priority, packet)

/-- The header case of `Run` once `current_field_read_bytes_ >= sizeof(P2PHeader)`: no byte is
read. -/
def headerComplete (e : Endianness) (s : P2PPacketInputStream) : Option P2PPacketInputStream :=
  match s.NewValue with
  | none => none
  | some (priority, packet) =>
    if s.incoming_header_.is_continuation = 0 then
      -- A new packet: the received header goes into the slot, with the endianness fixed.
      let stored : P2PPacket :=
        { packet with
          header := { s.incoming_header_ with
            sequence_number := NetworkToLocal e s.incoming_header_.sequence_number } }
      some { s with
        packet_buffer_ := s.packet_buffer_.setNewValue priority stored
        current_field_read_bytes_ := 0
        state_ := .kReadingContent }
    else
      -- The length field for a packet continuation is the remaining length.
      let remaining_length := s.incoming_header_.length
      if NetworkToLocal e s.incoming_header_.sequence_number ≠ packet.header.sequence_number ∨
          packet.length < remaining_length then
        some { s with state_ := .kWaitingForPacket }
      else
        -- Keep receiving content where we left off.
        some { s with
          current_field_read_bytes_ := packet.length - remaining_length
          state_ := .kReadingContent }

/-- `Run()`. `input` holds the bytes the byte stream has available: `Read(buffer, 1)` takes the
first one, or returns 0 when there is none. The result is the new state and the bytes left.
`none` stands for a failed assertion or a write outside the packet. -/
def Run (cfg : P2PProtocol) (e : Endianness) (s : P2PPacketInputStream) (input : List Nat) :
    Option (P2PPacketInputStream × List Nat) :=
  match s.state_ with
  | .kWaitingForPacket =>
    match input with
    | [] => some (s, [])
    | b :: rest =>
      let s1 := { s with incoming_header_ := { s.incoming_header_ with start_token := b } }
      if b = cfg.kP2PStartToken then
        some ({ s1 with state_ := .kReadingHeader, current_field_read_bytes_ := 1 }, rest)
      else some (s1, rest)
  | .kReadingHeader =>
    if P2PHeader.sizeof cfg ≤ s.current_field_read_bytes_ then
      (headerComplete e s).map fun t => (t, input)
    else
      match input with
      | [] => some (s, [])
      | b :: rest =>
        let s1 :=
          { s with
            incoming_header_ := s.incoming_header_.setByte s.current_field_read_bytes_ b
            current_field_read_bytes_ := s.current_field_read_bytes_ + 1 }
        if b = cfg.kP2PStartToken then
          -- Must be a new packet after a link interruption.
          some ({ s1 with
                  state_ := .kReadingHeader
                  incoming_header_ := { s1.incoming_header_ with start_token := cfg.kP2PStartToken }
                  current_field_read_bytes_ := 1 }, rest)
        else if b = cfg.kP2PSpecialToken then
          -- Malformed packet.
          some ({ s1 with state_ := .kWaitingForPacket }, rest)
        else some (s1, rest)
  | .kReadingContent =>
    match s.NewValue with
    | none => none
    | some (priority, packet) =>
      if packet.length ≤ s.current_field_read_bytes_ then
        some ({ s with state_ := .kReadingFooter, current_field_read_bytes_ := 0 }, input)
      else
        match input with
        | [] => some (s, [])
        | b :: rest =>
          match packet.setContent s.current_field_read_bytes_ b with
          | none => none
          | some packet1 =>
            let s1 :=
              { s with
                packet_buffer_ := s.packet_buffer_.setNewValue priority packet1
                current_field_read_bytes_ := s.current_field_read_bytes_ + 1 }
            if b = cfg.kP2PStartToken then
              if s1.current_field_read_bytes_ < packet.length then
                -- It could be a start token, if the next byte is not a special token.
                some ({ s1 with state_ := .kDisambiguatingStartTokenInContent }, rest)
              else
                some ({ s1 with
                        state_ := .kReadingHeader
                        incoming_header_ :=
                          { s1.incoming_header_ with start_token := cfg.kP2PStartToken }
                        current_field_read_bytes_ := 1 }, rest)
            else some (s1, rest)
  | .kDisambiguatingStartTokenInContent =>
    match s.NewValue with
    | none => none
    | some (priority, packet) =>
      match input with
      | [] => some (s, [])
      | b :: rest =>
        match packet.setContent s.current_field_read_bytes_ b with
        | none => none
        | some packet1 =>
          let s1 :=
            { s with
              packet_buffer_ := s.packet_buffer_.setNewValue priority packet1
              current_field_read_bytes_ := s.current_field_read_bytes_ + 1 }
          if b = cfg.kP2PSpecialToken then
            -- Not a start token, but a content byte.
            some ({ s1 with state_ := .kReadingContent }, rest)
          else if b = cfg.kP2PStartToken then
            some ({ s1 with
                    state_ := .kReadingHeader
                    incoming_header_ :=
                      { s1.incoming_header_ with start_token := cfg.kP2PStartToken }
                    current_field_read_bytes_ := 1 }, rest)
          else
            -- Must be a start token. Restart the state to re-synchronize with minimal latency.
            some ({ s1 with
                    state_ := .kReadingHeader
                    incoming_header_ :=
                      ({ s1.incoming_header_ with
                          start_token := cfg.kP2PStartToken }).setByte 1 b
                    current_field_read_bytes_ := 2 }, rest)
  | .kReadingFooter =>
    match s.NewValue with
    | none => none
    | some (priority, packet) =>
      if cfg.sizeofChecksum ≤ s.current_field_read_bytes_ then
        some ({ s with state_ := .kWaitingForPacket }, input)
      else
        match input with
        | [] => some (s, [])
        | b :: rest =>
          match packet.setContent (packet.length + s.current_field_read_bytes_) b with
          | none => none
          | some packet1 =>
            let s1 :=
              { s with
                packet_buffer_ := s.packet_buffer_.setNewValue priority packet1
                current_field_read_bytes_ := s.current_field_read_bytes_ + 1 }
            if b = cfg.kP2PStartToken then
              -- New packet after interrupts, as no priority takeover is allowed mid-footer.
              some ({ s1 with
                      state_ := .kReadingHeader
                      incoming_header_ :=
                        { s1.incoming_header_ with start_token := cfg.kP2PStartToken }
                      current_field_read_bytes_ := 1 }, rest)
            else
              let s2 :=
                if b = cfg.kP2PSpecialToken then { s1 with state_ := .kWaitingForPacket } else s1
              if cfg.sizeofChecksum ≤ s2.current_field_read_bytes_ then
                -- Fix endianness of footer fields.
                let packet2 := packet1.setChecksum (NetworkToLocal e (packet1.checksum cfg))
                match packet2.PrepareToRead cfg with
                | some packet3 =>
                  some ({ s2 with
                          packet_buffer_ :=
                            (s2.packet_buffer_.setNewValue priority packet3).Commit priority
                          state_ := .kWaitingForPacket }, rest)
                | none =>
                  some ({ s2 with
                          packet_buffer_ := s2.packet_buffer_.setNewValue priority packet2
                          state_ := .kWaitingForPacket }, rest)
              else some (s2, rest)

/-- The state and the bytes left after `n` calls of `Run`. -/
def runN (cfg : P2PProtocol) (e : Endianness) :
    Nat → P2PPacketInputStream → List Nat → Option (P2PPacketInputStream × List Nat)
  | 0, s, input => some (s, input)
  | n + 1, s, input =>
    match s.Run cfg e input with
    | none => none
    | some (s1, rest) => runN cfg e n s1 rest

end P2PPacketInputStream

/-- A call on the public interface of the output stream. -/
inductive OutputCall where
  | fill (priority : P2PPriority) (length : Nat) (content : List Nat)
  | commit (priority : P2PPriority)
  | run (timestamp_ns : Nat) (Write : Int → Int)

namespace P2PPacketOutputStream

/-- The state after one call; `none` when the call has no defined behaviour. -/
def call (cfg : P2PProtocol) (e : Endianness) (byte_stream_ : P2PByteStream)
    (s : P2PPacketOutputStream) : OutputCall → Option P2PPacketOutputStream
  | .fill priority length content => some (s.fillNewPacket priority length content)
  | .commit priority => (s.Commit cfg e priority).map Prod.fst
  | .run timestamp_ns Write => (s.Run cfg byte_stream_ Write timestamp_ns).map RunResult.stream

/-- The state after a sequence of calls. -/
def calls (cfg : P2PProtocol) (e : Endianness) (byte_stream_ : P2PByteStream)
    (s : P2PPacketOutputStream) : List OutputCall → Option P2PPacketOutputStream
  | [] => some s
  | c :: cs =>
    match s.call cfg e byte_stream_ c with
    | none => none
    | some s1 => calls cfg e byte_stream_ s1 cs

/-- Every byte of the sequence counter and every sequence-number byte of a committed packet is
below `kP2PLowestToken`. -/
def SequenceSafe (cfg : P2PProtocol) (s : P2PPacketOutputStream) : Prop :=
  (∀ b ∈ s.current_sequence_number_, b < cfg.kP2PLowestToken) ∧
  ∀ priority : P2PPriority, ∀ packet ∈ (s.packet_buffer_.ring priority).committed,
    ∀ b ∈ packet.sequence_number, b < cfg.kP2PLowestToken

end P2PPacketOutputStream

/-! ## Concrete instances used to evaluate the definitions -/

/-- A protocol instance: tokens 0xAA and 0xFF, 4-byte sequence numbers, a one-byte checksum that
is the sum of the bytes modulo the lowest token. -/
def exampleProtocol : P2PProtocol :=
  { kP2PStartToken := 170
    kP2PSpecialToken := 255
    kP2PLowestToken := 170
    kP2PMaxContentLength := 8
    sizeofSequenceNumber := 4
    sizeofChecksum := 1
    CalculateChecksum := fun bytes => [bytes.sum % 170] }

/-- A packet as the constructor leaves it: only the start token is set. -/
def emptyPacket (cfg : P2PProtocol) : P2PPacket :=
  { header :=
      { start_token := cfg.kP2PStartToken, priority := 0, is_continuation := 0, length := 0
        sequence_number := List.replicate cfg.sizeofSequenceNumber 0 }
    content_and_footer := List.replicate (cfg.kP2PMaxContentLength + cfg.sizeofChecksum) 0 }

/-- An empty ring of `capacity` slots. -/
def emptyRing (cfg : P2PProtocol) (capacity : Nat) : RingBuffer :=
  { values := List.replicate capacity (emptyPacket cfg), read_index := 0, size := 0 }

/-- The memory of an output stream before its constructor runs, with `capacity` slots per
priority. -/
def rawOutputStream (cfg : P2PProtocol) (capacity : Nat) : P2PPacketOutputStream :=
  { packet_buffer_ :=
      { low := emptyRing cfg capacity, medium := emptyRing cfg capacity
        high := emptyRing cfg capacity }
    total_packet_length_ := 0
    current_packet_ := none
    pending_packet_bytes_ := 0
    pending_burst_bytes_ := 0
    burst_end_timestamp_ns_ := 0
    current_sequence_number_ := []
    state_ := .kGettingNextPacket }

/-- An output stream right after construction, with `capacity` slots per priority. -/
def newOutputStream (cfg : P2PProtocol) (capacity : Nat) : P2PPacketOutputStream :=
  P2PPacketOutputStream.init cfg (rawOutputStream cfg capacity)

/-- The byte stream of `p2p_byte_stream_linux.cpp`. -/
def P2PByteStreamLinux : P2PByteStream :=
  { GetBurstMaxLength := 42, GetBurstIngestionNanosecondsPerByte := 250000 }

/-- The output stream after a 3-byte packet was committed at low priority and an empty one at
high priority. -/
def exampleCommitted : P2PPacketOutputStream :=
  ((newOutputStream exampleProtocol 2).calls exampleProtocol .kLittleEndian P2PByteStreamLinux
    [.fill .kLow 3 [1, 170, 3], .commit .kLow, .commit .kHigh]).getD
    (newOutputStream exampleProtocol 2)

/-! ### Wheel speed controller (`hf1/arduino/wheel_controller.cpp`)

The arithmetic is over an ordered field `α` (the reals in the theorems, the rationals to
evaluate); `log` and `exp` are parameters. -/

section Wheel

variable {α : Type} [LinearOrderedField α]

/-- `kSpeedModelTimeConstant`. -/
def kSpeedModelTimeConstant : α := 29 / 100

/-- `kSpeedModelDutyCycleOffset`. -/
def kSpeedModelDutyCycleOffset : α := -(99 / 100)

/-- `kSpeedModelFactor`. -/
def kSpeedModelFactor : α := 41 / 1000

/-- `kSpeedModelSpeedOffset`. -/
def kSpeedModelSpeedOffset : α := 66 / 100

/-- `kPWMDutyCycleMin`. -/
def kPWMDutyCycleMin : α := 0

/-- `kPWMDutyCycleMax`. -/
def kPWMDutyCycleMax : α := 1

/-- `std::clamp(v, lo, hi)`. -/
def clamp (v lo hi : α) : α := if v < lo then lo else if hi < v then hi else v

/-- `WheelSpeedController::DutyCycleFromLinearSpeed`. -/
def DutyCycleFromLinearSpeed (log : α → α) (meters_per_second : α) : α :=
  if meters_per_second = 0 then
    -- If speed is 0, force the duty cycle to 0 to save power.
    0
  else if kSpeedModelSpeedOffset ≤ meters_per_second then 1
  else if meters_per_second ≤ -kSpeedModelSpeedOffset then -1
  else
    let offset : α := kSpeedModelTimeConstant * log kSpeedModelFactor - kSpeedModelDutyCycleOffset
    let duty_cycle : α :=
      offset - kSpeedModelTimeConstant * log (kSpeedModelSpeedOffset - |meters_per_second|)
    let duty_cycle := clamp duty_cycle kPWMDutyCycleMin kPWMDutyCycleMax
    if meters_per_second < 0 then -duty_cycle else duty_cycle

/-- `WheelSpeedController::GetMaxLinearSpeed`. -/
def GetMaxLinearSpeed (log exp : α → α) : α :=
  let offset : α := kSpeedModelTimeConstant * log kSpeedModelFactor - kSpeedModelDutyCycleOffset
  kSpeedModelSpeedOffset - exp ((offset - kPWMDutyCycleMax) / kSpeedModelTimeConstant)

/-- `WheelSpeedController::GetMinLinearSpeed`. -/
def GetMinLinearSpeed (log exp : α → α) : α := -GetMaxLinearSpeed log exp

/-- Modelled from the spec: the PID sub-component (`pid.h` is not among the sources): a standard
discrete PID with its target, its last output, its integrator and its previous error. -/
structure PID (α : Type) where
  kp : α
  ki : α
  kd : α
  target_ : α
  output_ : α
  integrator_ : α
  last_error_ : α

/-- Modelled from the spec: `PID::update(measurement, dt)`, a correction computed from
`error = target - measurement`; the output is kept for `output()`. -/
def PID.update (pid : PID α) (measurement dt : α) : PID α :=
  let error := pid.target_ - measurement
  let integrator := pid.integrator_ + error * dt
  let derivative := (error - pid.last_error_) / dt
  { pid with
    output_ := pid.kp * error + pid.ki * integrator + pid.kd * derivative
    integrator_ := integrator
    last_error_ := error }

/-- Modelled from the spec: the constants of `robot_model.h`, which is not among the sources. -/
structure RobotModel (α : Type) where
  kWheelRadius : α
  kRadiansPerWheelTick : α

/-- Modelled from the spec: `SecondsFromNanos` of `utils.h`, which is not among the sources:
nanoseconds to seconds. -/
def SecondsFromNanos (nanos : Nat) : α := (nanos : α) / 1000000000

/-- The members of `WheelSpeedController` that `RunAfterPeriod` uses. -/
structure WheelSpeedController (α : Type) where
  time_start_ : α
  num_wheel_ticks_start_ : Int
  average_wheel_speed_ : α
  is_turning_forward_ : Bool
  pid_ : PID α

/-- What one call of `RunAfterPeriod` produces: the controller afterwards, the speed estimate
passed to `pid_.update` and the duty cycle passed to `duty_cycle_setter_`. -/
structure RunAfterPeriodResult (α : Type) where
  controller : WheelSpeedController α
  measurement : α
  duty_cycle : α

namespace WheelSpeedController

/-- `WheelSpeedController::SetLinearSpeed`: `now_seconds` is `GetTimerSeconds()` and `ticks` is
what `wheel_tick_count_getter_()` returns. -/
def SetLinearSpeed (c : WheelSpeedController α) (now_seconds : α) (ticks : Int)
    (meters_per_second : α) : WheelSpeedController α :=
  { c with
    time_start_ := now_seconds
    num_wheel_ticks_start_ := ticks
    pid_ := { c.pid_ with target_ := meters_per_second } }

/-- `WheelSpeedController::RunAfterPeriod`: `ticks` is what `wheel_tick_count_getter_()`
returns. The difference of the tick counts is an `int` (`int32`). The `float`s are elements of
the ordered field `α`: the quotient by `seconds_since_start` is the one of `α`, which stands for
the `float` quotient only when `seconds_since_start` is not 0 (the `float` quotient by 0 is an
infinity, which `α` does not have). -/
def RunAfterPeriod (log : α → α) (robot : RobotModel α) (c : WheelSpeedController α)
    (ticks : Int) (now_nanos nanos_since_last_call : Nat) : RunAfterPeriodResult α :=
  -- Estimate wheel turn direction.
  let is_turning_forward : Bool :=
    decide (0 < c.pid_.target_) || (decide (c.pid_.target_ = 0) && decide (0 ≤ c.pid_.output_))
  let average0 : α :=
    if is_turning_forward ≠ c.is_turning_forward_ then 0 else c.average_wheel_speed_
  -- Estimate wheel speed.
  let seconds_since_start : α := SecondsFromNanos now_nanos - c.time_start_
  let num_encoder_ticks : Int := int32 (ticks - c.num_wheel_ticks_start_)
  let average1 : α :=
    if 0 < num_encoder_ticks then
      let cur_avg_speed : α :=
        robot.kWheelRadius * robot.kRadiansPerWheelTick * (num_encoder_ticks : α) /
          seconds_since_start
      if !is_turning_forward then -cur_avg_speed else cur_avg_speed
    else average0
  -- Update duty cycle with the speed estimate.
  let pid := c.pid_.update average1 (SecondsFromNanos nanos_since_last_call)
  let pid_output := pid.output_
  let speed_command0 : α := pid.target_ + pid_output
  let speed_command : α :=
    if (is_turning_forward && decide (speed_command0 < 0)) ||
        (!is_turning_forward && decide (0 < speed_command0)) then 0
    else speed_command0
  { controller :=
      { c with
        average_wheel_speed_ := average1
        is_turning_forward_ := is_turning_forward
        pid_ := pid }
    measurement := average1
    duty_cycle := DutyCycleFromLinearSpeed log speed_command }

end WheelSpeedController

end Wheel

/-- A rational stand-in for the logarithm, used only to evaluate the controller. -/
def exampleLog (x : ℚ) : ℚ := x - 1

/-- A wheel: radius 1/40 m, 1/10 rad per encoder tick. -/
def exampleRobot : RobotModel ℚ := { kWheelRadius := 1 / 40, kRadiansPerWheelTick := 1 / 10 }

/-- A controller whose target is 0 after a positive target, with a positive last PID output. -/
def exampleController : WheelSpeedController ℚ :=
  { time_start_ := 0
    num_wheel_ticks_start_ := 0
    average_wheel_speed_ := 2 / 5
    is_turning_forward_ := true
    pid_ :=
      { kp := 10, ki := 5, kd := 0, target_ := 0, output_ := 1 / 10, integrator_ := 0
        last_error_ := 0 } }

/-- The output stream `exampleCommitted` after two calls of `Run` at time 0 on a transport that
accepts everything: the high-priority packet is written and its burst is being ingested. -/
def exampleWaiting : P2PPacketOutputStream :=
  (exampleCommitted.calls exampleProtocol .kLittleEndian P2PByteStreamLinux
    [.run 0 (fun n => n), .run 0 (fun n => n)]).getD exampleCommitted

/-- An input stream right after construction, with `capacity` slots per priority. -/
def newInputStream (cfg : P2PProtocol) (capacity : Nat) : P2PPacketInputStream :=
  P2PPacketInputStream.init
    { packet_buffer_ :=
        { low := emptyRing cfg capacity, medium := emptyRing cfg capacity
          high := emptyRing cfg capacity }
      current_field_read_bytes_ := 0
      state_ := .kWaitingForPacket
      incoming_header_ := (emptyPacket cfg).header }

/-- The input stream after the header and two of the four content bytes of a low-priority packet
with sequence number 5, then a complete high-priority packet, then the header of the
continuation of the low-priority packet with two bytes remaining. -/
def exampleContinuation : P2PPacketInputStream :=
  ((P2PPacketInputStream.runN exampleProtocol .kLittleEndian 30 (newInputStream exampleProtocol 2)
    [170, 0, 0, 4, 5, 0, 0, 0, 1, 2,
     170, 2, 0, 0, 6, 0, 0, 0, 8,
     170, 0, 1, 2, 5, 0, 0, 0]).getD (newInputStream exampleProtocol 2, [])).1

/-- A protocol instance like `exampleProtocol` with room for 60 content bytes. -/
def wideProtocol : P2PProtocol :=
  { kP2PStartToken := 170
    kP2PSpecialToken := 255
    kP2PLowestToken := 170
    kP2PMaxContentLength := 60
    sizeofSequenceNumber := 4
    sizeofChecksum := 1
    CalculateChecksum := fun bytes => [bytes.sum % 170] }

/-- The state and the bytes written by successive calls of `Run` at the given timestamps. -/
def P2PPacketOutputStream.runs (cfg : P2PProtocol) (byte_stream_ : P2PByteStream)
    (Write : Int → Int) :
    P2PPacketOutputStream → List Nat → Option (P2PPacketOutputStream × List Nat)
  | s, [] => some (s, [])
  | s, timestamp_ns :: rest =>
    match s.Run cfg byte_stream_ Write timestamp_ns with
    | none => none
    | some r =>
      match runs cfg byte_stream_ Write r.stream rest with
      | none => none
      | some (t, written) => some (t, r.written ++ written)

/-- A 50-byte low-priority packet is committed and its first burst of 42 bytes is written at
time 0 by the Linux byte stream, which accepts everything: the packet is partly transmitted,
between two bursts. -/
def examplePartlySent : P2PPacketOutputStream :=
  ((newOutputStream wideProtocol 2).calls wideProtocol .kLittleEndian P2PByteStreamLinux
    [.fill .kLow 50 (List.range 50), .commit .kLow, .run 0 (fun n => n), .run 0 (fun n => n)]).getD
    (newOutputStream wideProtocol 2)

/-- An empty high-priority packet is committed while the low-priority packet of
`examplePartlySent` is partly transmitted. -/
def examplePreempted : P2PPacketOutputStream :=
  ((examplePartlySent.Commit wideProtocol .kLittleEndian .kHigh).getD (examplePartlySent, false)).1

/-- A valid low-priority frame of `exampleProtocol`: start token, priority 0, no continuation,
length 2, sequence number 5, content `1 2`, checksum 10. -/
def exampleFrame : List Nat := [170, 0, 0, 2, 5, 0, 0, 0, 1, 2, 10]

/-- Garbage that commits nothing: a start token followed by a header whose priority byte is 3
(not a level), without any reserved token. -/
def exampleGarbage : List Nat := [170, 3, 0, 0, 0, 0, 0, 0]

/-- The input stream after it has consumed `exampleGarbage`. -/
def exampleAfterGarbage : P2PPacketInputStream :=
  ((P2PPacketInputStream.runN exampleProtocol .kLittleEndian 8 (newInputStream exampleProtocol 2)
    exampleGarbage).getD (newInputStream exampleProtocol 2, [])).1

/-- `total_packet_length_` as `Run` computes it for a packet:
`sizeof(P2PHeader) + length + sizeof(P2PFooter)`. -/
def P2PPacket.total_packet_length (cfg : P2PProtocol) (p : P2PPacket) : Nat :=
  P2PHeader.sizeof cfg + p.length + cfg.sizeofChecksum

/-- The bytes the output stream writes for a packet: the first `total_packet_length_` bytes
starting at its header. -/
def P2PPacket.wire (cfg : P2PProtocol) (p : P2PPacket) : List Nat :=
  p.bytes.take (p.total_packet_length cfg)

/-- The wheel speed model of the comment in `DutyCycleFromLinearSpeed`:
`wheel_speed = max(0, kSpeedModelSpeedOffset - kSpeedModelFactor *
exp(-(duty_cycle + kSpeedModelDutyCycleOffset) / kSpeedModelTimeConstant))`. -/
def wheelSpeedModel {α : Type} [LinearOrderedField α] (exp : α → α) (duty_cycle : α) : α :=
  max 0 (kSpeedModelSpeedOffset - kSpeedModelFactor *
    exp (-(duty_cycle + kSpeedModelDutyCycleOffset) / kSpeedModelTimeConstant))

namespace P2PPriority

/-- `operator==`. -/
def eq (a b : P2PPriority) : Bool := a.toInt == b.toInt

/-- `operator!=`. -/
def ne (a b : P2PPriority) : Bool := !(a.eq b)

/-- `operator<`: the integers are compared the other way round. -/
def lt (a b : P2PPriority) : Bool := decide (b.toInt < a.toInt)

/-- `operator<=`. -/
def le (a b : P2PPriority) : Bool := a.lt b || a.eq b

/-- `operator>`. -/
def gt (a b : P2PPriority) : Bool := !(a.le b)

/-- `operator>=`. -/
def ge (a b : P2PPriority) : Bool := !(a.lt b)

end P2PPriority

/-- The input stream after `n` calls of `Run` on a new stream of `exampleProtocol` that is fed
`input`. -/
def exampleInputAfter (n : Nat) (input : List Nat) : P2PPacketInputStream :=
  ((P2PPacketInputStream.runN exampleProtocol .kLittleEndian n (newInputStream exampleProtocol 2)
    input).getD (newInputStream exampleProtocol 2, [])).1

/-- Whether `Run()` in this state reaches a call of `byte_stream_.Read`. -/
def P2PPacketInputStream.readsByte (cfg : P2PProtocol) (s : P2PPacketInputStream) : Bool :=
  match s.state_ with
  | .kWaitingForPacket => true
  | .kReadingHeader => decide (s.current_field_read_bytes_ < P2PHeader.sizeof cfg)
  | .kReadingContent =>
    match s.NewValue with
    | none => false
    | some (_, packet) => decide (s.current_field_read_bytes_ < packet.length)
  | .kDisambiguatingStartTokenInContent => s.NewValue.isSome
  | .kReadingFooter =>
    match s.NewValue with
    | none => false
    | some _ => decide (s.current_field_read_bytes_ < cfg.sizeofChecksum)

/-! ### The history of a run of the output stream

`Run` is called again and again; the claims on serialization and bursts speak of what the calls
wrote since a packet was picked and since `burst_end_timestamp_ns_` was last assigned. The
definitions below run `P2PPacketOutputStream.Run` and keep that history next to the stream. -/

/-- One call `Run(timestamp_ns)`, with what the transport's `Write(buffer, n)` returns in it. -/
structure RunCall where
  timestamp_ns : Nat
  Write : Int → Int

/-- A burst: the timestamp of the `Run` call that assigned `burst_end_timestamp_ns_` and the
bytes of the packet that were still to be written then. -/
structure BurstRecord where
  start_ns : Nat
  remaining : Int
  deriving DecidableEq, Repr

/-- The length of the burst: `min(total_packet_length_, GetBurstMaxLength())` for the first burst
of a packet, `min(pending_packet_bytes_, GetBurstMaxLength())` for the next ones. -/
def BurstRecord.length (byte_stream_ : P2PByteStream) (b : BurstRecord) : Int :=
  min b.remaining byte_stream_.GetBurstMaxLength

/-- The packet `current_packet_` points to. -/
def P2PPacketOutputStream.currentPacket (s : P2PPacketOutputStream) : Option P2PPacket :=
  match s.current_packet_ with
  | none => none
  | some ptr => s.packet_buffer_.deref ptr

/-- Whether `Run(timestamp_ns)` takes a branch that assigns `burst_end_timestamp_ns_`: it picks
a packet in `kGettingNextPacket`, or sends the next burst in `kWaitingForBurstIngestion`. -/
def P2PPacketOutputStream.beginsBurst (s : P2PPacketOutputStream) (timestamp_ns : Nat) : Bool :=
  match s.state_ with
  | .kGettingNextPacket => s.packet_buffer_.OldestValuePtr.isSome
  | .kSendingBurst => false
  | .kWaitingForBurstIngestion =>
    decide (¬ timestamp_ns < s.burst_end_timestamp_ns_ ∧ ¬ s.pending_packet_bytes_ ≤ 0)

/-- The bytes of the packet still to be written when `Run` begins a burst: the
`total_packet_length` of the packet it picks in `kGettingNextPacket`, `pending_packet_bytes_`
otherwise. -/
def P2PPacketOutputStream.remainingAtBurst (cfg : P2PProtocol) (s : P2PPacketOutputStream) : Int :=
  match s.state_ with
  | .kGettingNextPacket =>
    match s.packet_buffer_.OldestValuePtr with
    | none => 0
    | some ptr =>
      match s.packet_buffer_.deref ptr with
      | none => 0
      | some packet =>
        (P2PHeader.sizeof cfg : Int) + (packet.length : Int) + (cfg.sizeofChecksum : Int)
  | _ => s.pending_packet_bytes_

/-- The output stream with its history: the bytes the transport accepted since `Run` last picked
a packet, those it accepted since `burst_end_timestamp_ns_` was last assigned, and the bursts
begun so far, newest first. -/
structure OutputTrace where
  stream : P2PPacketOutputStream
  packet_written : List Nat
  burst_written : List Nat
  bursts : List BurstRecord

namespace OutputTrace

/-- The history is empty. -/
def start (s : P2PPacketOutputStream) : OutputTrace :=
  { stream := s, packet_written := [], burst_written := [], bursts := [] }

/-- One call of `Run`: the stream and the history afterwards, and the bytes the call wrote. -/
def run (cfg : P2PProtocol) (byte_stream_ : P2PByteStream) (t : OutputTrace) (c : RunCall) :
    Option (OutputTrace × List Nat) :=
  match t.stream.Run cfg byte_stream_ c.Write c.timestamp_ns with
  | none => none
  | some r =>
    if t.stream.beginsBurst c.timestamp_ns then
      some
        ({ stream := r.stream
           packet_written :=
             if t.stream.state_ = .kGettingNextPacket then r.written
             else t.packet_written ++ r.written
           burst_written := r.written
           bursts :=
             { start_ns := c.timestamp_ns, remaining := t.stream.remainingAtBurst cfg } ::
               t.bursts }, r.written)
    else
      some
        ({ stream := r.stream
           packet_written := t.packet_written ++ r.written
           burst_written := t.burst_written ++ r.written
           bursts := t.bursts }, r.written)

/-- A sequence of calls of `Run`. -/
def runs (cfg : P2PProtocol) (byte_stream_ : P2PByteStream) :
    OutputTrace → List RunCall → Option OutputTrace
  | t, [] => some t
  | t, c :: cs =>
    match t.run cfg byte_stream_ c with
    | none => none
    | some (t1, _) => runs cfg byte_stream_ t1 cs

end OutputTrace

/-- The slots of the buffer are where `Run` looks for them: every read index is inside its ring,
and every committed packet has its `total_packet_length` bytes inside the packet. -/
def PriorityRingBuffer.WellFormed (cfg : P2PProtocol) (b : PriorityRingBuffer) : Prop :=
  ∀ p : P2PPriority,
    (b.ring p).read_index < (b.ring p).values.length ∧
    ∀ packet ∈ (b.ring p).committed, packet.total_packet_length cfg ≤ packet.bytes.length

/-- What holds of the output stream and its history between two calls of `Run`, for a transport
that accepts between 0 and `n` bytes of the `n` offered. -/
def OutputTrace.Serializing (cfg : P2PProtocol) (byte_stream_ : P2PByteStream) (t : OutputTrace) :
    Prop :=
  t.stream.packet_buffer_.WellFormed cfg ∧
  (t.burst_written.length : Int) ≤ byte_stream_.GetBurstMaxLength ∧
  (t.stream.state_ ≠ .kGettingNextPacket →
    ∃ packet b rest,
      t.stream.currentPacket = some packet ∧
      packet.total_packet_length cfg ≤ packet.bytes.length ∧
      t.bursts = b :: rest ∧
      t.stream.total_packet_length_ =
        (P2PHeader.sizeof cfg : Int) + (packet.length : Int) + (cfg.sizeofChecksum : Int) ∧
      0 ≤ t.stream.pending_burst_bytes_ ∧
      t.stream.pending_burst_bytes_ ≤ t.stream.pending_packet_bytes_ ∧
      t.stream.pending_packet_bytes_ ≤ t.stream.total_packet_length_ ∧
      t.packet_written =
        packet.bytes.take (t.stream.total_packet_length_ - t.stream.pending_packet_bytes_).toNat ∧
      (t.burst_written.length : Int) + t.stream.pending_burst_bytes_ = b.length byte_stream_ ∧
      b.remaining = t.stream.pending_packet_bytes_ + (t.burst_written.length : Int) ∧
      (t.stream.state_ = .kWaitingForBurstIngestion → t.stream.pending_burst_bytes_ = 0))

/-- Every read index of the buffer is inside its ring. -/
def PriorityRingBuffer.Indexed (b : PriorityRingBuffer) : Prop :=
  ∀ p : P2PPriority, (b.ring p).read_index < (b.ring p).values.length

/-- A call of `Run` on a transport that accepts at most 5 bytes at a time. -/
def exampleRunCall (timestamp_ns : Nat) : RunCall :=
  { timestamp_ns := timestamp_ns, Write := fun n => min n 5 }

/-! ### The sequence counter as an odometer -/

/-- The claim's formula for the sequence counter: the `n` bytes of an odometer in base `L` that
was advanced `k` times from 0; byte `i` is `floor(k / L^i) mod L`. -/
def odometerDigits (L n k : Nat) : List Nat :=
  (List.range n).map fun i => k / L ^ i % L

/-- The bytes of a counter in memory order read as a little-endian integer. -/
def littleEndianValue : List Nat → Nat
  | [] => 0
  | b :: rest => b + 256 * littleEndianValue rest

namespace P2PPacketOutputStream

/-- One call on the output stream, with the packet it committed: when `Commit(priority)` returns
true, this is the packet in the slot that `packet_buffer_.NewValue(priority)` referred to. -/
def callCommitted (cfg : P2PProtocol) (e : Endianness) (byte_stream_ : P2PByteStream)
    (s : P2PPacketOutputStream) : OutputCall → Option (P2PPacketOutputStream × Option P2PPacket)
  | .commit priority =>
    match s.Commit cfg e priority with
    | none => none
    | some (t, true) =>
      some (t, t.packet_buffer_.deref
        { priority := priority, index := (s.packet_buffer_.ring priority).write_index })
    | some (t, false) => some (t, none)
  | c => (s.call cfg e byte_stream_ c).map fun t => (t, none)

/-- A sequence of calls on the output stream: the state afterwards and the packets committed by
the calls of `Commit` that returned true, in the order of the calls. -/
def committedPackets (cfg : P2PProtocol) (e : Endianness) (byte_stream_ : P2PByteStream) :
    P2PPacketOutputStream → List OutputCall → Option (P2PPacketOutputStream × List P2PPacket)
  | s, [] => some (s, [])
  | s, c :: cs =>
    match s.callCommitted cfg e byte_stream_ c with
    | none => none
    | some (s1, packet) =>
      match committedPackets cfg e byte_stream_ s1 cs with
      | none => none
      | some (t, packets) => some (t, packet.toList ++ packets)

end P2PPacketOutputStream

/-- The packets committed by the calls that lead to `exampleCommitted`. -/
def exampleCommittedPackets : List P2PPacket :=
  (((newOutputStream exampleProtocol 2).committedPackets exampleProtocol .kLittleEndian
    P2PByteStreamLinux [.fill .kLow 3 [1, 170, 3], .commit .kLow, .commit .kHigh]).getD
    (newOutputStream exampleProtocol 2, [])).2

/-- The index into `content()` at which this call of `Run` stores the byte it reads, if it reads
one into the packet: `&packet.content()[current_field_read_bytes_]` in `kReadingContent` (when
`current_field_read_bytes_ < packet.length()`) and in `kDisambiguatingStartTokenInContent`,
`packet.content() + packet.length() + current_field_read_bytes_` in `kReadingFooter` (when
`current_field_read_bytes_ < sizeof(P2PFooter)`). -/
def P2PPacketInputStream.storeIndex (cfg : P2PProtocol) (s : P2PPacketInputStream) : Option Nat :=
  match s.state_ with
  | .kWaitingForPacket => none
  | .kReadingHeader => none
  | .kReadingContent =>
    match s.NewValue with
    | none => none
    | some (_, packet) =>
      if packet.length ≤ s.current_field_read_bytes_ then none
      else some s.current_field_read_bytes_
  | .kDisambiguatingStartTokenInContent =>
    match s.NewValue with
    | none => none
    | some _ => some s.current_field_read_bytes_
  | .kReadingFooter =>
    match s.NewValue with
    | none => none
    | some (_, packet) =>
      if cfg.sizeofChecksum ≤ s.current_field_read_bytes_ then none
      else some (packet.length + s.current_field_read_bytes_)

/-- The read position is inside the content of the packet under reception:
`current_field_read_bytes_` is at most the stored length in `kReadingContent` and below it in
`kDisambiguatingStartTokenInContent`. -/
def P2PPacketInputStream.InsidePacket (s : P2PPacketInputStream) : Prop :=
  ∀ (priority : P2PPriority) (packet : P2PPacket), s.NewValue = some (priority, packet) →
    (s.state_ = .kReadingContent → s.current_field_read_bytes_ ≤ packet.length) ∧
    (s.state_ = .kDisambiguatingStartTokenInContent →
      s.current_field_read_bytes_ < packet.length)

/-- While a packet is being sent, `current_packet_` is the oldest packet of the highest
non-empty priority, the one `packet_buffer_.Consume()` removes. -/
def OutputTrace.SendingOldest (t : OutputTrace) : Prop :=
  t.stream.state_ ≠ .kGettingNextPacket →
    t.stream.packet_buffer_.OldestValuePtr = t.stream.current_packet_

/-- The history after the given calls of `Run` on `exampleCommitted`, on the transport of
`exampleRunCall`. -/
def exampleTrace (calls : List RunCall) : OutputTrace :=
  ((OutputTrace.start exampleCommitted).runs exampleProtocol P2PByteStreamLinux calls).getD
    (OutputTrace.start exampleCommitted)

theorem incrementSequenceNumber_lt (L : Nat) (hL : 0 < L) (l : List Nat)
    (h : ∀ b ∈ l, b < L) : ∀ b ∈ incrementSequenceNumber L l, b < L := by
  induction l with
  | nil => simp [incrementSequenceNumber]
  | cons a rest ih =>
    intro b hb
    have hrest : ∀ b ∈ rest, b < L := fun b hb => h b (List.mem_cons_of_mem _ hb)
    simp only [incrementSequenceNumber] at hb
    split at hb
    · rcases List.mem_cons.mp hb with rfl | hb
      · exact Nat.mod_lt _ hL
      · exact hrest b hb
    · rcases List.mem_cons.mp hb with rfl | hb
      · exact Nat.mod_lt _ hL
      · exact ih hrest b hb

theorem RingBuffer.mem_committed (r : RingBuffer) (p : P2PPacket) :
    p ∈ r.committed ↔ ∃ i, i < r.size ∧ r.values.get? ((r.read_index + i) % r.Capacity) = some p := by
  simp [RingBuffer.committed, List.mem_filterMap]

theorem RingBuffer.committed_setNewValue (P : P2PPacket → Prop) (r : RingBuffer) (v : P2PPacket)
    (h : ∀ p ∈ r.committed, P p) (hv : ∀ old, r.NewValue = some old → old ∈ r.committed → P v) :
    ∀ p ∈ (r.setNewValue v).committed, P p := by
  intro p hp
  rw [RingBuffer.mem_committed] at hp
  obtain ⟨i, hi, hget⟩ := hp
  simp only [RingBuffer.setNewValue, RingBuffer.Capacity, List.length_set] at hget hi
  by_cases hw : r.write_index = (r.read_index + i) % r.values.length
  · rw [← hw] at hget
    rw [List.get?_eq_getElem?, List.getElem?_set_self'] at hget
    cases hold : r.values[r.write_index]? with
    | none => simp [hold] at hget
    | some old =>
      simp [hold] at hget
      subst hget
      apply hv old
      · simp [RingBuffer.NewValue, hold]
      · rw [RingBuffer.mem_committed]
        exact ⟨i, hi, by simp [RingBuffer.Capacity, ← hw, hold]⟩
  · rw [List.get?_eq_getElem?, List.getElem?_set_ne hw] at hget
    apply h
    rw [RingBuffer.mem_committed]
    exact ⟨i, hi, by simpa [RingBuffer.Capacity] using hget⟩

theorem RingBuffer.mod_succ_add (a i c : Nat) : ((a + 1) % c + i) % c = (a + (i + 1)) % c := by
  rw [Nat.mod_add_mod]
  congr 1
  omega

theorem RingBuffer.committed_Commit (P : P2PPacket → Prop) (r : RingBuffer)
    (h : ∀ p ∈ r.committed, P p) (hv : ∀ v, r.NewValue = some v → P v) :
    ∀ p ∈ r.Commit.committed, P p := by
  intro p hp
  rw [RingBuffer.mem_committed] at hp
  obtain ⟨i, hi, hget⟩ := hp
  by_cases hfull : r.size < r.values.length
  · simp only [RingBuffer.Commit, hfull, if_true, RingBuffer.Capacity] at hget hi
    by_cases hlast : i = r.size
    · subst hlast
      exact hv p (by simpa [RingBuffer.NewValue, RingBuffer.write_index, RingBuffer.Capacity] using hget)
    · apply h
      rw [RingBuffer.mem_committed]
      exact ⟨i, by omega, by simpa [RingBuffer.Capacity] using hget⟩
  · simp only [RingBuffer.Commit, hfull, if_false, RingBuffer.Capacity] at hget hi
    rw [RingBuffer.mod_succ_add] at hget
    by_cases hlast : i + 1 = r.size
    · apply hv p
      simp only [RingBuffer.NewValue, RingBuffer.write_index, RingBuffer.Capacity]
      rw [← hlast]
      exact hget
    · apply h
      rw [RingBuffer.mem_committed]
      exact ⟨i + 1, by omega, hget⟩

theorem RingBuffer.committed_Consume (P : P2PPacket → Prop) (r : RingBuffer)
    (h : ∀ p ∈ r.committed, P p) : ∀ p ∈ r.Consume.committed, P p := by
  intro p hp
  by_cases hempty : r.size = 0
  · simp only [RingBuffer.Consume, hempty, if_true] at hp
    exact h p hp
  · rw [RingBuffer.mem_committed] at hp
    obtain ⟨i, hi, hget⟩ := hp
    simp only [RingBuffer.Consume, hempty, if_false, RingBuffer.Capacity] at hget hi
    rw [RingBuffer.mod_succ_add] at hget
    apply h
    rw [RingBuffer.mem_committed]
    exact ⟨i + 1, by omega, hget⟩
theorem PriorityRingBuffer.ring_setRing (b : PriorityRingBuffer) (p q : P2PPriority)
    (r : RingBuffer) : (b.setRing q r).ring p = if p = q then r else b.ring p := by
  cases p <;> cases q <;> simp [PriorityRingBuffer.setRing, PriorityRingBuffer.ring]

theorem mem_LocalToNetwork (e : Endianness) (l : List Nat) (b : Nat) :
    b ∈ LocalToNetwork e l ↔ b ∈ l := by
  cases e <;> simp [LocalToNetwork]

theorem P2PPacket.PrepareToSend_header (cfg : P2PProtocol) (p q : P2PPacket)
    (h : p.PrepareToSend cfg = some q) :
    q.header = { p.header with length := (P2PPacket.escape cfg p.contentBytes).length } := by
  unfold P2PPacket.PrepareToSend at h
  simp only at h
  split at h
  · exact absurd h (by simp)
  · injection h with h
    subst h
    rfl

theorem PriorityRingBuffer.rings_committed_setNewValue (P : P2PPacket → Prop) (b : PriorityRingBuffer)
    (q : P2PPriority) (v : P2PPacket)
    (h : ∀ p : P2PPriority, ∀ x ∈ (b.ring p).committed, P x)
    (hv : ∀ old, b.NewValue q = some old → old ∈ (b.ring q).committed → P v) :
    ∀ p : P2PPriority, ∀ x ∈ ((b.setNewValue q v).ring p).committed, P x := by
  intro p x hx
  rw [PriorityRingBuffer.setNewValue, PriorityRingBuffer.ring_setRing] at hx
  split at hx
  · exact RingBuffer.committed_setNewValue P (b.ring q) v (h q) hv x hx
  · exact h p x hx

theorem PriorityRingBuffer.rings_committed_setNewValue_Commit (P : P2PPacket → Prop)
    (b : PriorityRingBuffer) (q : P2PPriority) (v : P2PPacket)
    (h : ∀ p : P2PPriority, ∀ x ∈ (b.ring p).committed, P x) (hv : P v) :
    ∀ p : P2PPriority, ∀ x ∈ (((b.setNewValue q v).Commit q).ring p).committed, P x := by
  intro p x hx
  have h1 := PriorityRingBuffer.rings_committed_setNewValue P b q v h (fun _ _ _ => hv)
  rw [PriorityRingBuffer.Commit, PriorityRingBuffer.ring_setRing] at hx
  split at hx
  · refine RingBuffer.committed_Commit P _ (h1 q) ?_ x hx
    intro w hw
    rw [PriorityRingBuffer.setNewValue, PriorityRingBuffer.ring_setRing, if_pos rfl] at hw
    simp only [RingBuffer.NewValue, RingBuffer.setNewValue, RingBuffer.write_index,
      RingBuffer.Capacity, List.length_set, List.get?_eq_getElem?] at hw
    rw [List.getElem?_set_self'] at hw
    cases hold : (b.ring q).values[((b.ring q).read_index + (b.ring q).size) %
        (b.ring q).values.length]? with
    | none => simp [hold] at hw
    | some old =>
      simp [hold] at hw
      subst hw
      exact hv
  · exact h1 p x hx

theorem PriorityRingBuffer.rings_committed_Consume (P : P2PPacket → Prop) (b : PriorityRingBuffer)
    (h : ∀ p : P2PPriority, ∀ x ∈ (b.ring p).committed, P x) :
    ∀ p : P2PPriority, ∀ x ∈ (b.Consume.1.ring p).committed, P x := by
  intro p x hx
  unfold PriorityRingBuffer.Consume at hx
  split at hx
  · exact h p x hx
  · rename_i q _
    simp only at hx
    rw [PriorityRingBuffer.ring_setRing] at hx
    split at hx
    · exact RingBuffer.committed_Consume P _ (h q) x hx
    · exact h p x hx

theorem P2PPacketOutputStream.Run_committed (P : P2PPacket → Prop) (cfg : P2PProtocol)
    (bs : P2PByteStream) (Write : Int → Int) (s : P2PPacketOutputStream) (now : Nat)
    (r : P2PPacketOutputStream.RunResult) (hrun : s.Run cfg bs Write now = some r)
    (h : ∀ p : P2PPriority, ∀ x ∈ (s.packet_buffer_.ring p).committed, P x) :
    (∀ p : P2PPriority, ∀ x ∈ (r.stream.packet_buffer_.ring p).committed, P x) ∧
      r.stream.current_sequence_number_ = s.current_sequence_number_ := by
  unfold P2PPacketOutputStream.Run at hrun
  split at hrun
  · split at hrun
    · injection hrun with hrun; subst hrun; exact ⟨h, rfl⟩
    · split at hrun
      · exact absurd hrun (by simp)
      · injection hrun with hrun; subst hrun; exact ⟨h, rfl⟩
  · split at hrun
    · injection hrun with hrun; subst hrun; exact ⟨h, rfl⟩
    · simp only at hrun
      split at hrun
      · exact absurd hrun (by simp)
      · injection hrun with hrun; subst hrun; exact ⟨h, rfl⟩
  · split at hrun
    · injection hrun with hrun; subst hrun; exact ⟨h, rfl⟩
    · split at hrun
      · injection hrun with hrun; subst hrun
        exact ⟨PriorityRingBuffer.rings_committed_Consume P _ h, rfl⟩
      · simp only at hrun
        split at hrun
        · exact absurd hrun (by simp)
        · injection hrun with hrun; subst hrun; exact ⟨h, rfl⟩

theorem P2PPacketOutputStream.SequenceSafe_call (cfg : P2PProtocol) (e : Endianness)
    (bs : P2PByteStream) (hL : 0 < cfg.kP2PLowestToken) (s t : P2PPacketOutputStream)
    (c : OutputCall) (hc : s.call cfg e bs c = some t) (hs : s.SequenceSafe cfg) :
    t.SequenceSafe cfg := by
  obtain ⟨hctr, hbuf⟩ := hs
  cases c with
  | fill priority length content =>
    simp only [P2PPacketOutputStream.call, Option.some.injEq] at hc
    subst hc
    unfold P2PPacketOutputStream.fillNewPacket
    split
    · split
      · exact ⟨hctr, hbuf⟩
      · rename_i packet hpacket
        refine ⟨hctr, ?_⟩
        apply PriorityRingBuffer.rings_committed_setNewValue _ _ _ _ hbuf
        intro old hold hmem
        have hsame : packet = old := by
          rw [hpacket] at hold
          exact Option.some.inj hold
        subst hsame
        exact hbuf priority packet hmem
    · exact ⟨hctr, hbuf⟩
  | commit priority =>
    simp only [P2PPacketOutputStream.call, P2PPacketOutputStream.Commit] at hc
    split at hc
    · exact absurd hc (by simp)
    · rename_i packet0 hpacket0
      split at hc
      · simp only [Option.map_some', Option.some.injEq] at hc
        subst hc
        refine ⟨hctr, ?_⟩
        apply PriorityRingBuffer.rings_committed_setNewValue _ _ _ _ hbuf
        intro old _ _
        exact hctr
      · rename_i packet2 hpacket2
        simp only [Option.map_some', Option.some.injEq] at hc
        subst hc
        refine ⟨incrementSequenceNumber_lt _ hL _ hctr, ?_⟩
        apply PriorityRingBuffer.rings_committed_setNewValue_Commit _ _ _ _ hbuf
        intro b hb
        have hh := P2PPacket.PrepareToSend_header cfg _ _ hpacket2
        simp only [P2PPacket.sequence_number, P2PPacketOutputStream.fixEndianness,
          P2PPacket.setChecksum, mem_LocalToNetwork, hh] at hb
        exact hctr b hb
  | run timestamp_ns Write =>
    simp only [P2PPacketOutputStream.call] at hc
    cases hrun : s.Run cfg bs Write timestamp_ns with
    | none => simp [hrun] at hc
    | some r =>
      simp only [hrun, Option.map_some', Option.some.injEq] at hc
      subst hc
      obtain ⟨h1, h2⟩ := P2PPacketOutputStream.Run_committed _ cfg bs Write s timestamp_ns r hrun hbuf
      exact ⟨by rw [h2]; exact hctr, h1⟩

theorem P2PPacketOutputStream.SequenceSafe_calls (cfg : P2PProtocol) (e : Endianness)
    (bs : P2PByteStream) (hL : 0 < cfg.kP2PLowestToken) (cs : List OutputCall) :
    ∀ s t : P2PPacketOutputStream, s.calls cfg e bs cs = some t → s.SequenceSafe cfg →
      t.SequenceSafe cfg := by
  induction cs with
  | nil =>
    intro s t h hs
    simp only [P2PPacketOutputStream.calls, Option.some.injEq] at h
    subst h
    exact hs
  | cons c cs ih =>
    intro s t h hs
    simp only [P2PPacketOutputStream.calls] at h
    split at h
    · exact absurd h (by simp)
    · rename_i s1 hs1
      exact ih s1 t h (P2PPacketOutputStream.SequenceSafe_call cfg e bs hL s s1 c hs1 hs)

/-- C1 (sequence safety): starting from a freshly constructed output stream (counter 0, no
committed packet) and for every `kP2PLowestToken` of at least 1, after any sequence of calls
(filling a new packet, `Commit`, `Run`) every byte of `current_sequence_number_` and every
sequence-number byte stored in a committed packet is strictly below `kP2PLowestToken`. -/
theorem sequence_safety (cfg : P2PProtocol) (e : Endianness) (bs : P2PByteStream)
    (hL : 1 ≤ cfg.kP2PLowestToken) (mem t : P2PPacketOutputStream)
    (hempty : ∀ p : P2PPriority, mem.packet_buffer_.Size p = 0) (cs : List OutputCall)
    (h : (P2PPacketOutputStream.init cfg mem).calls cfg e bs cs = some t) :
    (∀ b ∈ t.current_sequence_number_, b < cfg.kP2PLowestToken) ∧
    ∀ priority : P2PPriority, ∀ packet ∈ (t.packet_buffer_.ring priority).committed,
      ∀ b ∈ packet.sequence_number, b < cfg.kP2PLowestToken := by
  apply P2PPacketOutputStream.SequenceSafe_calls cfg e bs hL cs _ t h
  constructor
  · intro b hb
    simp only [P2PPacketOutputStream.init, List.mem_replicate] at hb
    omega
  · intro p x hx
    have := hempty p
    simp only [PriorityRingBuffer.Size, RingBuffer.Size] at this
    simp [P2PPacketOutputStream.init, RingBuffer.committed, this] at hx

theorem sequence_safety_witness :
    (∀ b ∈ exampleCommitted.current_sequence_number_, b < exampleProtocol.kP2PLowestToken) ∧
      ∀ priority : P2PPriority, ∀ packet ∈ (exampleCommitted.packet_buffer_.ring priority).committed,
        ∀ b ∈ packet.sequence_number, b < exampleProtocol.kP2PLowestToken :=
  sequence_safety exampleProtocol .kLittleEndian P2PByteStreamLinux (by decide)
    (rawOutputStream exampleProtocol 2) exampleCommitted (by intro p; cases p <;> rfl)
    [.fill .kLow 3 [1, 170, 3], .commit .kLow, .commit .kHigh] (by rfl)

section WheelTheorems

variable {α : Type} [LinearOrderedField α]

theorem clamp_mem (v lo hi : α) (h : lo ≤ hi) : lo ≤ clamp v lo hi ∧ clamp v lo hi ≤ hi := by
  unfold clamp
  split_ifs with h1 h2
  · exact ⟨le_refl _, h⟩
  · exact ⟨h, le_refl _⟩
  · exact ⟨not_lt.mp h1, not_lt.mp h2⟩

theorem DutyCycleFromLinearSpeed_zero (log : α → α) : DutyCycleFromLinearSpeed log 0 = 0 := by
  simp [DutyCycleFromLinearSpeed]

theorem DutyCycleFromLinearSpeed_high (log : α → α) (v : α) (h : kSpeedModelSpeedOffset ≤ v) :
    DutyCycleFromLinearSpeed log v = 1 := by
  have hpos : (0 : α) < kSpeedModelSpeedOffset := by
    unfold kSpeedModelSpeedOffset; norm_num
  have hv : v ≠ 0 := ne_of_gt (lt_of_lt_of_le hpos h)
  simp [DutyCycleFromLinearSpeed, hv, h]

theorem DutyCycleFromLinearSpeed_low (log : α → α) (v : α) (h : v ≤ -kSpeedModelSpeedOffset) :
    DutyCycleFromLinearSpeed log v = -1 := by
  have hpos : (0 : α) < kSpeedModelSpeedOffset := by
    unfold kSpeedModelSpeedOffset; norm_num
  have hv : v ≠ 0 := by
    intro h0
    rw [h0] at h
    linarith
  have hnot : ¬ kSpeedModelSpeedOffset ≤ v := by
    intro h1
    linarith
  simp [DutyCycleFromLinearSpeed, hv, h, hnot]

theorem DutyCycleFromLinearSpeed_abs_le (log : α → α) (v : α) :
    |DutyCycleFromLinearSpeed log v| ≤ 1 := by
  unfold DutyCycleFromLinearSpeed
  split_ifs with h0 h1 h2 h3
  · simp
  · simp
  · simp
  · obtain ⟨hlo, hhi⟩ := clamp_mem
      (kSpeedModelTimeConstant * log kSpeedModelFactor - kSpeedModelDutyCycleOffset -
        kSpeedModelTimeConstant * log (kSpeedModelSpeedOffset - |v|))
      (kPWMDutyCycleMin : α) kPWMDutyCycleMax (by simp [kPWMDutyCycleMin, kPWMDutyCycleMax])
    simp only [kPWMDutyCycleMin, kPWMDutyCycleMax] at hlo hhi ⊢
    rw [abs_neg, abs_le]
    exact ⟨by linarith, hhi⟩
  · obtain ⟨hlo, hhi⟩ := clamp_mem
      (kSpeedModelTimeConstant * log kSpeedModelFactor - kSpeedModelDutyCycleOffset -
        kSpeedModelTimeConstant * log (kSpeedModelSpeedOffset - |v|))
      (kPWMDutyCycleMin : α) kPWMDutyCycleMax (by simp [kPWMDutyCycleMin, kPWMDutyCycleMax])
    simp only [kPWMDutyCycleMin, kPWMDutyCycleMax] at hlo hhi ⊢
    rw [abs_le]
    exact ⟨by linarith, hhi⟩

end WheelTheorems

/-- C9 (controller saturation): over the reals, `DutyCycleFromLinearSpeed(0) = 0`, every speed
of at least `kSpeedModelSpeedOffset` (0.66) gives duty cycle 1, every speed of at most `-0.66`
gives -1, and every duty cycle has absolute value at most 1. -/
theorem controller_saturation :
    DutyCycleFromLinearSpeed Real.log (0 : ℝ) = 0 ∧
    (∀ v : ℝ, (66 / 100 : ℝ) ≤ v → DutyCycleFromLinearSpeed Real.log v = 1) ∧
    (∀ v : ℝ, v ≤ -(66 / 100 : ℝ) → DutyCycleFromLinearSpeed Real.log v = -1) ∧
    ∀ v : ℝ, |DutyCycleFromLinearSpeed Real.log v| ≤ 1 :=
  ⟨DutyCycleFromLinearSpeed_zero Real.log,
    fun v h => DutyCycleFromLinearSpeed_high Real.log v h,
    fun v h => DutyCycleFromLinearSpeed_low Real.log v h,
    DutyCycleFromLinearSpeed_abs_le Real.log⟩

theorem controller_saturation_witness :
    DutyCycleFromLinearSpeed Real.log (1 : ℝ) = 1 ∧
      DutyCycleFromLinearSpeed Real.log (-1 : ℝ) = -1 :=
  ⟨controller_saturation.2.1 1 (by norm_num), controller_saturation.2.2.1 (-1) (by norm_num)⟩

/-- C10 (direction inference): in every `RunAfterPeriod` call the direction estimate becomes
`target > 0 ∨ (target = 0 ∧ last PID output ≥ 0)`; so after `SetLinearSpeed(0)` with a positive
last PID output the next tick has `is_turning_forward_` true, and with a negative target it is
false whatever the last PID output. -/
theorem direction_inference {α : Type} [LinearOrderedField α] (log : α → α) (robot : RobotModel α)
    (c : WheelSpeedController α) (ticks : Int) (now_nanos nanos_since_last_call : Nat) :
    ((c.RunAfterPeriod log robot ticks now_nanos nanos_since_last_call).controller.is_turning_forward_
        = true ↔ (0 < c.pid_.target_ ∨ (c.pid_.target_ = 0 ∧ 0 ≤ c.pid_.output_))) ∧
    (∀ (now_seconds : α) (ticks0 : Int), 0 < c.pid_.output_ →
      ((c.SetLinearSpeed now_seconds ticks0 0).RunAfterPeriod log robot ticks now_nanos
        nanos_since_last_call).controller.is_turning_forward_ = true) ∧
    (c.pid_.target_ < 0 →
      (c.RunAfterPeriod log robot ticks now_nanos nanos_since_last_call).controller.is_turning_forward_
        = false) := by
  refine ⟨?_, ?_, ?_⟩
  · simp [WheelSpeedController.RunAfterPeriod]
  · intro now_seconds ticks0 hout
    simp [WheelSpeedController.RunAfterPeriod, WheelSpeedController.SetLinearSpeed, le_of_lt hout]
  · intro hneg
    simp [WheelSpeedController.RunAfterPeriod, not_lt.mpr (le_of_lt hneg), ne_of_lt hneg]

theorem direction_inference_witness :
    ((exampleController.SetLinearSpeed 0 0 0).RunAfterPeriod exampleLog exampleRobot 5 100000000
        10000000).controller.is_turning_forward_ = true ∧
    ((exampleController.SetLinearSpeed 0 0 (-1 / 5)).RunAfterPeriod exampleLog exampleRobot 5
        100000000 10000000).controller.is_turning_forward_ = false :=
  ⟨(direction_inference exampleLog exampleRobot exampleController 5 100000000 10000000).2.1 0 0
      (by simp [exampleController]),
    (direction_inference exampleLog exampleRobot (exampleController.SetLinearSpeed 0 0 (-1 / 5)) 5
      100000000 10000000).2.2 (by norm_num [WheelSpeedController.SetLinearSpeed])⟩

/-- C6 (`NewPacket`): `NewPacket(p)` returns `kUnavailableError` exactly when
`Capacity(p) - Size(p) = 0`; otherwise the result is ok and views the slot at the write head of
priority `p`; in both cases the stream, hence the number of committed packets of every priority,
is unchanged. -/
theorem NewPacket_unavailable_iff_full (s : P2PPacketOutputStream) (p : P2PPriority) :
    ((s.NewPacket p).2.status_ = .kUnavailableError ↔
      (s.packet_buffer_.Capacity p : Int) - (s.packet_buffer_.Size p : Int) = 0) ∧
    ((s.packet_buffer_.Capacity p : Int) - (s.packet_buffer_.Size p : Int) ≠ 0 →
      (s.NewPacket p).2.ok = true ∧
      (s.NewPacket p).2.value_ =
        some { priority := p, index := (s.packet_buffer_.ring p).write_index } ∧
      s.packet_buffer_.deref { priority := p, index := (s.packet_buffer_.ring p).write_index } =
        s.packet_buffer_.NewValue p) ∧
    (s.NewPacket p).1 = s ∧
    ∀ q : P2PPriority, (s.NewPacket p).1.packet_buffer_.Size q = s.packet_buffer_.Size q := by
  by_cases h : (s.packet_buffer_.Capacity p : Int) - (s.packet_buffer_.Size p : Int) = 0
  · simp [P2PPacketOutputStream.NewPacket, P2PPacketOutputStream.NumAvailableSlots, h,
      StatusOr.ofStatus]
  · simp [P2PPacketOutputStream.NewPacket, P2PPacketOutputStream.NumAvailableSlots, h,
      StatusOr.ofValue, StatusOr.ok, PriorityRingBuffer.deref, PriorityRingBuffer.NewValue,
      RingBuffer.NewValue]

theorem NewPacket_unavailable_iff_full_witness :
    ((newOutputStream exampleProtocol 2).NewPacket .kLow).2.ok = true ∧
    ((newOutputStream exampleProtocol 2).NewPacket .kLow).2.value_ =
      some { priority := .kLow, index := 0 } ∧
    (newOutputStream exampleProtocol 2).packet_buffer_.deref { priority := .kLow, index := 0 } =
      (newOutputStream exampleProtocol 2).packet_buffer_.NewValue .kLow :=
  (NewPacket_unavailable_iff_full (newOutputStream exampleProtocol 2) .kLow).2.1 (by decide)

theorem PriorityRingBuffer.Size_setNewValue (b : PriorityRingBuffer) (p q : P2PPriority)
    (v : P2PPacket) : (b.setNewValue p v).Size q = b.Size q := by
  simp only [PriorityRingBuffer.Size, PriorityRingBuffer.setNewValue,
    PriorityRingBuffer.ring_setRing]
  split
  · subst_vars; rfl
  · rfl

/-- C8 (sleep hint of the output stream): whatever `Run(now)` returns, its hint is
`burst_end - now` when the state is `kWaitingForBurstIngestion` and `now < burst_end` (and then
nothing is written and the stream is unchanged), and 0 in every other case; in
`kGettingNextPacket` with an empty buffer the stream stays in `kGettingNextPacket`, writes nothing
and returns 0. `Run` does return in both of these cases, and in every state whose
`current_packet_` points to a slot. -/
theorem Run_sleep_hint (cfg : P2PProtocol) (bs : P2PByteStream) (Write : Int → Int)
    (s : P2PPacketOutputStream) (now : Nat) :
    (∀ r, s.Run cfg bs Write now = some r →
      r.time_until_next_event =
        if s.state_ = .kWaitingForBurstIngestion ∧ now < s.burst_end_timestamp_ns_ then
          s.burst_end_timestamp_ns_ - now
        else 0) ∧
    (s.state_ = .kWaitingForBurstIngestion → now < s.burst_end_timestamp_ns_ →
      s.Run cfg bs Write now =
        some { stream := s, time_until_next_event := s.burst_end_timestamp_ns_ - now,
               written := [] }) ∧
    (s.state_ = .kGettingNextPacket → s.packet_buffer_.OldestValuePtr = none →
      ∃ r, s.Run cfg bs Write now = some r ∧ r.stream.state_ = .kGettingNextPacket ∧
        r.stream.packet_buffer_ = s.packet_buffer_ ∧ r.written = [] ∧
        r.time_until_next_event = 0) ∧
    (s.state_ ≠ .kGettingNextPacket →
      (∃ ptr packet, s.current_packet_ = some ptr ∧ s.packet_buffer_.deref ptr = some packet) →
      ∃ r, s.Run cfg bs Write now = some r) := by
  refine ⟨?_, ?_, ?_, ?_⟩
  · intro r hrun
    unfold P2PPacketOutputStream.Run at hrun
    split at hrun
    · rename_i hstate
      simp only [hstate, false_and, if_false, reduceCtorEq]
      split at hrun
      · injection hrun with hrun; subst hrun; rfl
      · split at hrun
        · exact absurd hrun (by simp)
        · injection hrun with hrun; subst hrun; rfl
    · rename_i hstate
      simp only [hstate, false_and, if_false, reduceCtorEq]
      split at hrun
      · injection hrun with hrun; subst hrun; rfl
      · simp only at hrun
        split at hrun
        · exact absurd hrun (by simp)
        · injection hrun with hrun; subst hrun; rfl
    · rename_i hstate
      simp only [hstate, true_and]
      split at hrun
      · rename_i hlt
        injection hrun with hrun; subst hrun
        simp [hlt]
      · rename_i hlt
        simp only [hlt, if_false]
        split at hrun
        · injection hrun with hrun; subst hrun; rfl
        · simp only at hrun
          split at hrun
          · exact absurd hrun (by simp)
          · injection hrun with hrun; subst hrun; rfl
  · intro hstate hlt
    simp [P2PPacketOutputStream.Run, hstate, hlt]
  · intro hstate hnone
    have hrun : s.Run cfg bs Write now =
        some { stream := { s with current_packet_ := none }, time_until_next_event := 0,
               written := [] } := by
      simp only [P2PPacketOutputStream.Run, hstate, hnone]
    exact ⟨_, hrun, hstate, rfl, rfl, rfl⟩
  · rintro hstate ⟨ptr, packet, hptr, hderef⟩
    have hwrite : ∀ offset written, s.writeFrom offset written =
        some ((packet.bytes.drop offset.toNat).take written.toNat) := by
      intro offset written
      simp [P2PPacketOutputStream.writeFrom, hptr, hderef]
    unfold P2PPacketOutputStream.Run
    split
    · rename_i h
      exact absurd h hstate
    · split
      · exact ⟨_, rfl⟩
      · simp only [hwrite]
        exact ⟨_, rfl⟩
    · split
      · exact ⟨_, rfl⟩
      · split
        · exact ⟨_, rfl⟩
        · simp only [hwrite]
          exact ⟨_, rfl⟩

theorem Run_sleep_hint_witness :
    exampleWaiting.Run exampleProtocol P2PByteStreamLinux (fun n => n) 1000 =
      some { stream := exampleWaiting
             time_until_next_event := exampleWaiting.burst_end_timestamp_ns_ - 1000
             written := [] } :=
  (Run_sleep_hint exampleProtocol P2PByteStreamLinux (fun n => n) exampleWaiting 1000).2.1
    (by rfl) (by decide)

/-- C5 (continuation acceptance): when the input state machine has a complete header with
`is_continuation` set, the next `Run` reads no byte and moves to `kReadingContent` if and only if
the incoming sequence number (in host order) equals the one stored in the uncommitted slot of
that priority and the incoming (remaining) length is at most the stored length; in that case
`current_field_read_bytes_ = stored length - remaining`; otherwise it moves to
`kWaitingForPacket`; in both cases the buffer (stored header, received content, committed
packets) is unchanged. -/
theorem continuation_acceptance (cfg : P2PProtocol) (e : Endianness) (s : P2PPacketInputStream)
    (input : List Nat) (priority : P2PPriority) (packet : P2PPacket)
    (hstate : s.state_ = .kReadingHeader)
    (hdone : P2PHeader.sizeof cfg ≤ s.current_field_read_bytes_)
    (hcont : s.incoming_header_.is_continuation ≠ 0)
    (hslot : s.NewValue = some (priority, packet)) :
    ∃ t, s.Run cfg e input = some (t, input) ∧
      (t.state_ = .kReadingContent ↔
        (NetworkToLocal e s.incoming_header_.sequence_number = packet.header.sequence_number ∧
          s.incoming_header_.length ≤ packet.length)) ∧
      (t.state_ = .kReadingContent →
        t.current_field_read_bytes_ = packet.length - s.incoming_header_.length) ∧
      (t.state_ ≠ .kReadingContent → t.state_ = .kWaitingForPacket) ∧
      t.packet_buffer_ = s.packet_buffer_ ∧ t.incoming_header_ = s.incoming_header_ := by
  by_cases hacc : NetworkToLocal e s.incoming_header_.sequence_number ≠
      packet.header.sequence_number ∨ packet.length < s.incoming_header_.length
  · refine ⟨{ s with state_ := .kWaitingForPacket }, ?_, ?_, ?_, ?_, rfl, rfl⟩
    · simp [P2PPacketInputStream.Run, hstate, hdone, P2PPacketInputStream.headerComplete, hslot,
        hcont, hacc]
    · simp only [reduceCtorEq, false_iff, not_and, not_le]
      intro hseq
      rcases hacc with h | h
      · exact absurd hseq h
      · exact h
    · intro h
      exact absurd h (by simp)
    · intro _
      rfl
  · refine ⟨{ s with
        current_field_read_bytes_ := packet.length - s.incoming_header_.length
        state_ := .kReadingContent }, ?_, ?_, ?_, ?_, rfl, rfl⟩
    · simp [P2PPacketInputStream.Run, hstate, hdone, P2PPacketInputStream.headerComplete, hslot,
        hcont, hacc]
    · simp only [true_iff]
      rw [not_or, not_not, not_lt] at hacc
      exact hacc
    · intro _
      rfl
    · intro h
      exact absurd rfl h

theorem continuation_acceptance_witness :
    ∃ t, exampleContinuation.Run exampleProtocol .kLittleEndian [3, 4, 15] = some (t, [3, 4, 15]) ∧
      (t.state_ = .kReadingContent ↔
        (NetworkToLocal .kLittleEndian exampleContinuation.incoming_header_.sequence_number =
            (P2PHeader.mk 170 0 0 4 [5, 0, 0, 0]).sequence_number ∧
          exampleContinuation.incoming_header_.length ≤
            (P2PPacket.mk (P2PHeader.mk 170 0 0 4 [5, 0, 0, 0])
              [1, 2, 170, 2, 0, 0, 0, 0, 0]).length)) ∧
      (t.state_ = .kReadingContent →
        t.current_field_read_bytes_ =
          (P2PPacket.mk (P2PHeader.mk 170 0 0 4 [5, 0, 0, 0]) [1, 2, 170, 2, 0, 0, 0, 0, 0]).length -
            exampleContinuation.incoming_header_.length) ∧
      (t.state_ ≠ .kReadingContent → t.state_ = .kWaitingForPacket) ∧
      t.packet_buffer_ = exampleContinuation.packet_buffer_ ∧
      t.incoming_header_ = exampleContinuation.incoming_header_ :=
  continuation_acceptance exampleProtocol .kLittleEndian exampleContinuation [3, 4, 15] .kLow
    (P2PPacket.mk (P2PHeader.mk 170 0 0 4 [5, 0, 0, 0]) [1, 2, 170, 2, 0, 0, 0, 0, 0])
    (by rfl) (by decide) (by decide) (by rfl)

theorem P2PPacketOutputStream.not_continuation_call (cfg : P2PProtocol) (e : Endianness)
    (bs : P2PByteStream) (s t : P2PPacketOutputStream) (c : OutputCall)
    (hc : s.call cfg e bs c = some t)
    (hs : ∀ q : P2PPriority, ∀ x ∈ (s.packet_buffer_.ring q).committed,
      x.header.is_continuation = 0) :
    ∀ q : P2PPriority, ∀ x ∈ (t.packet_buffer_.ring q).committed,
      x.header.is_continuation = 0 := by
  cases c with
  | fill priority length content =>
    simp only [P2PPacketOutputStream.call, Option.some.injEq] at hc
    subst hc
    unfold P2PPacketOutputStream.fillNewPacket
    split
    · split
      · exact hs
      · rename_i packet hpacket
        apply PriorityRingBuffer.rings_committed_setNewValue _ _ _ _ hs
        intro old hold hmem
        have hsame : packet = old := by
          rw [hpacket] at hold
          exact Option.some.inj hold
        subst hsame
        exact hs priority packet hmem
    · exact hs
  | commit priority =>
    simp only [P2PPacketOutputStream.call, P2PPacketOutputStream.Commit] at hc
    split at hc
    · exact absurd hc (by simp)
    · rename_i packet0 hpacket0
      split at hc
      · simp only [Option.map_some', Option.some.injEq] at hc
        subst hc
        apply PriorityRingBuffer.rings_committed_setNewValue _ _ _ _ hs
        intro old _ _
        rfl
      · rename_i packet2 hpacket2
        simp only [Option.map_some', Option.some.injEq] at hc
        subst hc
        apply PriorityRingBuffer.rings_committed_setNewValue_Commit _ _ _ _ hs
        have hh := P2PPacket.PrepareToSend_header cfg _ _ hpacket2
        simp [P2PPacketOutputStream.fixEndianness, P2PPacket.setChecksum, hh]
  | run timestamp_ns Write =>
    simp only [P2PPacketOutputStream.call] at hc
    cases hrun : s.Run cfg bs Write timestamp_ns with
    | none => simp [hrun] at hc
    | some r =>
      simp only [hrun, Option.map_some', Option.some.injEq] at hc
      subst hc
      exact (P2PPacketOutputStream.Run_committed _ cfg bs Write s timestamp_ns r hrun hs).1

theorem P2PPacketOutputStream.not_continuation_calls (cfg : P2PProtocol) (e : Endianness)
    (bs : P2PByteStream) (cs : List OutputCall) :
    ∀ s t : P2PPacketOutputStream, s.calls cfg e bs cs = some t →
      (∀ q : P2PPriority, ∀ x ∈ (s.packet_buffer_.ring q).committed,
        x.header.is_continuation = 0) →
      ∀ q : P2PPriority, ∀ x ∈ (t.packet_buffer_.ring q).committed,
        x.header.is_continuation = 0 := by
  induction cs with
  | nil =>
    intro s t h hs
    simp only [P2PPacketOutputStream.calls, Option.some.injEq] at h
    subst h
    exact hs
  | cons c cs ih =>
    intro s t h hs
    simp only [P2PPacketOutputStream.calls] at h
    split at h
    · exact absurd h (by simp)
    · rename_i s1 hs1
      exact ih s1 t h (P2PPacketOutputStream.not_continuation_call cfg e bs s s1 c hs1 hs)

/-- C3, as the code behaves (the claim fails): a packet is committed at high priority while a
low-priority packet is partly transmitted, between two bursts; the bytes written next are the
remaining 17 bytes of the low-priority packet (end of content and checksum), with no byte of the
high-priority packet `170 2 0 0 1 0 0 0 3` and no continuation header before them. -/
theorem preemption_counterexample :
    examplePartlySent.state_ = .kWaitingForBurstIngestion ∧
    examplePartlySent.current_packet_ = some { priority := .kLow, index := 0 } ∧
    examplePartlySent.total_packet_length_ = 59 ∧
    examplePartlySent.pending_packet_bytes_ = 17 ∧
    examplePartlySent.Commit wideProtocol .kLittleEndian .kHigh = some (examplePreempted, true) ∧
    (examplePreempted.packet_buffer_.OldestValue.map fun packet => packet.bytes.take 9) =
      some [170, 2, 0, 0, 1, 0, 0, 0, 3] ∧
    (examplePreempted.runs wideProtocol P2PByteStreamLinux (fun n => n)
        [20000000, 20000000]).map Prod.snd =
      some [34, 35, 36, 37, 38, 39, 40, 41, 42, 43, 44, 45, 46, 47, 48, 49, 85] ∧
    ((examplePreempted.runs wideProtocol P2PByteStreamLinux (fun n => n)
        [20000000, 20000000]).map fun r => (r.1.state_, r.1.pending_packet_bytes_)) =
      some (.kWaitingForBurstIngestion, 0) := by
  refine ⟨by rfl, by rfl, by rfl, by rfl, by rfl, by rfl, by rfl, by rfl⟩

/-- C3, amended: the output stream does not preempt. In every state the output stream reaches
from its construction, when a packet of any priority is committed while another packet is partly
transmitted (state `kWaitingForBurstIngestion` with bytes pending), the next `Run` after the
burst has been ingested continues the packet in transmission: it writes its bytes from offset
`total_packet_length_ - pending_packet_bytes_`, with no new header, and takes nothing from the
buffer. Moreover every committed packet has `is_continuation = 0`. -/
theorem output_stream_does_not_preempt (cfg : P2PProtocol) (e : Endianness) (bs : P2PByteStream)
    (Write : Int → Int) (mem s s1 : P2PPacketOutputStream) (cs : List OutputCall)
    (p : P2PPriority) (ok : Bool) (now : Nat) (ptr : PacketPtr) (packet : P2PPacket)
    (hempty : ∀ q : P2PPriority, mem.packet_buffer_.Size q = 0)
    (hreach : (P2PPacketOutputStream.init cfg mem).calls cfg e bs cs = some s)
    (hstate : s.state_ = .kWaitingForBurstIngestion) (hpending : 0 < s.pending_packet_bytes_)
    (hcommit : s.Commit cfg e p = some (s1, ok)) (hnow : s.burst_end_timestamp_ns_ ≤ now)
    (hptr : s.current_packet_ = some ptr) (hderef : s1.packet_buffer_.deref ptr = some packet) :
    (∃ r, s1.Run cfg bs Write now = some r ∧
      r.written =
        (packet.bytes.drop (s.total_packet_length_ - s.pending_packet_bytes_).toNat).take
          (Write (min s.pending_packet_bytes_ bs.GetBurstMaxLength)).toNat ∧
      r.stream.current_packet_ = some ptr ∧
      r.stream.packet_buffer_ = s1.packet_buffer_ ∧
      r.stream.state_ = .kSendingBurst ∧
      r.stream.total_packet_length_ = s.total_packet_length_ ∧
      r.stream.pending_packet_bytes_ =
        s.pending_packet_bytes_ - Write (min s.pending_packet_bytes_ bs.GetBurstMaxLength)) ∧
    ∀ q : P2PPriority, ∀ x ∈ (s1.packet_buffer_.ring q).committed,
      x.header.is_continuation = 0 := by
  constructor
  · have hsame : s1.state_ = s.state_ ∧ s1.current_packet_ = s.current_packet_ ∧
        s1.pending_packet_bytes_ = s.pending_packet_bytes_ ∧
        s1.total_packet_length_ = s.total_packet_length_ ∧
        s1.burst_end_timestamp_ns_ = s.burst_end_timestamp_ns_ := by
      unfold P2PPacketOutputStream.Commit at hcommit
      split at hcommit
      · exact absurd hcommit (by simp)
      · dsimp only at hcommit
        split at hcommit
        · simp only [Option.some.injEq, Prod.mk.injEq] at hcommit
          obtain ⟨h1, _⟩ := hcommit
          subst h1
          exact ⟨rfl, rfl, rfl, rfl, rfl⟩
        · simp only [Option.some.injEq, Prod.mk.injEq] at hcommit
          obtain ⟨h1, _⟩ := hcommit
          subst h1
          exact ⟨rfl, rfl, rfl, rfl, rfl⟩
    obtain ⟨h1, h2, h3, h4, h5⟩ := hsame
    have hwrite : ∀ offset written, s1.writeFrom offset written =
        some ((packet.bytes.drop offset.toNat).take written.toNat) := by
      intro offset written
      simp [P2PPacketOutputStream.writeFrom, h2, hptr, hderef]
    have hnot1 : ¬ now < s1.burst_end_timestamp_ns_ := by rw [h5]; omega
    have hnot2 : ¬ s1.pending_packet_bytes_ ≤ 0 := by rw [h3]; omega
    cases hr : s1.Run cfg bs Write now with
    | none =>
      simp [P2PPacketOutputStream.Run, h1, hstate, hnot1, hnot2, hwrite] at hr
    | some r =>
      simp only [P2PPacketOutputStream.Run, h1, hstate, hnot1, hnot2, if_false, hwrite,
        Option.some.injEq] at hr
      subst hr
      simp only [h2, h3, h4, hptr]
      exact ⟨_, rfl, rfl, rfl, rfl, rfl, rfl, rfl⟩
  · have hcont := P2PPacketOutputStream.not_continuation_calls cfg e bs cs _ s hreach (by
      intro q x hx
      have := hempty q
      simp only [PriorityRingBuffer.Size, RingBuffer.Size] at this
      simp [P2PPacketOutputStream.init, RingBuffer.committed, this] at hx)
    exact P2PPacketOutputStream.not_continuation_call cfg e bs s s1 (.commit p)
      (by simp [P2PPacketOutputStream.call, hcommit]) hcont

theorem output_stream_does_not_preempt_witness :
    (∃ r, examplePreempted.Run wideProtocol P2PByteStreamLinux (fun n => n) 20000000 = some r ∧
      r.written =
        (((examplePreempted.packet_buffer_.deref { priority := .kLow, index := 0 }).getD
            (emptyPacket wideProtocol)).bytes.drop
          (examplePartlySent.total_packet_length_ - examplePartlySent.pending_packet_bytes_).toNat).take
          ((fun n : Int => n)
            (min examplePartlySent.pending_packet_bytes_
              P2PByteStreamLinux.GetBurstMaxLength)).toNat ∧
      r.stream.current_packet_ = some { priority := .kLow, index := 0 } ∧
      r.stream.packet_buffer_ = examplePreempted.packet_buffer_ ∧
      r.stream.state_ = .kSendingBurst ∧
      r.stream.total_packet_length_ = examplePartlySent.total_packet_length_ ∧
      r.stream.pending_packet_bytes_ =
        examplePartlySent.pending_packet_bytes_ -
          (fun n : Int => n)
            (min examplePartlySent.pending_packet_bytes_ P2PByteStreamLinux.GetBurstMaxLength)) ∧
    ∀ q : P2PPriority, ∀ x ∈ (examplePreempted.packet_buffer_.ring q).committed,
      x.header.is_continuation = 0 :=
  output_stream_does_not_preempt wideProtocol .kLittleEndian P2PByteStreamLinux (fun n => n)
    (rawOutputStream wideProtocol 2) examplePartlySent examplePreempted
    [.fill .kLow 50 (List.range 50), .commit .kLow, .run 0 (fun n => n), .run 0 (fun n => n)]
    .kHigh true 20000000 { priority := .kLow, index := 0 }
    ((examplePreempted.packet_buffer_.deref { priority := .kLow, index := 0 }).getD
      (emptyPacket wideProtocol))
    (by intro q; cases q <;> rfl) (by rfl)
    (by rfl) (by decide) (by rfl) (by decide) (by rfl) (by rfl)

/-- C4, evaluated at a failing input: the garbage `170 3 0 0 0 0 0 0` (a header whose priority
byte 3 is not a level) commits nothing and leaves the machine in `kReadingHeader` with a complete
header; the next `Run`, whatever bytes follow, evaluates `P2PPriority(3)`, whose assertion fails:
the valid frame `exampleFrame` fed afterwards is not delivered. The same frame fed to a freshly
constructed machine is delivered in 13 calls. -/
theorem resynchronization_fails_after_invalid_priority :
    P2PPacketInputStream.runN exampleProtocol .kLittleEndian 8 (newInputStream exampleProtocol 2)
        exampleGarbage = some (exampleAfterGarbage, []) ∧
    exampleAfterGarbage.state_ = .kReadingHeader ∧
    exampleAfterGarbage.current_field_read_bytes_ = P2PHeader.sizeof exampleProtocol ∧
    exampleAfterGarbage.incoming_header_.priority = 3 ∧
    (∀ q : P2PPriority, exampleAfterGarbage.NumAvailablePackets q = 0) ∧
    exampleAfterGarbage.Run exampleProtocol .kLittleEndian exampleFrame = none ∧
    (∀ k : Nat, P2PPacketInputStream.runN exampleProtocol .kLittleEndian (k + 1)
        exampleAfterGarbage exampleFrame = none) ∧
    ((P2PPacketInputStream.runN exampleProtocol .kLittleEndian 13 (newInputStream exampleProtocol 2)
        exampleFrame).map fun r =>
          (r.1.state_, r.2, r.1.packet_buffer_.low.committed, r.1.packet_buffer_.medium.size,
            r.1.packet_buffer_.high.size)) =
      some (.kWaitingForPacket, [],
        [{ header := { start_token := 170, priority := 0, is_continuation := 0, length := 2
                       sequence_number := [5, 0, 0, 0] }
           content_and_footer := [1, 2, 10, 0, 0, 0, 0, 0, 0] }], 0, 0) := by
  refine ⟨by rfl, by rfl, by rfl, by rfl, ?_, by rfl, ?_, by rfl⟩
  · intro q
    cases q <;> rfl
  · intro k
    have h : exampleAfterGarbage.Run exampleProtocol .kLittleEndian exampleFrame = none := by rfl
    simp only [P2PPacketInputStream.runN, h]

theorem P2PPacketOutputStream.Run_buffer (cfg : P2PProtocol) (bs : P2PByteStream)
    (Write : Int → Int) (s : P2PPacketOutputStream) (now : Nat)
    (r : P2PPacketOutputStream.RunResult) (hrun : s.Run cfg bs Write now = some r) :
    (r.stream.packet_buffer_ = s.packet_buffer_ ∨
      r.stream.packet_buffer_ = s.packet_buffer_.Consume.1) ∧
    r.stream.current_sequence_number_ = s.current_sequence_number_ := by
  unfold P2PPacketOutputStream.Run at hrun
  split at hrun
  · split at hrun
    · injection hrun with hrun; subst hrun; exact ⟨Or.inl rfl, rfl⟩
    · split at hrun
      · exact absurd hrun (by simp)
      · injection hrun with hrun; subst hrun; exact ⟨Or.inl rfl, rfl⟩
  · split at hrun
    · injection hrun with hrun; subst hrun; exact ⟨Or.inl rfl, rfl⟩
    · simp only at hrun
      split at hrun
      · exact absurd hrun (by simp)
      · injection hrun with hrun; subst hrun; exact ⟨Or.inl rfl, rfl⟩
  · split at hrun
    · injection hrun with hrun; subst hrun; exact ⟨Or.inl rfl, rfl⟩
    · split at hrun
      · injection hrun with hrun; subst hrun; exact ⟨Or.inr rfl, rfl⟩
      · simp only at hrun
        split at hrun
        · exact absurd hrun (by simp)
        · injection hrun with hrun; subst hrun; exact ⟨Or.inl rfl, rfl⟩

theorem PriorityRingBuffer.values_Commit (b : PriorityRingBuffer) (q p : P2PPriority) :
    ((b.Commit q).ring p).values = (b.ring p).values := by
  rw [PriorityRingBuffer.Commit, PriorityRingBuffer.ring_setRing]
  split
  · subst_vars
    unfold RingBuffer.Commit
    split <;> rfl
  · rfl

theorem PriorityRingBuffer.values_Consume (b : PriorityRingBuffer) (p : P2PPriority) :
    (b.Consume.1.ring p).values = (b.ring p).values := by
  unfold PriorityRingBuffer.Consume
  split
  · rfl
  · simp only
    rw [PriorityRingBuffer.ring_setRing]
    split
    · subst_vars
      unfold RingBuffer.Consume
      split <;> rfl
    · rfl

theorem exp_bound_for_plant_inverse : Real.exp (-(99 / 29)) ≤ (41 / 660 : ℝ) := by
  have h1 : (1 : ℝ) + 99 / 232 ≤ Real.exp (99 / 232) := by
    have := Real.add_one_le_exp (99 / 232 : ℝ)
    linarith
  have h2 : Real.exp (99 / 29) = Real.exp (99 / 232) ^ 8 := by
    rw [← Real.exp_nat_mul]
    congr 1
    norm_num
  have h3 : (660 / 41 : ℝ) ≤ Real.exp (99 / 29) := by
    rw [h2]
    calc (660 / 41 : ℝ) ≤ (1 + 99 / 232) ^ 8 := by norm_num
      _ ≤ Real.exp (99 / 232) ^ 8 := by
        exact pow_le_pow_left₀ (by norm_num) h1 8
  rw [Real.exp_neg]
  have hpos : (0 : ℝ) < Real.exp (99 / 29) := Real.exp_pos _
  rw [inv_le_comm₀ hpos (by norm_num)]
  calc ((41 : ℝ) / 660)⁻¹ = 660 / 41 := by norm_num
    _ ≤ Real.exp (99 / 29) := h3

theorem clamp_of_mem {α : Type} [LinearOrderedField α] (v lo hi : α) (h1 : lo ≤ v)
    (h2 : v ≤ hi) : clamp v lo hi = v := by
  unfold clamp
  rw [if_neg (not_lt.mpr h1), if_neg (not_lt.mpr h2)]

theorem GetMaxLinearSpeed_pos_lt :
    (1 / 2 : ℝ) < GetMaxLinearSpeed Real.log Real.exp ∧
      GetMaxLinearSpeed Real.log Real.exp < (66 / 100 : ℝ) ∧
      GetMaxLinearSpeed Real.log Real.exp =
        66 / 100 - 41 / 1000 * Real.exp (-(1 + -(99 / 100)) / (29 / 100)) := by
  have hF : (0 : ℝ) < 41 / 1000 := by norm_num
  have hform : GetMaxLinearSpeed Real.log Real.exp =
      66 / 100 - 41 / 1000 * Real.exp (-(1 + -(99 / 100)) / (29 / 100)) := by
    simp only [GetMaxLinearSpeed, kSpeedModelTimeConstant, kSpeedModelFactor,
      kSpeedModelDutyCycleOffset, kSpeedModelSpeedOffset, kPWMDutyCycleMax]
    have : ((29 / 100 : ℝ) * Real.log (41 / 1000) - -(99 / 100) - 1) / (29 / 100) =
        Real.log (41 / 1000) + -(1 + -(99 / 100)) / (29 / 100) := by
      field_simp
      ring
    rw [this, Real.exp_add, Real.exp_log hF]
  have hexp_le : Real.exp (-(1 + -(99 / 100 : ℝ)) / (29 / 100)) ≤ 1 := by
    rw [Real.exp_le_one_iff]
    norm_num
  have hexp_pos : 0 < Real.exp (-(1 + -(99 / 100 : ℝ)) / (29 / 100)) := Real.exp_pos _
  refine ⟨?_, ?_, hform⟩
  · rw [hform]
    nlinarith
  · rw [hform]
    nlinarith

/-- C11 (plant inverse): over the reals, for every speed `v` with
`0 < v ≤ GetMaxLinearSpeed()` the duty cycle `DutyCycleFromLinearSpeed(v)` is the unclamped
value `τ·log(F) − D_off − τ·log(S_off − v)`, lies in `[0, 1]`, and the wheel speed model maps it
back to `v`; `GetMaxLinearSpeed() = S_off − exp((τ·log(F) − D_off − 1)/τ)` is the model's speed at
duty cycle 1 and its own duty cycle is 1; `GetMinLinearSpeed() = −GetMaxLinearSpeed()`. -/
theorem plant_inverse :
    (∀ v : ℝ, 0 < v → v ≤ GetMaxLinearSpeed Real.log Real.exp →
      DutyCycleFromLinearSpeed Real.log v =
        29 / 100 * Real.log (41 / 1000) - -(99 / 100) - 29 / 100 * Real.log (66 / 100 - v) ∧
      0 ≤ DutyCycleFromLinearSpeed Real.log v ∧ DutyCycleFromLinearSpeed Real.log v ≤ 1 ∧
      wheelSpeedModel Real.exp (DutyCycleFromLinearSpeed Real.log v) = v) ∧
    GetMaxLinearSpeed Real.log Real.exp =
      66 / 100 - Real.exp ((29 / 100 * Real.log (41 / 1000) - -(99 / 100) - 1) / (29 / 100)) ∧
    wheelSpeedModel Real.exp 1 = GetMaxLinearSpeed Real.log Real.exp ∧
    DutyCycleFromLinearSpeed Real.log (GetMaxLinearSpeed Real.log Real.exp) = 1 ∧
    GetMinLinearSpeed Real.log Real.exp = -GetMaxLinearSpeed Real.log Real.exp := by
  obtain ⟨hmaxhalf, hmaxlt, hmaxform⟩ := GetMaxLinearSpeed_pos_lt
  have hmaxpos : 0 < GetMaxLinearSpeed Real.log Real.exp := by linarith
  have hFpos : (0 : ℝ) < 41 / 1000 := by norm_num
  have hmaxdef : GetMaxLinearSpeed Real.log Real.exp =
      66 / 100 - Real.exp ((29 / 100 * Real.log (41 / 1000) - -(99 / 100) - 1) / (29 / 100)) := by
    simp only [GetMaxLinearSpeed, kSpeedModelTimeConstant, kSpeedModelFactor,
      kSpeedModelDutyCycleOffset, kSpeedModelSpeedOffset, kPWMDutyCycleMax]
  have main : ∀ v : ℝ, 0 < v → v ≤ GetMaxLinearSpeed Real.log Real.exp →
      DutyCycleFromLinearSpeed Real.log v =
        29 / 100 * Real.log (41 / 1000) - -(99 / 100) - 29 / 100 * Real.log (66 / 100 - v) ∧
      0 ≤ DutyCycleFromLinearSpeed Real.log v ∧ DutyCycleFromLinearSpeed Real.log v ≤ 1 ∧
      wheelSpeedModel Real.exp (DutyCycleFromLinearSpeed Real.log v) = v := by
    intro v hv hvmax
    have hvlt : v < 66 / 100 := lt_of_le_of_lt hvmax hmaxlt
    have hpos : 0 < 66 / 100 - v := by linarith
    have hlow : (0 : ℝ) ≤
        29 / 100 * Real.log (41 / 1000) - -(99 / 100) - 29 / 100 * Real.log (66 / 100 - v) := by
      have h1 : Real.log (66 / 100 - v) ≤ Real.log (66 / 100) :=
        Real.log_le_log hpos (by linarith)
      have h2 : Real.log (41 / 1000) - Real.log (66 / 100) = Real.log (41 / 660) := by
        rw [← Real.log_div (by norm_num) (by norm_num)]
        congr 1
        norm_num
      have h3 : -(99 / 29 : ℝ) ≤ Real.log (41 / 660) := by
        rw [Real.le_log_iff_exp_le (by norm_num)]
        exact exp_bound_for_plant_inverse
      nlinarith
    have hhigh :
        29 / 100 * Real.log (41 / 1000) - -(99 / 100) - 29 / 100 * Real.log (66 / 100 - v) ≤
          (1 : ℝ) := by
      have h1 : Real.exp ((29 / 100 * Real.log (41 / 1000) - -(99 / 100) - 1) / (29 / 100)) ≤
          66 / 100 - v := by
        rw [hmaxdef] at hvmax
        linarith
      have h2 := (Real.le_log_iff_exp_le hpos).mpr h1
      have h3 : (29 / 100 * Real.log (41 / 1000) - -(99 / 100) - 1) / (29 / 100) * (29 / 100) ≤
          Real.log (66 / 100 - v) * (29 / 100) :=
        mul_le_mul_of_nonneg_right h2 (by norm_num)
      rw [div_mul_cancel₀ _ (by norm_num : (29 / 100 : ℝ) ≠ 0)] at h3
      linarith
    have hduty : DutyCycleFromLinearSpeed Real.log v =
        29 / 100 * Real.log (41 / 1000) - -(99 / 100) - 29 / 100 * Real.log (66 / 100 - v) := by
      have hne : v ≠ 0 := ne_of_gt hv
      have h1 : ¬ (66 / 100 : ℝ) ≤ v := not_le.mpr hvlt
      have h2 : ¬ v ≤ -(66 / 100 : ℝ) := by
        intro h
        linarith
      have h3 : ¬ v < 0 := not_lt.mpr (le_of_lt hv)
      simp only [DutyCycleFromLinearSpeed, kSpeedModelTimeConstant, kSpeedModelFactor,
        kSpeedModelDutyCycleOffset, kSpeedModelSpeedOffset, kPWMDutyCycleMin, kPWMDutyCycleMax,
        if_neg hne, if_neg h1, if_neg h2, if_neg h3, abs_of_pos hv]
      exact clamp_of_mem _ _ _ hlow hhigh
    refine ⟨hduty, by rw [hduty]; exact hlow, by rw [hduty]; exact hhigh, ?_⟩
    rw [hduty]
    simp only [wheelSpeedModel, kSpeedModelTimeConstant, kSpeedModelFactor,
      kSpeedModelDutyCycleOffset, kSpeedModelSpeedOffset]
    have harg : -(29 / 100 * Real.log (41 / 1000) - -(99 / 100) -
        29 / 100 * Real.log (66 / 100 - v) + -(99 / 100)) / (29 / 100) =
        Real.log (66 / 100 - v) - Real.log (41 / 1000) := by
      field_simp
      ring
    rw [harg, Real.exp_sub, Real.exp_log hpos, Real.exp_log hFpos]
    have : (66 / 100 : ℝ) - 41 / 1000 * ((66 / 100 - v) / (41 / 1000)) = v := by
      field_simp
      ring
    rw [this]
    exact max_eq_right (le_of_lt hv)
  refine ⟨main, hmaxdef, ?_, ?_, ?_⟩
  · simp only [wheelSpeedModel, kSpeedModelTimeConstant, kSpeedModelFactor,
      kSpeedModelDutyCycleOffset, kSpeedModelSpeedOffset]
    rw [← hmaxform]
    exact max_eq_right (le_of_lt hmaxpos)
  · have h := (main _ hmaxpos (le_refl _)).1
    rw [h]
    have h1 : (66 / 100 : ℝ) - GetMaxLinearSpeed Real.log Real.exp =
        Real.exp ((29 / 100 * Real.log (41 / 1000) - -(99 / 100) - 1) / (29 / 100)) := by
      rw [hmaxdef]
      ring
    rw [h1, Real.log_exp]
    field_simp
    ring
  · rfl

theorem plant_inverse_witness :
    DutyCycleFromLinearSpeed Real.log (1 / 2 : ℝ) =
        29 / 100 * Real.log (41 / 1000) - -(99 / 100) - 29 / 100 * Real.log (66 / 100 - 1 / 2) ∧
      0 ≤ DutyCycleFromLinearSpeed Real.log (1 / 2 : ℝ) ∧
      DutyCycleFromLinearSpeed Real.log (1 / 2 : ℝ) ≤ 1 ∧
      wheelSpeedModel Real.exp (DutyCycleFromLinearSpeed Real.log (1 / 2 : ℝ)) = 1 / 2 :=
  plant_inverse.1 (1 / 2) (by norm_num) (le_of_lt GetMaxLinearSpeed_pos_lt.1)

/-- C12, as the code behaves (the claim fails): `operator<` compares the integers the other way
round while the enum gives `kLow = 0`, `kMedium = 1`, `kHigh = 2`. So `kHigh < kLow` holds although
`int(kHigh) < int(kLow)` does not, and `kHigh > kMedium`, `kMedium > kLow`, `kHigh > kLow` are all
false. -/
theorem priority_order_counterexample :
    P2PPriority.kLow.toInt = 0 ∧ P2PPriority.kMedium.toInt = 1 ∧ P2PPriority.kHigh.toInt = 2 ∧
    P2PPriority.kHigh.lt .kLow = true ∧ ¬ P2PPriority.kHigh.toInt < P2PPriority.kLow.toInt ∧
    P2PPriority.kLow.lt .kHigh = false ∧ P2PPriority.kLow.toInt < P2PPriority.kHigh.toInt ∧
    P2PPriority.kHigh.gt .kMedium = false ∧ P2PPriority.kMedium.gt .kLow = false ∧
    P2PPriority.kHigh.gt .kLow = false := by
  decide

/-- C12, amended: the six comparison operators of `P2PPriority` form a total order that reverses
the integer levels. Exactly one of `a < b`, `a == b`, `a > b` holds and `<` is transitive; the
operators are consistent (`a <= b` iff `a < b` or `a == b`; `a > b` iff not `a <= b`; `a >= b` iff
not `a < b`; `a != b` iff not `a == b`); `a == b` holds exactly when the levels are equal; and
`a < b` holds exactly when `int(a) > int(b)`, so that `kLow > kMedium > kHigh`. -/
theorem priority_operators_reverse_the_levels :
    (∀ a b : P2PPriority,
      (a.lt b = true ∧ a.eq b = false ∧ a.gt b = false) ∨
      (a.lt b = false ∧ a.eq b = true ∧ a.gt b = false) ∨
      (a.lt b = false ∧ a.eq b = false ∧ a.gt b = true)) ∧
    (∀ a b c : P2PPriority, (a.lt b && b.lt c && !(a.lt c)) = false) ∧
    (∀ a b : P2PPriority, a.le b = (a.lt b || a.eq b)) ∧
    (∀ a b : P2PPriority, a.gt b = !(a.le b)) ∧
    (∀ a b : P2PPriority, a.ge b = !(a.lt b)) ∧
    (∀ a b : P2PPriority, a.ne b = !(a.eq b)) ∧
    (∀ a b : P2PPriority, a.eq b = true ↔ a = b) ∧
    (∀ a b : P2PPriority, a.lt b = true ↔ b.toInt < a.toInt) ∧
    (∀ a b : P2PPriority, a.gt b = true ↔ a.toInt < b.toInt) ∧
    P2PPriority.kLow.gt .kMedium = true ∧ P2PPriority.kMedium.gt .kHigh = true ∧
    P2PPriority.kLow.gt .kHigh = true := by
  refine ⟨?_, ?_, ?_, ?_, ?_, ?_, ?_, ?_, ?_, rfl, rfl, rfl⟩
  · intro a b
    cases a <;> cases b <;> decide
  · intro a b c
    cases a <;> cases b <;> cases c <;> decide
  · intro a b
    rfl
  · intro a b
    rfl
  · intro a b
    rfl
  · intro a b
    rfl
  · intro a b
    cases a <;> cases b <;> decide
  · intro a b
    cases a <;> cases b <;> decide
  · intro a b
    cases a <;> cases b <;> decide

theorem P2PPacket.setContent_eq_some (p : P2PPacket) (i b : Nat)
    (h : i < p.content_and_footer.length) :
    p.setContent i b = some { p with content_and_footer := p.content_and_footer.set i b } := by
  simp [P2PPacket.setContent, h]

/-- C17 (start token outside content restarts the header): a byte equal to `start_token` read in
`kWaitingForPacket`, in `kReadingHeader` (at any position) or in `kReadingFooter` (at any
position) leads to `kReadingHeader` with `current_field_read_bytes_ = 1` and the incoming
header's `start_token` set, and the number of committed packets of every priority is unchanged;
a byte different from `start_token` read in `kWaitingForPacket` leaves the machine in
`kWaitingForPacket`. -/
theorem start_token_restarts_header (cfg : P2PProtocol) (e : Endianness)
    (s : P2PPacketInputStream) (rest : List Nat) :
    (s.state_ = .kWaitingForPacket →
      ∃ t, s.Run cfg e (cfg.kP2PStartToken :: rest) = some (t, rest) ∧
        t.state_ = .kReadingHeader ∧ t.current_field_read_bytes_ = 1 ∧
        t.incoming_header_.start_token = cfg.kP2PStartToken ∧
        t.packet_buffer_ = s.packet_buffer_) ∧
    (s.state_ = .kWaitingForPacket → ∀ b : Nat, b ≠ cfg.kP2PStartToken →
      ∃ t, s.Run cfg e (b :: rest) = some (t, rest) ∧ t.state_ = .kWaitingForPacket ∧
        t.packet_buffer_ = s.packet_buffer_) ∧
    (s.state_ = .kReadingHeader → s.current_field_read_bytes_ < P2PHeader.sizeof cfg →
      ∃ t, s.Run cfg e (cfg.kP2PStartToken :: rest) = some (t, rest) ∧
        t.state_ = .kReadingHeader ∧ t.current_field_read_bytes_ = 1 ∧
        t.incoming_header_.start_token = cfg.kP2PStartToken ∧
        t.packet_buffer_ = s.packet_buffer_) ∧
    (s.state_ = .kReadingFooter → s.current_field_read_bytes_ < cfg.sizeofChecksum →
      ∀ (priority : P2PPriority) (packet : P2PPacket),
        s.NewValue = some (priority, packet) →
        packet.length + s.current_field_read_bytes_ < packet.content_and_footer.length →
      ∃ t, s.Run cfg e (cfg.kP2PStartToken :: rest) = some (t, rest) ∧
        t.state_ = .kReadingHeader ∧ t.current_field_read_bytes_ = 1 ∧
        t.incoming_header_.start_token = cfg.kP2PStartToken ∧
        ∀ q : P2PPriority, t.NumAvailablePackets q = s.NumAvailablePackets q) := by
  refine ⟨?_, ?_, ?_, ?_⟩
  · intro hstate
    simp only [P2PPacketInputStream.Run, hstate, ↓reduceIte]
    exact ⟨_, rfl, rfl, rfl, rfl, rfl⟩
  · intro hstate b hb
    simp only [P2PPacketInputStream.Run, hstate, hb, ↓reduceIte]
    exact ⟨_, rfl, rfl, rfl⟩
  · intro hstate hlt
    simp only [P2PPacketInputStream.Run, hstate, not_le.mpr hlt, ↓reduceIte]
    exact ⟨_, rfl, rfl, rfl, rfl, rfl⟩
  · intro hstate hlt priority packet hslot hfit
    simp only [P2PPacketInputStream.Run, hstate, not_le.mpr hlt, hslot,
      P2PPacket.setContent_eq_some _ _ _ hfit, ↓reduceIte]
    refine ⟨_, rfl, rfl, rfl, rfl, ?_⟩
    intro q
    exact PriorityRingBuffer.Size_setNewValue _ _ _ _

theorem start_token_restarts_header_witness :
    (∃ t, (newInputStream exampleProtocol 2).Run exampleProtocol .kLittleEndian
          (exampleProtocol.kP2PStartToken :: [0, 0]) = some (t, [0, 0]) ∧
        t.state_ = .kReadingHeader ∧ t.current_field_read_bytes_ = 1 ∧
        t.incoming_header_.start_token = exampleProtocol.kP2PStartToken ∧
        t.packet_buffer_ = (newInputStream exampleProtocol 2).packet_buffer_) ∧
    (∃ t, (newInputStream exampleProtocol 2).Run exampleProtocol .kLittleEndian (7 :: [0, 0]) =
          some (t, [0, 0]) ∧ t.state_ = .kWaitingForPacket ∧
        t.packet_buffer_ = (newInputStream exampleProtocol 2).packet_buffer_) ∧
    (∃ t, (exampleInputAfter 3 [170, 0, 0]).Run exampleProtocol .kLittleEndian
          (exampleProtocol.kP2PStartToken :: [0, 0]) = some (t, [0, 0]) ∧
        t.state_ = .kReadingHeader ∧ t.current_field_read_bytes_ = 1 ∧
        t.incoming_header_.start_token = exampleProtocol.kP2PStartToken ∧
        t.packet_buffer_ = (exampleInputAfter 3 [170, 0, 0]).packet_buffer_) ∧
    (∃ t, (exampleInputAfter 12 [170, 0, 0, 2, 5, 0, 0, 0, 1, 2]).Run exampleProtocol
          .kLittleEndian (exampleProtocol.kP2PStartToken :: [0, 0]) = some (t, [0, 0]) ∧
        t.state_ = .kReadingHeader ∧ t.current_field_read_bytes_ = 1 ∧
        t.incoming_header_.start_token = exampleProtocol.kP2PStartToken ∧
        ∀ q : P2PPriority, t.NumAvailablePackets q =
          (exampleInputAfter 12 [170, 0, 0, 2, 5, 0, 0, 0, 1, 2]).NumAvailablePackets q) :=
  ⟨(start_token_restarts_header exampleProtocol .kLittleEndian (newInputStream exampleProtocol 2)
      [0, 0]).1 (by rfl),
    (start_token_restarts_header exampleProtocol .kLittleEndian (newInputStream exampleProtocol 2)
      [0, 0]).2.1 (by rfl) 7 (by decide),
    (start_token_restarts_header exampleProtocol .kLittleEndian (exampleInputAfter 3 [170, 0, 0])
      [0, 0]).2.2.1 (by rfl) (by decide),
    (start_token_restarts_header exampleProtocol .kLittleEndian
      (exampleInputAfter 12 [170, 0, 0, 2, 5, 0, 0, 0, 1, 2]) [0, 0]).2.2.2 (by rfl) (by decide)
      .kLow
      { header := { start_token := 170, priority := 0, is_continuation := 0, length := 2
                    sequence_number := [5, 0, 0, 0] }
        content_and_footer := [1, 2, 0, 0, 0, 0, 0, 0, 0] }
      (by rfl) (by decide)⟩

/-- C19 (start token inside content is disambiguated by the next byte): in `kReadingContent` a
`start_token` byte that is not the last content byte leads to
`kDisambiguatingStartTokenInContent`, and one that is the last content byte leads to
`kReadingHeader` with `current_field_read_bytes_ = 1`; in `kDisambiguatingStartTokenInContent`
the next byte `b` leads to `kReadingContent` if `b = special_token` (stored in the content after
the start token, which stays), to `kReadingHeader` with `current_field_read_bytes_ = 1` if
`b = start_token`, and otherwise to `kReadingHeader` with `current_field_read_bytes_ = 2`, header
byte 0 = `start_token` and header byte 1 = `b`. -/
theorem start_token_in_content (cfg : P2PProtocol) (e : Endianness) (s : P2PPacketInputStream)
    (rest : List Nat) (priority : P2PPriority) (packet : P2PPacket)
    (hslot : s.NewValue = some (priority, packet))
    (hfit : s.current_field_read_bytes_ < packet.content_and_footer.length) :
    (s.state_ = .kReadingContent → s.current_field_read_bytes_ + 1 < packet.length →
      ∃ t, s.Run cfg e (cfg.kP2PStartToken :: rest) = some (t, rest) ∧
        t.state_ = .kDisambiguatingStartTokenInContent ∧
        t.current_field_read_bytes_ = s.current_field_read_bytes_ + 1 ∧
        t.packet_buffer_ = s.packet_buffer_.setNewValue priority
          { packet with content_and_footer :=
              packet.content_and_footer.set s.current_field_read_bytes_ cfg.kP2PStartToken } ∧
        t.incoming_header_ = s.incoming_header_) ∧
    (s.state_ = .kReadingContent → s.current_field_read_bytes_ + 1 = packet.length →
      ∃ t, s.Run cfg e (cfg.kP2PStartToken :: rest) = some (t, rest) ∧
        t.state_ = .kReadingHeader ∧ t.current_field_read_bytes_ = 1 ∧
        t.incoming_header_.start_token = cfg.kP2PStartToken) ∧
    (s.state_ = .kDisambiguatingStartTokenInContent →
      ∃ t, s.Run cfg e (cfg.kP2PSpecialToken :: rest) = some (t, rest) ∧
        t.state_ = .kReadingContent ∧
        t.current_field_read_bytes_ = s.current_field_read_bytes_ + 1 ∧
        t.packet_buffer_ = s.packet_buffer_.setNewValue priority
          { packet with content_and_footer :=
              packet.content_and_footer.set s.current_field_read_bytes_ cfg.kP2PSpecialToken } ∧
        t.incoming_header_ = s.incoming_header_) ∧
    (s.state_ = .kDisambiguatingStartTokenInContent →
      cfg.kP2PStartToken ≠ cfg.kP2PSpecialToken →
      ∃ t, s.Run cfg e (cfg.kP2PStartToken :: rest) = some (t, rest) ∧
        t.state_ = .kReadingHeader ∧ t.current_field_read_bytes_ = 1 ∧
        t.incoming_header_.start_token = cfg.kP2PStartToken) ∧
    (s.state_ = .kDisambiguatingStartTokenInContent → ∀ b : Nat,
      b ≠ cfg.kP2PSpecialToken → b ≠ cfg.kP2PStartToken →
      ∃ t, s.Run cfg e (b :: rest) = some (t, rest) ∧
        t.state_ = .kReadingHeader ∧ t.current_field_read_bytes_ = 2 ∧
        t.incoming_header_.toBytes[0]? = some cfg.kP2PStartToken ∧
        t.incoming_header_.toBytes[1]? = some b) := by
  have hset := fun b => P2PPacket.setContent_eq_some packet s.current_field_read_bytes_ b hfit
  refine ⟨?_, ?_, ?_, ?_, ?_⟩
  · intro hstate hlt
    have h1 : ¬ packet.length ≤ s.current_field_read_bytes_ := by omega
    simp only [P2PPacketInputStream.Run, hstate, hslot, h1, hset, hlt, ↓reduceIte]
    exact ⟨_, rfl, rfl, rfl, rfl, rfl⟩
  · intro hstate hlast
    have h1 : ¬ packet.length ≤ s.current_field_read_bytes_ := by omega
    have h2 : ¬ s.current_field_read_bytes_ + 1 < packet.length := by omega
    simp only [P2PPacketInputStream.Run, hstate, hslot, h1, hset, h2, ↓reduceIte]
    exact ⟨_, rfl, rfl, rfl, rfl⟩
  · intro hstate
    simp only [P2PPacketInputStream.Run, hstate, hslot, hset, ↓reduceIte]
    exact ⟨_, rfl, rfl, rfl, rfl, rfl⟩
  · intro hstate htokens
    simp only [P2PPacketInputStream.Run, hstate, hslot, hset, htokens, ↓reduceIte]
    exact ⟨_, rfl, rfl, rfl, rfl⟩
  · intro hstate b hb1 hb2
    simp only [P2PPacketInputStream.Run, hstate, hslot, hset, hb1, hb2, ↓reduceIte]
    exact ⟨_, rfl, rfl, rfl, rfl, rfl⟩

theorem start_token_in_content_witness :
    (∃ t, (exampleInputAfter 10 [170, 0, 0, 4, 5, 0, 0, 0, 1]).Run exampleProtocol .kLittleEndian
          (exampleProtocol.kP2PStartToken :: [255]) = some (t, [255]) ∧
        t.state_ = .kDisambiguatingStartTokenInContent ∧
        t.current_field_read_bytes_ =
          (exampleInputAfter 10 [170, 0, 0, 4, 5, 0, 0, 0, 1]).current_field_read_bytes_ + 1 ∧
        t.packet_buffer_ =
          (exampleInputAfter 10 [170, 0, 0, 4, 5, 0, 0, 0, 1]).packet_buffer_.setNewValue .kLow
            { header := { start_token := 170, priority := 0, is_continuation := 0, length := 4
                          sequence_number := [5, 0, 0, 0] }
              content_and_footer := ([1, 0, 0, 0, 0, 0, 0, 0, 0] : List Nat).set
                (exampleInputAfter 10 [170, 0, 0, 4, 5, 0, 0, 0, 1]).current_field_read_bytes_
                exampleProtocol.kP2PStartToken } ∧
        t.incoming_header_ = (exampleInputAfter 10 [170, 0, 0, 4, 5, 0, 0, 0, 1]).incoming_header_) ∧
    (∃ t, (exampleInputAfter 11 [170, 0, 0, 4, 5, 0, 0, 0, 1, 170]).Run exampleProtocol
          .kLittleEndian (9 :: [0]) = some (t, [0]) ∧
        t.state_ = .kReadingHeader ∧ t.current_field_read_bytes_ = 2 ∧
        t.incoming_header_.toBytes[0]? = some exampleProtocol.kP2PStartToken ∧
        t.incoming_header_.toBytes[1]? = some 9) :=
  ⟨(start_token_in_content exampleProtocol .kLittleEndian
      (exampleInputAfter 10 [170, 0, 0, 4, 5, 0, 0, 0, 1]) [255] .kLow
      { header := { start_token := 170, priority := 0, is_continuation := 0, length := 4
                    sequence_number := [5, 0, 0, 0] }
        content_and_footer := [1, 0, 0, 0, 0, 0, 0, 0, 0] }
      (by rfl) (by decide)).1 (by rfl) (by decide),
    (start_token_in_content exampleProtocol .kLittleEndian
      (exampleInputAfter 11 [170, 0, 0, 4, 5, 0, 0, 0, 1, 170]) [0] .kLow
      { header := { start_token := 170, priority := 0, is_continuation := 0, length := 4
                    sequence_number := [5, 0, 0, 0] }
        content_and_footer := [1, 170, 0, 0, 0, 0, 0, 0, 0] }
      (by rfl) (by decide)).2.2.2.2 (by rfl) 9 (by decide) (by decide)⟩

theorem special_token_before_last_footer_byte (cfg : P2PProtocol) (e : Endianness)
    (s : P2PPacketInputStream) (rest : List Nat)
    (htokens : cfg.kP2PStartToken ≠ cfg.kP2PSpecialToken) :
    (s.state_ = .kReadingHeader → s.current_field_read_bytes_ < P2PHeader.sizeof cfg →
      ∃ t, s.Run cfg e (cfg.kP2PSpecialToken :: rest) = some (t, rest) ∧
        t.state_ = .kWaitingForPacket ∧ t.packet_buffer_ = s.packet_buffer_) ∧
    (s.state_ = .kReadingFooter → s.current_field_read_bytes_ < cfg.sizeofChecksum →
      ∀ (priority : P2PPriority) (packet : P2PPacket),
        s.NewValue = some (priority, packet) →
        packet.length + s.current_field_read_bytes_ < packet.content_and_footer.length →
      ∃ t, s.Run cfg e (cfg.kP2PSpecialToken :: rest) = some (t, rest) ∧
        t.state_ = .kWaitingForPacket ∧
        (s.current_field_read_bytes_ + 1 < cfg.sizeofChecksum →
          ∀ q : P2PPriority, t.NumAvailablePackets q = s.NumAvailablePackets q)) := by
  have hne : ¬ cfg.kP2PSpecialToken = cfg.kP2PStartToken := fun h => htokens h.symm
  refine ⟨?_, ?_⟩
  · intro hstate hlt
    simp only [P2PPacketInputStream.Run, hstate, not_le.mpr hlt, hne, ↓reduceIte]
    exact ⟨_, rfl, rfl, rfl⟩
  · intro hstate hlt priority packet hslot hfit
    have hset : packet.setContent (packet.length + s.current_field_read_bytes_)
        cfg.kP2PSpecialToken = some
          { packet with content_and_footer := (List.set packet.content_and_footer
            (packet.length + s.current_field_read_bytes_) cfg.kP2PSpecialToken) } :=
      P2PPacket.setContent_eq_some _ _ _ hfit
    by_cases hlast : cfg.sizeofChecksum ≤ s.current_field_read_bytes_ + 1
    · simp only [P2PPacketInputStream.Run, hstate, not_le.mpr hlt, hslot, hset, hne, hlast,
        ↓reduceIte]
      split
      · exact ⟨_, rfl, rfl, fun h => absurd hlast (not_le.mpr h)⟩
      · exact ⟨_, rfl, rfl, fun h => absurd hlast (not_le.mpr h)⟩
    · simp only [P2PPacketInputStream.Run, hstate, not_le.mpr hlt, hslot, hset, hne, hlast,
        ↓reduceIte]
      refine ⟨_, rfl, rfl, fun _ => ?_⟩
      intro q
      exact PriorityRingBuffer.Size_setNewValue _ _ _ _

theorem P2PPacketInputStream.Run_idle (cfg : P2PProtocol) (e : Endianness)
    (s : P2PPacketInputStream) (h : s.readsByte cfg = true) : s.Run cfg e [] = some (s, []) := by
  unfold P2PPacketInputStream.readsByte at h
  unfold P2PPacketInputStream.Run
  split at h
  · rename_i hstate
    simp only [hstate]
  · rename_i hstate
    simp only [decide_eq_true_eq] at h
    simp only [hstate, not_le.mpr h, ↓reduceIte]
  · rename_i hstate
    split at h
    · exact absurd h (by simp)
    · rename_i priority packet hslot
      simp only [decide_eq_true_eq] at h
      simp only [hstate, hslot, not_le.mpr h, ↓reduceIte]
  · rename_i hstate
    cases hslot : s.NewValue with
    | none => simp [hslot] at h
    | some v => simp only [hstate]
  · rename_i hstate
    split at h
    · exact absurd h (by simp)
    · rename_i v hslot
      simp only [decide_eq_true_eq] at h
      simp only [hstate, hslot, not_le.mpr h, ↓reduceIte]

theorem P2PPacketInputStream.Run_of_not_readsByte (cfg : P2PProtocol) (e : Endianness)
    (s t : P2PPacketInputStream) (input out : List Nat) (h : s.readsByte cfg = false)
    (hrun : s.Run cfg e input = some (t, out)) :
    out = input ∧ ∀ other : List Nat, s.Run cfg e other = some (t, other) := by
  unfold P2PPacketInputStream.readsByte at h
  unfold P2PPacketInputStream.Run at hrun
  split at h
  · exact absurd h (by simp)
  · rename_i hstate
    simp only [decide_eq_false_iff_not, not_lt] at h
    simp only [hstate, h, ↓reduceIte] at hrun
    cases hc : P2PPacketInputStream.headerComplete e s with
    | none => simp [hc] at hrun
    | some u =>
      simp only [hc, Option.map_some', Option.some.injEq, Prod.mk.injEq] at hrun
      obtain ⟨h1, h2⟩ := hrun
      subst h1
      subst h2
      refine ⟨rfl, fun other => ?_⟩
      simp only [P2PPacketInputStream.Run, hstate, h, ↓reduceIte, hc, Option.map_some']
  · rename_i hstate
    split at h
    · rename_i hslot
      simp [hstate, hslot] at hrun
    · rename_i priority packet hslot
      simp only [decide_eq_false_iff_not, not_lt] at h
      simp only [hstate, hslot, h, ↓reduceIte, Option.some.injEq, Prod.mk.injEq] at hrun
      obtain ⟨h1, h2⟩ := hrun
      subst h1
      subst h2
      refine ⟨rfl, fun other => ?_⟩
      simp only [P2PPacketInputStream.Run, hstate, hslot, h, ↓reduceIte]
  · rename_i hstate
    cases hslot : s.NewValue with
    | none => simp [hstate, hslot] at hrun
    | some v => simp [hslot] at h
  · rename_i hstate
    split at h
    · rename_i hslot
      simp [hstate, hslot] at hrun
    · rename_i v hslot
      simp only [decide_eq_false_iff_not, not_lt] at h
      simp only [hstate, hslot, h, ↓reduceIte, Option.some.injEq, Prod.mk.injEq] at hrun
      obtain ⟨h1, h2⟩ := hrun
      subst h1
      subst h2
      refine ⟨rfl, fun other => ?_⟩
      simp only [P2PPacketInputStream.Run, hstate, hslot, h, ↓reduceIte]

theorem P2PPacketInputStream.runN_add (cfg : P2PProtocol) (e : Endianness) (a b : Nat) :
    ∀ (s : P2PPacketInputStream) (input : List Nat),
      P2PPacketInputStream.runN cfg e (a + b) s input =
        match P2PPacketInputStream.runN cfg e a s input with
        | none => none
        | some (s1, rest) => P2PPacketInputStream.runN cfg e b s1 rest := by
  induction a with
  | zero =>
    intro s input
    simp [P2PPacketInputStream.runN]
  | succ a ih =>
    intro s input
    rw [Nat.succ_add]
    simp only [P2PPacketInputStream.runN]
    cases hrun : s.Run cfg e input with
    | none => rfl
    | some r =>
      obtain ⟨s1, rest⟩ := r
      exact ih s1 rest

theorem P2PPacketInputStream.runN_idle_prefix (cfg : P2PProtocol) (e : Endianness)
    (frame : List Nat) (n : Nat) :
    ∀ (s s1 : P2PPacketInputStream) (out : List Nat),
      P2PPacketInputStream.runN cfg e n s [] = some (s1, out) →
      out = [] ∧ ∃ m, m ≤ n ∧ P2PPacketInputStream.runN cfg e m s frame = some (s1, frame) := by
  induction n with
  | zero =>
    intro s s1 out h
    simp only [P2PPacketInputStream.runN, Option.some.injEq, Prod.mk.injEq] at h
    obtain ⟨h1, h2⟩ := h
    subst h1
    subst h2
    exact ⟨rfl, 0, le_refl _, rfl⟩
  | succ n ih =>
    intro s s1 out h
    simp only [P2PPacketInputStream.runN] at h
    cases hreads : s.readsByte cfg with
    | true =>
      rw [P2PPacketInputStream.Run_idle cfg e s hreads] at h
      obtain ⟨h1, m, hm, h2⟩ := ih s s1 out h
      exact ⟨h1, m, Nat.le_succ_of_le hm, h2⟩
    | false =>
      cases hrun : s.Run cfg e [] with
      | none => simp [hrun] at h
      | some r =>
        obtain ⟨u, rest⟩ := r
        obtain ⟨hrest, hany⟩ :=
          P2PPacketInputStream.Run_of_not_readsByte cfg e s u [] rest hreads hrun
        subst hrest
        simp only [hrun] at h
        obtain ⟨h1, m, hm, h2⟩ := ih u s1 out h
        refine ⟨h1, m + 1, Nat.succ_le_succ hm, ?_⟩
        simp only [P2PPacketInputStream.runN, hany frame]
        exact h2

theorem P2PPacketInputStream.runN_idle (cfg : P2PProtocol) (e : Endianness)
    (s : P2PPacketInputStream) (h : s.readsByte cfg = true) (n : Nat) :
    P2PPacketInputStream.runN cfg e n s [] = some (s, []) := by
  induction n with
  | zero => rfl
  | succ n ih =>
    simp only [P2PPacketInputStream.runN, P2PPacketInputStream.Run_idle cfg e s h]
    exact ih

/-- C20: idle reads are no-ops. In every state in which `Run` calls `Read` (`readsByte`), a call
that finds the transport empty returns the stream unchanged: state, bytes read, incoming header,
every stored packet and the ring sizes. So do `n` such calls, and `k` further calls on the bytes of
a frame then give exactly what the same `k` calls give without the idle ones. For any `n` calls
on an empty transport (also those that do not read but finish a field), the stream reached is
one that `m ≤ n` calls reach with the frame waiting unread, so the calls that follow agree. -/
theorem idle_reads_are_noops (cfg : P2PProtocol) (e : Endianness) (s : P2PPacketInputStream) :
    (s.readsByte cfg = true → s.Run cfg e [] = some (s, [])) ∧
    (s.readsByte cfg = true → ∀ n : Nat, P2PPacketInputStream.runN cfg e n s [] = some (s, [])) ∧
    (s.readsByte cfg = true → ∀ (n k : Nat) (frame : List Nat),
      (match P2PPacketInputStream.runN cfg e n s [] with
        | none => none
        | some (s1, _) => P2PPacketInputStream.runN cfg e k s1 frame) =
      P2PPacketInputStream.runN cfg e k s frame) ∧
    (∀ (n : Nat) (s1 : P2PPacketInputStream) (out frame : List Nat),
      P2PPacketInputStream.runN cfg e n s [] = some (s1, out) →
      out = [] ∧ ∃ m, m ≤ n ∧ ∀ k : Nat,
        P2PPacketInputStream.runN cfg e (m + k) s frame =
          P2PPacketInputStream.runN cfg e k s1 frame) := by
  refine ⟨P2PPacketInputStream.Run_idle cfg e s,
    fun h n => P2PPacketInputStream.runN_idle cfg e s h n, fun h n k frame => ?_,
    fun n s1 out frame hrun => ?_⟩
  · rw [P2PPacketInputStream.runN_idle cfg e s h n]
  · obtain ⟨hout, m, hm, hframe⟩ :=
      P2PPacketInputStream.runN_idle_prefix cfg e frame n s s1 out hrun
    refine ⟨hout, m, hm, fun k => ?_⟩
    rw [P2PPacketInputStream.runN_add, hframe]

theorem idle_reads_are_noops_witness :
    (exampleInputAfter 3 [170, 0, 0]).readsByte exampleProtocol = true ∧
    P2PPacketInputStream.runN exampleProtocol .kLittleEndian 100 (exampleInputAfter 3 [170, 0, 0])
        [] = some (exampleInputAfter 3 [170, 0, 0], []) ∧
    (match P2PPacketInputStream.runN exampleProtocol .kLittleEndian 100
        (newInputStream exampleProtocol 2) [] with
      | none => none
      | some (s1, _) => P2PPacketInputStream.runN exampleProtocol .kLittleEndian 14 s1
          exampleFrame) =
      P2PPacketInputStream.runN exampleProtocol .kLittleEndian 14
        (newInputStream exampleProtocol 2) exampleFrame ∧
    ((exampleInputAfter 14 exampleFrame).NumAvailablePackets .kLow = 1 ∧
      (exampleInputAfter 14 exampleFrame).state_ = .kWaitingForPacket) :=
  ⟨by rfl,
    (idle_reads_are_noops exampleProtocol .kLittleEndian (exampleInputAfter 3 [170, 0, 0])).2.1
      (by rfl) 100,
    (idle_reads_are_noops exampleProtocol .kLittleEndian (newInputStream exampleProtocol 2)).2.2.1
      (by rfl) 100 14 exampleFrame,
    by decide⟩

/-- C14, as the code behaves (the claim fails): `Run` removes a packet with
`packet_buffer_.Consume()`, which drops the oldest packet of the highest non-empty priority, not
`current_packet_`. In `examplePreempted` a low-priority packet is partly written and a
high-priority packet `170 2 0 0 1 0 0 0 3` has been committed meanwhile. The next calls of `Run`
write the remaining 17 bytes of the low-priority packet and then consume: the high-priority ring
becomes empty although no byte of its packet was written, and the low-priority packet, whose
bytes were just written, stays committed. Six further calls write the 59 bytes of the
low-priority packet a second time, and the high-priority packet is never written. -/
theorem consumed_packet_is_not_the_packet_sent :
    examplePreempted.state_ = .kWaitingForBurstIngestion ∧
    examplePreempted.current_packet_ = some { priority := .kLow, index := 0 } ∧
    (examplePreempted.packet_buffer_.high.committed.map fun packet => packet.wire wideProtocol) =
      [[170, 2, 0, 0, 1, 0, 0, 0, 3]] ∧
    (examplePreempted.packet_buffer_.low.committed.map fun packet => packet.wire wideProtocol) =
      [[170, 0, 0, 50, 0, 0, 0, 0] ++ List.range 50 ++ [85]] ∧
    ((examplePreempted.runs wideProtocol P2PByteStreamLinux (fun n => n)
        [20000000, 20000000, 40000000]).map fun r =>
          (r.1.state_, r.1.current_packet_, r.1.packet_buffer_.Size .kHigh,
            r.1.packet_buffer_.Size .kLow, r.2)) =
      some (.kGettingNextPacket, some { priority := .kLow, index := 0 }, 0, 1,
        ([170, 0, 0, 50, 0, 0, 0, 0] ++ List.range 50 ++ [85]).drop 42) ∧
    ((examplePreempted.runs wideProtocol P2PByteStreamLinux (fun n => n)
        [20000000, 20000000, 40000000, 40000000, 40000000, 60000000, 60000000, 80000000,
          80000000]).map fun r =>
          (r.1.state_, r.1.current_packet_, r.1.packet_buffer_.Size .kHigh,
            r.1.packet_buffer_.Size .kLow, r.2)) =
      some (.kGettingNextPacket, none, 0, 0,
        ([170, 0, 0, 50, 0, 0, 0, 0] ++ List.range 50 ++ [85]).drop 42 ++
          ([170, 0, 0, 50, 0, 0, 0, 0] ++ List.range 50 ++ [85])) := by
  refine ⟨by rfl, by rfl, by rfl, by rfl, by rfl, by rfl⟩

theorem PriorityRingBuffer.highestNonEmpty_size (b : PriorityRingBuffer) (p : P2PPriority)
    (h : b.highestNonEmpty = some p) : (b.ring p).size ≠ 0 := by
  unfold PriorityRingBuffer.highestNonEmpty at h
  split at h
  · injection h with h; subst h; assumption
  · split at h
    · injection h with h; subst h; assumption
    · split at h
      · injection h with h; subst h; assumption
      · exact absurd h (by simp)

theorem PriorityRingBuffer.Indexed_OldestValuePtr (b : PriorityRingBuffer) (ptr : PacketPtr)
    (hidx : b.Indexed) (h : b.OldestValuePtr = some ptr) :
    ∃ packet, b.deref ptr = some packet ∧ packet ∈ (b.ring ptr.priority).committed := by
  unfold PriorityRingBuffer.OldestValuePtr at h
  split at h
  · exact absurd h (by simp)
  · rename_i p hp
    injection h with h
    subst h
    have hlt := hidx p
    have hsize := PriorityRingBuffer.highestNonEmpty_size b p hp
    refine ⟨(b.ring p).values.get ⟨(b.ring p).read_index, hlt⟩, ?_, ?_⟩
    · simp [PriorityRingBuffer.deref, List.getElem?_eq_getElem hlt]
    · rw [RingBuffer.mem_committed]
      refine ⟨0, Nat.pos_of_ne_zero hsize, ?_⟩
      simp [RingBuffer.Capacity, Nat.mod_eq_of_lt hlt, List.getElem?_eq_getElem hlt]

theorem PriorityRingBuffer.Indexed_Consume (b : PriorityRingBuffer) (hidx : b.Indexed) :
    b.Consume.1.Indexed := by
  intro p
  rw [PriorityRingBuffer.values_Consume]
  have hlt := hidx p
  unfold PriorityRingBuffer.Consume
  split
  · exact hlt
  · rename_i q _
    simp only
    rw [PriorityRingBuffer.ring_setRing]
    split
    · subst_vars
      unfold RingBuffer.Consume
      split
      · exact hlt
      · exact Nat.mod_lt _ (Nat.lt_of_le_of_lt (Nat.zero_le _) hlt)
    · exact hlt

theorem PriorityRingBuffer.WellFormed_OldestValuePtr (cfg : P2PProtocol) (b : PriorityRingBuffer)
    (ptr : PacketPtr) (hwf : b.WellFormed cfg) (h : b.OldestValuePtr = some ptr) :
    ∃ packet, b.deref ptr = some packet ∧
      packet.total_packet_length cfg ≤ packet.bytes.length := by
  obtain ⟨packet, hderef, hmem⟩ :=
    PriorityRingBuffer.Indexed_OldestValuePtr b ptr (fun p => (hwf p).1) h
  exact ⟨packet, hderef, (hwf ptr.priority).2 packet hmem⟩

theorem PriorityRingBuffer.WellFormed_Consume (cfg : P2PProtocol) (b : PriorityRingBuffer)
    (hwf : b.WellFormed cfg) : b.Consume.1.WellFormed cfg := by
  intro p
  exact ⟨PriorityRingBuffer.Indexed_Consume b (fun q => (hwf q).1) p,
    PriorityRingBuffer.rings_committed_Consume _ b (fun q => (hwf q).2) p⟩

theorem length_take_drop_of_le {α : Type} (l : List α) (k w : Nat) (h : k + w ≤ l.length) :
    ((l.drop k).take w).length = w := by
  simp only [List.length_take, List.length_drop]
  omega
theorem OutputTrace.run_Serializing (cfg : P2PProtocol) (bs : P2PByteStream) (t : OutputTrace)
    (c : RunCall) (hmax : 0 ≤ bs.GetBurstMaxLength)
    (hW : ∀ n : Int, 0 ≤ n → 0 ≤ c.Write n ∧ c.Write n ≤ n)
    (hinv : t.Serializing cfg bs) :
    ∃ t1 written, t.run cfg bs c = some (t1, written) ∧ t1.Serializing cfg bs ∧
      (t.stream.state_ = .kGettingNextPacket → t1.stream.state_ ≠ .kGettingNextPacket →
        ∃ packet, t1.stream.currentPacket = some packet ∧ t1.packet_written = written ∧
          written = packet.bytes.take written.length) ∧
      (t.stream.state_ ≠ .kGettingNextPacket → ∀ packet, t.stream.currentPacket = some packet →
        (t.packet_written.length : Int) =
          t.stream.total_packet_length_ - t.stream.pending_packet_bytes_ ∧
        written =
          (packet.bytes.drop
            (t.stream.total_packet_length_ - t.stream.pending_packet_bytes_).toNat).take
            written.length ∧
        (t1.stream.state_ ≠ .kGettingNextPacket →
          t1.stream.currentPacket = some packet ∧
          t1.packet_written = t.packet_written ++ written) ∧
        (t1.stream.state_ = .kGettingNextPacket →
          written = [] ∧ t.packet_written = packet.wire cfg)) := by
  obtain ⟨hwf, hbw, hsend⟩ := hinv
  cases hstate : t.stream.state_ with
  | kGettingNextPacket =>
    cases hptr : t.stream.packet_buffer_.OldestValuePtr with
    | none =>
      simp only [OutputTrace.run, P2PPacketOutputStream.Run, hstate, hptr,
        P2PPacketOutputStream.beginsBurst, Option.isSome_none, Bool.false_eq_true, ↓reduceIte]
      refine ⟨_, _, rfl, ⟨hwf, ?_, ?_⟩, ?_, ?_⟩
      · simpa using hbw
      · intro h
        exact absurd rfl h
      · intro _ h
        exact absurd rfl h
      · intro h
        exact absurd rfl h
    | some ptr =>
      obtain ⟨packet, hderef, hfit⟩ :=
        PriorityRingBuffer.WellFormed_OldestValuePtr cfg _ ptr hwf hptr
      simp only [OutputTrace.run, P2PPacketOutputStream.Run, hstate, hptr, hderef,
        P2PPacketOutputStream.beginsBurst, Option.isSome_some, ↓reduceIte,
        P2PPacketOutputStream.remainingAtBurst]
      obtain ⟨total, htotal⟩ : ∃ total : Int, total =
        (P2PHeader.sizeof cfg : Int) + (packet.length : Int) + (cfg.sizeofChecksum : Int) :=
        ⟨_, rfl⟩
      rw [← htotal]
      have htotal0 : 0 ≤ total := by omega
      have hlen : 0 ≤ min total bs.GetBurstMaxLength := le_min htotal0 hmax
      obtain ⟨hw0, hw1⟩ := hW _ hlen
      obtain ⟨w, hw⟩ : ∃ w : Int, w = c.Write (min total bs.GetBurstMaxLength) := ⟨_, rfl⟩
      rw [← hw] at hw0 hw1 ⊢
      have hwtotal : w ≤ total := le_trans hw1 (min_le_left _ _)
      have hwmax : w ≤ bs.GetBurstMaxLength := le_trans hw1 (min_le_right _ _)
      have hfit1 : (total.toNat) ≤ packet.bytes.length := by
        simp only [P2PPacket.total_packet_length] at hfit
        omega
      have hwlen : (packet.bytes.take w.toNat).length = w.toNat := by
        rw [List.length_take]
        omega
      refine ⟨_, _, rfl, ⟨hwf, ?_, ?_⟩, ?_, ?_⟩
      · simp only [hwlen]
        omega
      · intro _
        refine ⟨packet, _, _, ?_, hfit, rfl, htotal, ?_, ?_, ?_, ?_, ?_, ?_, ?_⟩
        · simp only [P2PPacketOutputStream.currentPacket, hderef]
        · show 0 ≤ min total bs.GetBurstMaxLength - w
          omega
        · show min total bs.GetBurstMaxLength - w ≤ total - w
          have := min_le_left total bs.GetBurstMaxLength
          omega
        · show total - w ≤ total
          omega
        · show packet.bytes.take w.toNat = packet.bytes.take (total - (total - w)).toNat
          congr 2
          omega
        · show ((packet.bytes.take w.toNat).length : Int) + (min total bs.GetBurstMaxLength - w) =
            min total bs.GetBurstMaxLength
          rw [hwlen]
          omega
        · show total = total - w + ((packet.bytes.take w.toNat).length : Int)
          rw [hwlen]
          omega
        · intro h
          exact absurd h (by simp)
      · intro _ _
        refine ⟨packet, ?_, rfl, ?_⟩
        · simp only [P2PPacketOutputStream.currentPacket, hderef]
        · show packet.bytes.take w.toNat = packet.bytes.take (packet.bytes.take w.toNat).length
          rw [hwlen]
      · intro h
        exact absurd rfl h
  | kSendingBurst =>
    obtain ⟨packet, b, rest, hcur, hfit, hbursts, htotal, hpb0, hpbpp, hpptotal, hwritten, hbl,
      hrem, _⟩ := hsend (by simp [hstate])
    have hcur1 := hcur
    simp only [P2PPacketOutputStream.currentPacket] at hcur1
    split at hcur1
    · exact absurd hcur1 (by simp)
    · rename_i ptr hptr
      simp only [P2PPacket.total_packet_length] at hfit
      have hlenw : (t.packet_written.length : Int) =
          t.stream.total_packet_length_ - t.stream.pending_packet_bytes_ := by
        rw [hwritten, List.length_take]
        omega
      by_cases hpb : t.stream.pending_burst_bytes_ ≤ 0
      · simp only [OutputTrace.run, P2PPacketOutputStream.Run, hstate, hpb, ↓reduceIte,
          P2PPacketOutputStream.beginsBurst, Bool.false_eq_true]
        refine ⟨_, _, rfl, ⟨hwf, ?_, ?_⟩, ?_, ?_⟩
        · simpa using hbw
        · intro _
          refine ⟨packet, b, rest, ?_, hfit, hbursts, htotal, hpb0, hpbpp, hpptotal, ?_, ?_, ?_, ?_⟩
          · simpa only [P2PPacketOutputStream.currentPacket, hptr] using hcur1
          · simpa using hwritten
          · simpa using hbl
          · simpa using hrem
          · intro _
            show t.stream.pending_burst_bytes_ = 0
            omega
        · intro h
          exact absurd h (by simp)
        · intro _ packet1 hcur2
          have hpacket : packet1 = packet := by
            rw [hcur] at hcur2
            injection hcur2 with h
            exact h.symm
          subst hpacket
          refine ⟨hlenw, by simp, fun _ => ⟨?_, by simp⟩, fun h => absurd h (by simp)⟩
          simpa only [P2PPacketOutputStream.currentPacket, hptr] using hcur1
      · have hpbpos : 0 ≤ t.stream.pending_burst_bytes_ := hpb0
        obtain ⟨hw0, hw1⟩ := hW _ hpbpos
        obtain ⟨w, hw⟩ : ∃ w : Int, w = c.Write t.stream.pending_burst_bytes_ := ⟨_, rfl⟩
        simp only [OutputTrace.run, P2PPacketOutputStream.Run, hstate, hpb, ↓reduceIte,
          P2PPacketOutputStream.writeFrom, hptr, hcur1, P2PPacketOutputStream.beginsBurst,
          Bool.false_eq_true]
        rw [← hw] at hw0 hw1 ⊢
        obtain ⟨k, hk⟩ : ∃ k : Nat, k =
          (t.stream.total_packet_length_ - t.stream.pending_packet_bytes_).toNat := ⟨_, rfl⟩
        rw [← hk] at hwritten ⊢
        have hwlen : ((packet.bytes.drop k).take w.toNat).length = w.toNat :=
          length_take_drop_of_le _ _ _ (by omega)
        refine ⟨_, _, rfl, ⟨hwf, ?_, ?_⟩, ?_, ?_⟩
        · show ((t.burst_written ++ (packet.bytes.drop k).take w.toNat).length : Int) ≤ _
          rw [List.length_append, hwlen]
          have := min_le_right b.remaining bs.GetBurstMaxLength
          simp only [BurstRecord.length] at hbl
          omega
        · intro _
          refine ⟨packet, b, rest, ?_, hfit, hbursts, htotal, ?_, ?_, ?_, ?_, ?_, ?_, ?_⟩
          · simpa only [P2PPacketOutputStream.currentPacket, hptr] using hcur1
          · show 0 ≤ t.stream.pending_burst_bytes_ - w
            omega
          · show t.stream.pending_burst_bytes_ - w ≤ t.stream.pending_packet_bytes_ - w
            omega
          · show t.stream.pending_packet_bytes_ - w ≤ t.stream.total_packet_length_
            omega
          · show t.packet_written ++ (packet.bytes.drop k).take w.toNat =
              packet.bytes.take
                (t.stream.total_packet_length_ - (t.stream.pending_packet_bytes_ - w)).toNat
            have hkw : (t.stream.total_packet_length_ -
                (t.stream.pending_packet_bytes_ - w)).toNat = k + w.toNat := by omega
            rw [hkw, List.take_add, hwritten]
          · show ((t.burst_written ++ (packet.bytes.drop k).take w.toNat).length : Int) +
              (t.stream.pending_burst_bytes_ - w) = b.length bs
            rw [List.length_append, hwlen]
            omega
          · show b.remaining = t.stream.pending_packet_bytes_ - w +
              ((t.burst_written ++ (packet.bytes.drop k).take w.toNat).length : Int)
            rw [List.length_append, hwlen]
            omega
          · intro h
            exact absurd h (by simp)
        · intro h
          exact absurd h (by simp)
        · intro _ packet1 hcur2
          have hpacket : packet1 = packet := by
            rw [hcur] at hcur2
            injection hcur2 with h
            exact h.symm
          subst hpacket
          refine ⟨hlenw, ?_, fun _ => ⟨?_, rfl⟩, fun h => absurd h (by simp)⟩
          · show (packet1.bytes.drop k).take w.toNat =
              (packet1.bytes.drop k).take ((packet1.bytes.drop k).take w.toNat).length
            rw [hwlen]
          · simpa only [P2PPacketOutputStream.currentPacket, hptr] using hcur1
  | kWaitingForBurstIngestion =>
    obtain ⟨packet, b, rest, hcur, hfit, hbursts, htotal, hpb0, hpbpp, hpptotal, hwritten, hbl,
      hrem, hwait⟩ := hsend (by simp [hstate])
    have hpbzero := hwait hstate
    have hcur1 := hcur
    simp only [P2PPacketOutputStream.currentPacket] at hcur1
    split at hcur1
    · exact absurd hcur1 (by simp)
    · rename_i ptr hptr
      simp only [P2PPacket.total_packet_length] at hfit
      have hlenw : (t.packet_written.length : Int) =
          t.stream.total_packet_length_ - t.stream.pending_packet_bytes_ := by
        rw [hwritten, List.length_take]
        omega
      by_cases hts : c.timestamp_ns < t.stream.burst_end_timestamp_ns_
      · simp only [OutputTrace.run, P2PPacketOutputStream.Run, hstate, hts, ↓reduceIte,
          P2PPacketOutputStream.beginsBurst, not_true_eq_false, false_and, decide_False,
          Bool.false_eq_true]
        refine ⟨_, _, rfl, ⟨hwf, ?_, ?_⟩, ?_, ?_⟩
        · simpa using hbw
        · intro _
          refine ⟨packet, b, rest, hcur, hfit, hbursts, htotal, hpb0, hpbpp, hpptotal, ?_, ?_, ?_,
            fun _ => hpbzero⟩
          · simpa using hwritten
          · simpa using hbl
          · simpa using hrem
        · intro h
          exact absurd h (by simp)
        · intro _ packet1 hcur2
          have hpacket : packet1 = packet := by
            rw [hcur] at hcur2
            injection hcur2 with h
            exact h.symm
          subst hpacket
          refine ⟨hlenw, by simp, fun _ => ⟨hcur, by simp⟩, fun h => ?_⟩
          rw [hstate] at h
          exact absurd h (by simp)
      · by_cases hpp : t.stream.pending_packet_bytes_ ≤ 0
        · simp only [OutputTrace.run, P2PPacketOutputStream.Run, hstate, hts, hpp, ↓reduceIte,
            P2PPacketOutputStream.beginsBurst, not_true_eq_false, and_false, decide_False,
            Bool.false_eq_true]
          refine ⟨_, _, rfl, ⟨PriorityRingBuffer.WellFormed_Consume cfg _ hwf, ?_, ?_⟩, ?_, ?_⟩
          · simpa using hbw
          · intro h
            exact absurd rfl h
          · intro h
            exact absurd h (by simp)
          · intro _ packet1 hcur2
            have hpacket : packet1 = packet := by
              rw [hcur] at hcur2
              injection hcur2 with h
              exact h.symm
            subst hpacket
            refine ⟨hlenw, by simp, fun h => absurd rfl h, fun _ => ⟨rfl, ?_⟩⟩
            rw [hwritten, P2PPacket.wire, P2PPacket.total_packet_length]
            congr 1
            omega
        · have hlen : 0 ≤ min t.stream.pending_packet_bytes_ bs.GetBurstMaxLength :=
            le_min (by omega) hmax
          obtain ⟨hw0, hw1⟩ := hW _ hlen
          obtain ⟨w, hw⟩ : ∃ w : Int,
            w = c.Write (min t.stream.pending_packet_bytes_ bs.GetBurstMaxLength) := ⟨_, rfl⟩
          simp only [OutputTrace.run, P2PPacketOutputStream.Run, hstate, hts, hpp, ↓reduceIte,
            P2PPacketOutputStream.writeFrom, hptr, hcur1, P2PPacketOutputStream.beginsBurst,
            not_false_eq_true, and_self, decide_True, P2PPacketOutputStream.remainingAtBurst]
          rw [← hw] at hw0 hw1 ⊢
          have hwpp : w ≤ t.stream.pending_packet_bytes_ := le_trans hw1 (min_le_left _ _)
          have hwmax : w ≤ bs.GetBurstMaxLength := le_trans hw1 (min_le_right _ _)
          obtain ⟨k, hk⟩ : ∃ k : Nat, k =
            (t.stream.total_packet_length_ - t.stream.pending_packet_bytes_).toNat := ⟨_, rfl⟩
          rw [← hk] at hwritten ⊢
          have hwlen : ((packet.bytes.drop k).take w.toNat).length = w.toNat :=
            length_take_drop_of_le _ _ _ (by omega)
          refine ⟨_, _, rfl, ⟨hwf, ?_, ?_⟩, ?_, ?_⟩
          · show (((packet.bytes.drop k).take w.toNat).length : Int) ≤ _
            rw [hwlen]
            omega
          · intro _
            refine ⟨packet, _, _, ?_, hfit, rfl, htotal, ?_, ?_, ?_, ?_, ?_, ?_, ?_⟩
            · simpa only [P2PPacketOutputStream.currentPacket, hptr] using hcur1
            · show 0 ≤ min t.stream.pending_packet_bytes_ bs.GetBurstMaxLength - w
              omega
            · show min t.stream.pending_packet_bytes_ bs.GetBurstMaxLength - w ≤
                t.stream.pending_packet_bytes_ - w
              have := min_le_left t.stream.pending_packet_bytes_ bs.GetBurstMaxLength
              omega
            · show t.stream.pending_packet_bytes_ - w ≤ t.stream.total_packet_length_
              omega
            · show t.packet_written ++ (packet.bytes.drop k).take w.toNat =
                packet.bytes.take
                  (t.stream.total_packet_length_ - (t.stream.pending_packet_bytes_ - w)).toNat
              have hkw : (t.stream.total_packet_length_ -
                  (t.stream.pending_packet_bytes_ - w)).toNat = k + w.toNat := by omega
              rw [hkw, List.take_add, hwritten]
            · show (((packet.bytes.drop k).take w.toNat).length : Int) +
                (min t.stream.pending_packet_bytes_ bs.GetBurstMaxLength - w) =
                min t.stream.pending_packet_bytes_ bs.GetBurstMaxLength
              rw [hwlen]
              omega
            · show t.stream.pending_packet_bytes_ = t.stream.pending_packet_bytes_ - w +
                (((packet.bytes.drop k).take w.toNat).length : Int)
              rw [hwlen]
              omega
            · intro h
              exact absurd h (by simp)
          · intro h
            exact absurd h (by simp)
          · intro _ packet1 hcur2
            have hpacket : packet1 = packet := by
              rw [hcur] at hcur2
              injection hcur2 with h
              exact h.symm
            subst hpacket
            refine ⟨hlenw, ?_, fun _ => ⟨?_, rfl⟩, fun h => absurd h (by simp)⟩
            · show (packet1.bytes.drop k).take w.toNat =
                (packet1.bytes.drop k).take ((packet1.bytes.drop k).take w.toNat).length
              rw [hwlen]
            · simpa only [P2PPacketOutputStream.currentPacket, hptr] using hcur1

theorem OutputTrace.runs_Serializing (cfg : P2PProtocol) (bs : P2PByteStream)
    (hmax : 0 ≤ bs.GetBurstMaxLength) (calls : List RunCall) :
    ∀ t : OutputTrace, t.Serializing cfg bs →
      (∀ c ∈ calls, ∀ n : Int, 0 ≤ n → 0 ≤ c.Write n ∧ c.Write n ≤ n) →
      ∃ t1, t.runs cfg bs calls = some t1 ∧ t1.Serializing cfg bs := by
  induction calls with
  | nil =>
    intro t hinv _
    exact ⟨t, rfl, hinv⟩
  | cons c cs ih =>
    intro t hinv hW
    obtain ⟨t1, written, hrun, hinv1, _⟩ :=
      OutputTrace.run_Serializing cfg bs t c hmax (hW c (List.mem_cons_self _ _)) hinv
    obtain ⟨t2, hruns, hinv2⟩ := ih t1 hinv1 (fun c1 hc1 => hW c1 (List.mem_cons_of_mem _ hc1))
    refine ⟨t2, ?_, hinv2⟩
    simp only [OutputTrace.runs, hrun]
    exact hruns

theorem OutputTrace.start_Serializing (cfg : P2PProtocol) (bs : P2PByteStream)
    (s : P2PPacketOutputStream) (hmax : 0 ≤ bs.GetBurstMaxLength)
    (hstart : s.state_ = .kGettingNextPacket) (hwf : s.packet_buffer_.WellFormed cfg) :
    (OutputTrace.start s).Serializing cfg bs :=
  ⟨hwf, by simpa [OutputTrace.start] using hmax, fun h => absurd hstart h⟩

theorem PriorityRingBuffer.OldestValue_eq_deref (b : PriorityRingBuffer) (ptr : PacketPtr)
    (h : b.OldestValuePtr = some ptr) : b.OldestValue = b.deref ptr := by
  unfold PriorityRingBuffer.OldestValuePtr at h
  split at h
  · exact absurd h (by simp)
  · rename_i p hp
    injection h with h
    subst h
    have hsize := PriorityRingBuffer.highestNonEmpty_size b p hp
    simp only [PriorityRingBuffer.OldestValue, hp, RingBuffer.OldestValue, hsize, ↓reduceIte,
      PriorityRingBuffer.deref]

theorem OutputTrace.run_steps (cfg : P2PProtocol) (bs : P2PByteStream) (t : OutputTrace)
    (c : RunCall) (hmax : 0 ≤ bs.GetBurstMaxLength)
    (hW : ∀ n : Int, 0 ≤ n → 0 ≤ c.Write n ∧ c.Write n ≤ n)
    (hinv : t.Serializing cfg bs) (hold : t.SendingOldest) :
    ∃ t1 written, t.run cfg bs c = some (t1, written) ∧ t1.SendingOldest ∧
      (t.stream.state_ = .kGettingNextPacket → t.stream.packet_buffer_.OldestValuePtr = none →
        t1.stream.state_ = .kGettingNextPacket ∧
        t1.stream.packet_buffer_ = t.stream.packet_buffer_ ∧ written = []) ∧
      (t.stream.state_ = .kGettingNextPacket →
        ∀ ptr, t.stream.packet_buffer_.OldestValuePtr = some ptr →
        ∃ packet, t.stream.packet_buffer_.deref ptr = some packet ∧
          t1.stream.state_ = .kSendingBurst ∧ t1.stream.current_packet_ = some ptr ∧
          t1.stream.packet_buffer_ = t.stream.packet_buffer_ ∧
          t1.stream.total_packet_length_ =
            (P2PHeader.sizeof cfg : Int) + (packet.length : Int) + (cfg.sizeofChecksum : Int) ∧
          t1.stream.pending_packet_bytes_ = t1.stream.total_packet_length_ -
            c.Write (min t1.stream.total_packet_length_ bs.GetBurstMaxLength) ∧
          written = packet.bytes.take
            (c.Write (min t1.stream.total_packet_length_ bs.GetBurstMaxLength)).toNat ∧
          (written.length : Int) =
            c.Write (min t1.stream.total_packet_length_ bs.GetBurstMaxLength) ∧
          t1.packet_written = written) ∧
      (t.stream.state_ = .kSendingBurst →
        ∃ packet, t.stream.currentPacket = some packet ∧
          t1.stream.packet_buffer_ = t.stream.packet_buffer_ ∧
          t1.stream.current_packet_ = t.stream.current_packet_ ∧
          t1.packet_written = t.packet_written ++ written ∧
          (t.stream.pending_burst_bytes_ ≤ 0 →
            t1.stream.state_ = .kWaitingForBurstIngestion ∧ written = [] ∧
            t1.stream.pending_packet_bytes_ = t.stream.pending_packet_bytes_) ∧
          (0 < t.stream.pending_burst_bytes_ →
            t1.stream.state_ = .kSendingBurst ∧
            written = (packet.bytes.drop
              (t.stream.total_packet_length_ - t.stream.pending_packet_bytes_).toNat).take
                (c.Write t.stream.pending_burst_bytes_).toNat ∧
            (written.length : Int) = c.Write t.stream.pending_burst_bytes_ ∧
            t1.stream.pending_packet_bytes_ =
              t.stream.pending_packet_bytes_ - c.Write t.stream.pending_burst_bytes_)) ∧
      (t.stream.state_ = .kWaitingForBurstIngestion →
        ∃ packet, t.stream.currentPacket = some packet ∧
          t.stream.packet_buffer_.OldestValue = some packet ∧
          (c.timestamp_ns < t.stream.burst_end_timestamp_ns_ →
            t1.stream = t.stream ∧ written = [] ∧ t1.packet_written = t.packet_written) ∧
          (¬ c.timestamp_ns < t.stream.burst_end_timestamp_ns_ →
            t.stream.pending_packet_bytes_ ≤ 0 →
            t1.stream.state_ = .kGettingNextPacket ∧
            t1.stream.packet_buffer_ = t.stream.packet_buffer_.Consume.1 ∧ written = [] ∧
            t.packet_written = packet.wire cfg) ∧
          (¬ c.timestamp_ns < t.stream.burst_end_timestamp_ns_ →
            0 < t.stream.pending_packet_bytes_ →
            t1.stream.state_ = .kSendingBurst ∧
            t1.stream.packet_buffer_ = t.stream.packet_buffer_ ∧
            t1.stream.current_packet_ = t.stream.current_packet_ ∧
            written = (packet.bytes.drop
              (t.stream.total_packet_length_ - t.stream.pending_packet_bytes_).toNat).take
                (c.Write (min t.stream.pending_packet_bytes_ bs.GetBurstMaxLength)).toNat ∧
            (written.length : Int) =
              c.Write (min t.stream.pending_packet_bytes_ bs.GetBurstMaxLength) ∧
            t1.stream.pending_packet_bytes_ = t.stream.pending_packet_bytes_ -
              c.Write (min t.stream.pending_packet_bytes_ bs.GetBurstMaxLength) ∧
            t1.packet_written = t.packet_written ++ written)) := by
  obtain ⟨hwf, hbw, hsend⟩ := hinv
  cases hstate : t.stream.state_ with
  | kGettingNextPacket =>
    cases hptr : t.stream.packet_buffer_.OldestValuePtr with
    | none =>
      simp only [OutputTrace.run, P2PPacketOutputStream.Run, hstate, hptr,
        P2PPacketOutputStream.beginsBurst, Option.isSome_none, Bool.false_eq_true, ↓reduceIte]
      refine ⟨_, _, rfl, fun h => absurd rfl h, fun _ _ => ⟨rfl, rfl, rfl⟩,
        fun _ ptr h => absurd h (by simp), fun h => absurd h (by simp),
        fun h => absurd h (by simp)⟩
    | some ptr =>
      obtain ⟨packet, hderef, hfit⟩ :=
        PriorityRingBuffer.WellFormed_OldestValuePtr cfg _ ptr hwf hptr
      simp only [OutputTrace.run, P2PPacketOutputStream.Run, hstate, hptr, hderef,
        P2PPacketOutputStream.beginsBurst, Option.isSome_some, ↓reduceIte,
        P2PPacketOutputStream.remainingAtBurst]
      obtain ⟨total, htotal⟩ : ∃ total : Int, total =
        (P2PHeader.sizeof cfg : Int) + (packet.length : Int) + (cfg.sizeofChecksum : Int) :=
        ⟨_, rfl⟩
      rw [← htotal]
      have htotal0 : 0 ≤ total := by omega
      have hlen : 0 ≤ min total bs.GetBurstMaxLength := le_min htotal0 hmax
      obtain ⟨hw0, hw1⟩ := hW _ hlen
      obtain ⟨w, hw⟩ : ∃ w : Int, w = c.Write (min total bs.GetBurstMaxLength) := ⟨_, rfl⟩
      rw [← hw] at hw0 hw1 ⊢
      have hwtotal : w ≤ total := le_trans hw1 (min_le_left _ _)
      have hfit1 : (total.toNat) ≤ packet.bytes.length := by
        simp only [P2PPacket.total_packet_length] at hfit
        omega
      have hwlen : (packet.bytes.take w.toNat).length = w.toNat := by
        rw [List.length_take]
        omega
      refine ⟨_, _, rfl, fun _ => hptr, fun _ h => absurd h (by simp), fun _ ptr1 hptr1 => ?_,
        fun h => absurd h (by simp), fun h => absurd h (by simp)⟩
      simp only [Option.some.injEq] at hptr1
      subst hptr1
      have hwlen1 : ((packet.bytes.take w.toNat).length : Int) = w := by
        rw [hwlen]
        omega
      subst hw
      exact ⟨packet, hderef, rfl, rfl, rfl, htotal, rfl, rfl, hwlen1, rfl⟩
  | kSendingBurst =>
    obtain ⟨packet, b, rest, hcur, hfit, hbursts, htotal, hpb0, hpbpp, hpptotal, hwritten, hbl,
      hrem, hwait⟩ := hsend (by simp [hstate])
    have hold1 := hold (by simp [hstate])
    have hcur1 := hcur
    simp only [P2PPacketOutputStream.currentPacket] at hcur1
    split at hcur1
    · exact absurd hcur1 (by simp)
    · rename_i ptr hptr
      simp only [P2PPacket.total_packet_length] at hfit
      by_cases hpb : t.stream.pending_burst_bytes_ ≤ 0
      · simp only [OutputTrace.run, P2PPacketOutputStream.Run, hstate, hpb, ↓reduceIte,
          P2PPacketOutputStream.beginsBurst, Bool.false_eq_true]
        refine ⟨_, _, rfl, fun _ => hold1, fun h => absurd h (by simp),
          fun h => absurd h (by simp), fun _ => ?_, fun h => absurd h (by simp)⟩
        refine ⟨packet, hcur, rfl, rfl, by simp, fun _ => ⟨rfl, rfl, rfl⟩, fun h => ?_⟩
        omega
      · have hpbpos : 0 ≤ t.stream.pending_burst_bytes_ := hpb0
        obtain ⟨hw0, hw1⟩ := hW _ hpbpos
        obtain ⟨w, hw⟩ : ∃ w : Int, w = c.Write t.stream.pending_burst_bytes_ := ⟨_, rfl⟩
        simp only [OutputTrace.run, P2PPacketOutputStream.Run, hstate, hpb, ↓reduceIte,
          P2PPacketOutputStream.writeFrom, hptr, hcur1, P2PPacketOutputStream.beginsBurst,
          Bool.false_eq_true]
        rw [← hw] at hw0 hw1 ⊢
        obtain ⟨k, hk⟩ : ∃ k : Nat, k =
          (t.stream.total_packet_length_ - t.stream.pending_packet_bytes_).toNat := ⟨_, rfl⟩
        rw [← hk] at hwritten ⊢
        have hwlen : ((packet.bytes.drop k).take w.toNat).length = w.toNat :=
          length_take_drop_of_le _ _ _ (by omega)
        have hwlen1 : (((packet.bytes.drop k).take w.toNat).length : Int) = w := by
          rw [hwlen]
          omega
        refine ⟨_, _, rfl, fun _ => hold1.trans hptr, fun h => absurd h (by simp),
          fun h => absurd h (by simp), fun _ => ?_, fun h => absurd h (by simp)⟩
        refine ⟨packet, ?_, rfl, rfl, rfl, fun h => h.elim, fun _ => ⟨rfl, rfl, hwlen1, rfl⟩⟩
        simpa only [P2PPacketOutputStream.currentPacket, hptr] using hcur1
  | kWaitingForBurstIngestion =>
    obtain ⟨packet, b, rest, hcur, hfit, hbursts, htotal, hpb0, hpbpp, hpptotal, hwritten, hbl,
      hrem, hwait⟩ := hsend (by simp [hstate])
    have hold1 := hold (by simp [hstate])
    have hpbzero := hwait hstate
    have hcur1 := hcur
    simp only [P2PPacketOutputStream.currentPacket] at hcur1
    split at hcur1
    · exact absurd hcur1 (by simp)
    · rename_i ptr hptr
      have holdest : t.stream.packet_buffer_.OldestValue = some packet := by
        rw [PriorityRingBuffer.OldestValue_eq_deref _ ptr (by rw [hold1, hptr]), hcur1]
      simp only [P2PPacket.total_packet_length] at hfit
      by_cases hts : c.timestamp_ns < t.stream.burst_end_timestamp_ns_
      · simp only [OutputTrace.run, P2PPacketOutputStream.Run, hstate, hts, ↓reduceIte,
          P2PPacketOutputStream.beginsBurst, not_true_eq_false, false_and, decide_False,
          Bool.false_eq_true]
        refine ⟨_, _, rfl, fun _ => hold1, fun h => absurd h (by simp),
          fun h => absurd h (by simp), fun h => absurd h (by simp), fun _ => ?_⟩
        refine ⟨packet, ?_, holdest, fun _ => ⟨rfl, rfl, by simp⟩, fun h => h.elim,
          fun h => h.elim⟩
        simpa only [P2PPacketOutputStream.currentPacket, hptr] using hcur1
      · by_cases hpp : t.stream.pending_packet_bytes_ ≤ 0
        · simp only [OutputTrace.run, P2PPacketOutputStream.Run, hstate, hts, hpp, ↓reduceIte,
            P2PPacketOutputStream.beginsBurst, not_true_eq_false, and_false, decide_False,
            Bool.false_eq_true]
          refine ⟨_, _, rfl, fun h => absurd rfl h, fun h => absurd h (by simp),
            fun h => absurd h (by simp), fun h => absurd h (by simp), fun _ => ?_⟩
          refine ⟨packet, ?_, holdest, fun h => absurd h (by simp), fun _ _ => ⟨rfl, rfl, rfl, ?_⟩,
            fun _ h => ?_⟩
          · simpa only [P2PPacketOutputStream.currentPacket, hptr] using hcur1
          · rw [hwritten, P2PPacket.wire, P2PPacket.total_packet_length]
            congr 1
            omega
          · omega
        · have hlen : 0 ≤ min t.stream.pending_packet_bytes_ bs.GetBurstMaxLength :=
            le_min (by omega) hmax
          obtain ⟨hw0, hw1⟩ := hW _ hlen
          obtain ⟨w, hw⟩ : ∃ w : Int,
            w = c.Write (min t.stream.pending_packet_bytes_ bs.GetBurstMaxLength) := ⟨_, rfl⟩
          simp only [OutputTrace.run, P2PPacketOutputStream.Run, hstate, hts, hpp, ↓reduceIte,
            P2PPacketOutputStream.writeFrom, hptr, hcur1, P2PPacketOutputStream.beginsBurst,
            not_false_eq_true, and_self, decide_True, P2PPacketOutputStream.remainingAtBurst]
          rw [← hw] at hw0 hw1 ⊢
          have hwpp : w ≤ t.stream.pending_packet_bytes_ := le_trans hw1 (min_le_left _ _)
          obtain ⟨k, hk⟩ : ∃ k : Nat, k =
            (t.stream.total_packet_length_ - t.stream.pending_packet_bytes_).toNat := ⟨_, rfl⟩
          rw [← hk] at hwritten ⊢
          have hwlen : ((packet.bytes.drop k).take w.toNat).length = w.toNat :=
            length_take_drop_of_le _ _ _ (by omega)
          have hwlen1 : (((packet.bytes.drop k).take w.toNat).length : Int) = w := by
            rw [hwlen]
            omega
          refine ⟨_, _, rfl, fun _ => hold1.trans hptr, fun h => absurd h (by simp),
            fun h => absurd h (by simp), fun h => absurd h (by simp), fun _ => ?_⟩
          refine ⟨packet, ?_, holdest, fun h => h.elim, fun _ h => h.elim,
            fun _ _ => ⟨rfl, rfl, rfl, rfl, hwlen1, rfl, rfl⟩⟩
          simpa only [P2PPacketOutputStream.currentPacket, hptr] using hcur1
theorem OutputTrace.runs_SendingOldest (cfg : P2PProtocol) (bs : P2PByteStream)
    (hmax : 0 ≤ bs.GetBurstMaxLength) (calls : List RunCall) :
    ∀ t : OutputTrace, t.Serializing cfg bs → t.SendingOldest →
      (∀ c ∈ calls, ∀ n : Int, 0 ≤ n → 0 ≤ c.Write n ∧ c.Write n ≤ n) →
      ∃ t1, t.runs cfg bs calls = some t1 ∧ t1.Serializing cfg bs ∧ t1.SendingOldest := by
  induction calls with
  | nil =>
    intro t hinv hold _
    exact ⟨t, rfl, hinv, hold⟩
  | cons c cs ih =>
    intro t hinv hold hW
    obtain ⟨t1, written, hrun, hinv1, _⟩ :=
      OutputTrace.run_Serializing cfg bs t c hmax (hW c (List.mem_cons_self _ _)) hinv
    obtain ⟨t1', written', hrun', hold1, _⟩ :=
      OutputTrace.run_steps cfg bs t c hmax (hW c (List.mem_cons_self _ _)) hinv hold
    rw [hrun] at hrun'
    simp only [Option.some.injEq, Prod.mk.injEq] at hrun'
    obtain ⟨h1, _⟩ := hrun'
    subst h1
    obtain ⟨t2, hruns, hinv2, hold2⟩ :=
      ih t1 hinv1 hold1 (fun c1 hc1 => hW c1 (List.mem_cons_of_mem _ hc1))
    refine ⟨t2, ?_, hinv2, hold2⟩
    simp only [OutputTrace.runs, hrun]
    exact hruns

/-- C13: exact serialization. The output stream starts in `kGettingNextPacket` on a well-formed
buffer and `Run` is called any number of times, with any timestamps, on a transport whose
`Write(buf, n)` returns between 0 and `n`. Then every call returns, and what a call `c` does is
determined by the state `t` it is made in, with `written` the bytes the transport accepts in the
call and `packet_written` the concatenation of the bytes accepted since the packet was picked:

* in `kGettingNextPacket` on an empty buffer nothing is written and nothing changes; otherwise
  the call picks the packet that `packet_buffer_.OldestValue()` points to, sets
  `total_packet_length_ = sizeof(P2PHeader) + length + sizeof(P2PFooter)`, offers
  `min(total_packet_length_, GetBurstMaxLength())` bytes from the first byte of the packet and
  the accepted bytes are the first `Write(...)` bytes of the packet;
* while a packet is being sent, `current_packet_` is still the oldest packet of the buffer,
  `0 ≤ pending_burst_bytes_ ≤ pending_packet_bytes_ ≤ total_packet_length_ =
  sizeof(P2PHeader) + length + sizeof(P2PFooter)`, and the bytes accepted so far are the first
  `total_packet_length_ - pending_packet_bytes_` bytes of the packet;
* every write of `kSendingBurst` and of `kWaitingForBurstIngestion` starts at offset
  `total_packet_length_ - pending_packet_bytes_` of the packet, the accepted bytes are the
  `Write(...)` bytes from that offset, they are appended to the accepted bytes and subtracted
  from `pending_packet_bytes_`; a call that does not write leaves both unchanged;
* the call that consumes the packet (`kWaitingForBurstIngestion`, burst over, nothing pending)
  removes from `packet_buffer_`, by `Consume()`, the packet that was sent, and at that moment
  the bytes accepted are exactly the first `total_packet_length` bytes of that packet. -/
theorem exact_serialization (cfg : P2PProtocol) (bs : P2PByteStream) (s : P2PPacketOutputStream)
    (calls : List RunCall) (c : RunCall) (hmax : 0 ≤ bs.GetBurstMaxLength)
    (hstart : s.state_ = .kGettingNextPacket) (hwf : s.packet_buffer_.WellFormed cfg)
    (hW : ∀ c1 ∈ calls ++ [c], ∀ n : Int, 0 ≤ n → 0 ≤ c1.Write n ∧ c1.Write n ≤ n) :
    (∃ t t1 written, (OutputTrace.start s).runs cfg bs calls = some t ∧
      t.run cfg bs c = some (t1, written)) ∧
    ∀ t t1 written, (OutputTrace.start s).runs cfg bs calls = some t →
      t.run cfg bs c = some (t1, written) →
      (t.stream.state_ ≠ .kGettingNextPacket →
        ∃ ptr packet, t.stream.current_packet_ = some ptr ∧
          t.stream.packet_buffer_.OldestValuePtr = some ptr ∧
          t.stream.packet_buffer_.deref ptr = some packet ∧
          t.stream.total_packet_length_ =
            (P2PHeader.sizeof cfg : Int) + (packet.length : Int) + (cfg.sizeofChecksum : Int) ∧
          0 ≤ t.stream.pending_burst_bytes_ ∧
          t.stream.pending_burst_bytes_ ≤ t.stream.pending_packet_bytes_ ∧
          t.stream.pending_packet_bytes_ ≤ t.stream.total_packet_length_ ∧
          t.packet_written = packet.bytes.take
            (t.stream.total_packet_length_ - t.stream.pending_packet_bytes_).toNat ∧
          (t.packet_written.length : Int) =
            t.stream.total_packet_length_ - t.stream.pending_packet_bytes_) ∧
      (t.stream.state_ = .kGettingNextPacket → t.stream.packet_buffer_.OldestValuePtr = none →
        t1.stream.state_ = .kGettingNextPacket ∧
        t1.stream.packet_buffer_ = t.stream.packet_buffer_ ∧ written = []) ∧
      (t.stream.state_ = .kGettingNextPacket →
        ∀ ptr, t.stream.packet_buffer_.OldestValuePtr = some ptr →
        ∃ packet, t.stream.packet_buffer_.deref ptr = some packet ∧
          t1.stream.state_ = .kSendingBurst ∧ t1.stream.current_packet_ = some ptr ∧
          t1.stream.packet_buffer_ = t.stream.packet_buffer_ ∧
          t1.stream.total_packet_length_ =
            (P2PHeader.sizeof cfg : Int) + (packet.length : Int) + (cfg.sizeofChecksum : Int) ∧
          t1.stream.pending_packet_bytes_ = t1.stream.total_packet_length_ -
            c.Write (min t1.stream.total_packet_length_ bs.GetBurstMaxLength) ∧
          written = packet.bytes.take
            (c.Write (min t1.stream.total_packet_length_ bs.GetBurstMaxLength)).toNat ∧
          (written.length : Int) =
            c.Write (min t1.stream.total_packet_length_ bs.GetBurstMaxLength) ∧
          t1.packet_written = written) ∧
      (t.stream.state_ = .kSendingBurst →
        ∃ packet, t.stream.currentPacket = some packet ∧
          t1.stream.packet_buffer_ = t.stream.packet_buffer_ ∧
          t1.stream.current_packet_ = t.stream.current_packet_ ∧
          t1.packet_written = t.packet_written ++ written ∧
          (t.stream.pending_burst_bytes_ ≤ 0 →
            t1.stream.state_ = .kWaitingForBurstIngestion ∧ written = [] ∧
            t1.stream.pending_packet_bytes_ = t.stream.pending_packet_bytes_) ∧
          (0 < t.stream.pending_burst_bytes_ →
            t1.stream.state_ = .kSendingBurst ∧
            written = (packet.bytes.drop
              (t.stream.total_packet_length_ - t.stream.pending_packet_bytes_).toNat).take
                (c.Write t.stream.pending_burst_bytes_).toNat ∧
            (written.length : Int) = c.Write t.stream.pending_burst_bytes_ ∧
            t1.stream.pending_packet_bytes_ =
              t.stream.pending_packet_bytes_ - c.Write t.stream.pending_burst_bytes_)) ∧
      (t.stream.state_ = .kWaitingForBurstIngestion →
        ∃ packet, t.stream.currentPacket = some packet ∧
          t.stream.packet_buffer_.OldestValue = some packet ∧
          (c.timestamp_ns < t.stream.burst_end_timestamp_ns_ →
            t1.stream = t.stream ∧ written = [] ∧ t1.packet_written = t.packet_written) ∧
          (¬ c.timestamp_ns < t.stream.burst_end_timestamp_ns_ →
            t.stream.pending_packet_bytes_ ≤ 0 →
            t1.stream.state_ = .kGettingNextPacket ∧
            t1.stream.packet_buffer_ = t.stream.packet_buffer_.Consume.1 ∧ written = [] ∧
            t.packet_written = packet.wire cfg) ∧
          (¬ c.timestamp_ns < t.stream.burst_end_timestamp_ns_ →
            0 < t.stream.pending_packet_bytes_ →
            t1.stream.state_ = .kSendingBurst ∧
            t1.stream.packet_buffer_ = t.stream.packet_buffer_ ∧
            t1.stream.current_packet_ = t.stream.current_packet_ ∧
            written = (packet.bytes.drop
              (t.stream.total_packet_length_ - t.stream.pending_packet_bytes_).toNat).take
                (c.Write (min t.stream.pending_packet_bytes_ bs.GetBurstMaxLength)).toNat ∧
            (written.length : Int) =
              c.Write (min t.stream.pending_packet_bytes_ bs.GetBurstMaxLength) ∧
            t1.stream.pending_packet_bytes_ = t.stream.pending_packet_bytes_ -
              c.Write (min t.stream.pending_packet_bytes_ bs.GetBurstMaxLength) ∧
            t1.packet_written = t.packet_written ++ written)) := by
  obtain ⟨t0, hruns0, hinv, hold⟩ := OutputTrace.runs_SendingOldest cfg bs hmax calls _
    (OutputTrace.start_Serializing cfg bs s hmax hstart hwf) (fun h => absurd hstart h)
    (fun c1 hc1 => hW c1 (List.mem_append_left _ hc1))
  obtain ⟨t2, written0, hrun0, _, hnone, hpick, hsending, hwaiting⟩ :=
    OutputTrace.run_steps cfg bs t0 c hmax
      (hW c (List.mem_append_right _ (List.mem_singleton_self c))) hinv hold
  refine ⟨⟨t0, t2, written0, hruns0, hrun0⟩, ?_⟩
  intro t t1 written hruns hrun
  rw [hruns0] at hruns
  injection hruns with ht
  subst ht
  rw [hrun0] at hrun
  simp only [Option.some.injEq, Prod.mk.injEq] at hrun
  obtain ⟨ht1, hwr⟩ := hrun
  subst ht1
  subst hwr
  refine ⟨fun hstate => ?_, hnone, hpick, hsending, hwaiting⟩
  obtain ⟨packet, b, rest, hcur, hfit, _, htotal, hpb0, hpbpp, hpptotal, hwritten, _⟩ :=
    hinv.2.2 hstate
  have hold1 := hold hstate
  have hcur1 := hcur
  simp only [P2PPacketOutputStream.currentPacket] at hcur1
  split at hcur1
  · exact absurd hcur1 (by simp)
  · rename_i ptr hptr
    simp only [P2PPacket.total_packet_length] at hfit
    refine ⟨ptr, packet, hptr, hold1.trans hptr, hcur1, htotal, hpb0, hpbpp, hpptotal, hwritten,
      ?_⟩
    rw [hwritten, List.length_take]
    omega

/-- C15: burst size bound. Under the conditions of `exact_serialization`, after any number of
calls of `Run` the bytes written since `burst_end_timestamp_ns_` was last assigned are at most
`GetBurstMaxLength()`. While a packet is being sent, those bytes and `pending_burst_bytes_` add
up to the length of the burst, `min(remaining, GetBurstMaxLength())`, where `remaining` is
`total_packet_length_` minus the bytes accepted before the burst began; in
`kWaitingForBurstIngestion` the bytes written in the burst are exactly that many. -/
theorem burst_size_bound (cfg : P2PProtocol) (bs : P2PByteStream) (s : P2PPacketOutputStream)
    (calls : List RunCall) (hmax : 0 ≤ bs.GetBurstMaxLength)
    (hstart : s.state_ = .kGettingNextPacket) (hwf : s.packet_buffer_.WellFormed cfg)
    (hW : ∀ c ∈ calls, ∀ n : Int, 0 ≤ n → 0 ≤ c.Write n ∧ c.Write n ≤ n) :
    ∃ t, (OutputTrace.start s).runs cfg bs calls = some t ∧
      (t.burst_written.length : Int) ≤ bs.GetBurstMaxLength ∧
      (t.stream.state_ ≠ .kGettingNextPacket →
        ∃ b rest, t.bursts = b :: rest ∧
          b.remaining = t.stream.total_packet_length_ -
            ((t.packet_written.length : Int) - (t.burst_written.length : Int)) ∧
          (t.burst_written.length : Int) + t.stream.pending_burst_bytes_ =
            min b.remaining bs.GetBurstMaxLength ∧
          (t.stream.state_ = .kWaitingForBurstIngestion →
            (t.burst_written.length : Int) = min b.remaining bs.GetBurstMaxLength)) := by
  obtain ⟨t, hruns, hinv⟩ := OutputTrace.runs_Serializing cfg bs hmax calls _
    (OutputTrace.start_Serializing cfg bs s hmax hstart hwf) hW
  refine ⟨t, hruns, hinv.2.1, fun hstate => ?_⟩
  obtain ⟨packet, b, rest, _, hfit, hbursts, htotal, hpb0, hpbpp, hpptotal, hwritten, hbl, hrem,
    hwait⟩ := hinv.2.2 hstate
  simp only [P2PPacket.total_packet_length] at hfit
  have hlenw : (t.packet_written.length : Int) =
      t.stream.total_packet_length_ - t.stream.pending_packet_bytes_ := by
    rw [hwritten, List.length_take]
    omega
  simp only [BurstRecord.length] at hbl
  refine ⟨b, rest, hbursts, by omega, hbl, fun hw => ?_⟩
  have := hwait hw
  omega
theorem exampleRunCall_Write (calls : List RunCall)
    (h : ∀ c ∈ calls, ∃ timestamp_ns, c = exampleRunCall timestamp_ns) :
    ∀ c ∈ calls, ∀ n : Int, 0 ≤ n → 0 ≤ c.Write n ∧ c.Write n ≤ n := by
  intro c hc n hn
  obtain ⟨ts, hts⟩ := h c hc
  subst hts
  simp only [exampleRunCall]
  omega

theorem exact_serialization_witness :
    exampleCommitted.state_ = .kGettingNextPacket ∧
    exampleCommitted.packet_buffer_.OldestValuePtr = some { priority := .kHigh, index := 0 } ∧
    (∃ packet,
      exampleCommitted.packet_buffer_.deref { priority := .kHigh, index := 0 } = some packet ∧
      (exampleTrace [exampleRunCall 0]).stream.state_ = .kSendingBurst ∧
      (exampleTrace [exampleRunCall 0]).stream.total_packet_length_ = 9 ∧
      (exampleTrace [exampleRunCall 0]).stream.pending_packet_bytes_ = 4 ∧
      [170, 2, 0, 0, 1] = packet.bytes.take 5 ∧
      (exampleTrace [exampleRunCall 0]).packet_written = [170, 2, 0, 0, 1]) ∧
    (∃ packet,
      (exampleTrace [exampleRunCall 0]).stream.currentPacket = some packet ∧
      (exampleTrace [exampleRunCall 0, exampleRunCall 10]).stream.state_ = .kSendingBurst ∧
      [0, 0, 0, 3] = (packet.bytes.drop 5).take 4 ∧
      (exampleTrace [exampleRunCall 0, exampleRunCall 10]).packet_written =
        [170, 2, 0, 0, 1] ++ [0, 0, 0, 3] ∧
      (exampleTrace [exampleRunCall 0, exampleRunCall 10]).stream.pending_packet_bytes_ = 0) ∧
    (∃ packet,
      (exampleTrace [exampleRunCall 0, exampleRunCall 10]).stream.currentPacket = some packet ∧
      (exampleTrace [exampleRunCall 0, exampleRunCall 10,
        exampleRunCall 20]).stream.state_ = .kWaitingForBurstIngestion ∧
      (exampleTrace [exampleRunCall 0, exampleRunCall 10, exampleRunCall 20]).packet_written =
        [170, 2, 0, 0, 1, 0, 0, 0, 3]) ∧
    (∃ packet,
      exampleCommitted.packet_buffer_.OldestValue = some packet ∧
      (exampleTrace [exampleRunCall 0, exampleRunCall 10, exampleRunCall 20,
        exampleRunCall 3000000]).stream.state_ = .kGettingNextPacket ∧
      (exampleTrace [exampleRunCall 0, exampleRunCall 10, exampleRunCall 20,
        exampleRunCall 3000000]).stream.packet_buffer_ = exampleCommitted.packet_buffer_.Consume.1 ∧
      [170, 2, 0, 0, 1, 0, 0, 0, 3] = packet.wire exampleProtocol) := by
  have hmax : (0 : Int) ≤ P2PByteStreamLinux.GetBurstMaxLength := by decide
  have hwf : exampleCommitted.packet_buffer_.WellFormed exampleProtocol := by
    intro p
    cases p <;> exact ⟨by decide, by decide⟩
  have hpick := (exact_serialization exampleProtocol P2PByteStreamLinux exampleCommitted
    [] (exampleRunCall 0) hmax (by rfl) hwf
    (exampleRunCall_Write _ (by simp))).2
    (OutputTrace.start exampleCommitted) (exampleTrace [exampleRunCall 0]) [170, 2, 0, 0, 1]
    (by rfl) (by rfl)
  have hsend := (exact_serialization exampleProtocol P2PByteStreamLinux exampleCommitted
    [exampleRunCall 0] (exampleRunCall 10) hmax (by rfl) hwf
    (exampleRunCall_Write _ (by simp))).2
    (exampleTrace [exampleRunCall 0]) (exampleTrace [exampleRunCall 0, exampleRunCall 10])
    [0, 0, 0, 3] (by rfl) (by rfl)
  have hdone := (exact_serialization exampleProtocol P2PByteStreamLinux exampleCommitted
    [exampleRunCall 0, exampleRunCall 10] (exampleRunCall 20) hmax (by rfl) hwf
    (exampleRunCall_Write _ (by simp))).2
    (exampleTrace [exampleRunCall 0, exampleRunCall 10])
    (exampleTrace [exampleRunCall 0, exampleRunCall 10, exampleRunCall 20])
    [] (by rfl) (by rfl)
  have hconsume := (exact_serialization exampleProtocol P2PByteStreamLinux exampleCommitted
    [exampleRunCall 0, exampleRunCall 10, exampleRunCall 20] (exampleRunCall 3000000) hmax
    (by rfl) hwf (exampleRunCall_Write _ (by simp))).2
    (exampleTrace [exampleRunCall 0, exampleRunCall 10, exampleRunCall 20])
    (exampleTrace [exampleRunCall 0, exampleRunCall 10, exampleRunCall 20,
      exampleRunCall 3000000])
    [] (by rfl) (by rfl)
  obtain ⟨p1, h1a, h1b, _, _, h1c, h1d, h1e, _, h1f⟩ :=
    hpick.2.2.1 (by rfl) { priority := .kHigh, index := 0 } (by rfl)
  obtain ⟨p2, h2a, _, _, h2b, _, h2c⟩ := hsend.2.2.2.1 (by rfl)
  obtain ⟨h2d, h2e, _, h2f⟩ := h2c (by decide)
  obtain ⟨p3, h3a, _, _, h3b, h3c, _⟩ := hdone.2.2.2.1 (by rfl)
  obtain ⟨h3d, _, _⟩ := h3c (by decide)
  obtain ⟨p4, _, h4a, _, h4b, _⟩ := hconsume.2.2.2.2 (by rfl)
  obtain ⟨h4c, h4d, _, h4e⟩ := h4b (by decide) (by decide)
  exact ⟨by rfl, by rfl, ⟨p1, h1a, h1b, by rfl, h1d, h1e, h1f⟩, ⟨p2, h2a, h2d, h2e, h2b, h2f⟩,
    ⟨p3, h3a, h3d, h3b⟩, ⟨p4, h4a, h4c, h4d, h4e⟩⟩

theorem burst_size_bound_witness :
    exampleCommitted.state_ = .kGettingNextPacket ∧
    ∃ t, (OutputTrace.start exampleCommitted).runs exampleProtocol P2PByteStreamLinux
        [exampleRunCall 0, exampleRunCall 10] = some t ∧
      (t.burst_written.length : Int) ≤ P2PByteStreamLinux.GetBurstMaxLength ∧
      (t.stream.state_ ≠ .kGettingNextPacket →
        ∃ b rest, t.bursts = b :: rest ∧
          b.remaining = t.stream.total_packet_length_ -
            ((t.packet_written.length : Int) - (t.burst_written.length : Int)) ∧
          (t.burst_written.length : Int) + t.stream.pending_burst_bytes_ =
            min b.remaining P2PByteStreamLinux.GetBurstMaxLength ∧
          (t.stream.state_ = .kWaitingForBurstIngestion →
            (t.burst_written.length : Int) =
              min b.remaining P2PByteStreamLinux.GetBurstMaxLength)) :=
  ⟨by rfl,
    burst_size_bound exampleProtocol P2PByteStreamLinux exampleCommitted
      [exampleRunCall 0, exampleRunCall 10] (by decide) (by rfl)
      (by intro p; cases p <;> exact ⟨by decide, by decide⟩)
      (by
        intro c1 hc1 n hn
        simp only [List.mem_cons, List.mem_singleton, List.not_mem_nil, or_false] at hc1
        rcases hc1 with h | h <;> subst h <;> simp only [exampleRunCall] <;> omega)⟩

theorem DutyCycleFromLinearSpeed_range {α : Type} [LinearOrderedField α] (log : α → α) (v : α) :
    (0 ≤ v → 0 ≤ DutyCycleFromLinearSpeed log v ∧ DutyCycleFromLinearSpeed log v ≤ 1) ∧
    (v ≤ 0 → -1 ≤ DutyCycleFromLinearSpeed log v ∧ DutyCycleFromLinearSpeed log v ≤ 0) := by
  have hclamp := clamp_mem
    (kSpeedModelTimeConstant * log kSpeedModelFactor - kSpeedModelDutyCycleOffset -
      kSpeedModelTimeConstant * log (kSpeedModelSpeedOffset - |v|))
    (kPWMDutyCycleMin : α) kPWMDutyCycleMax (by simp [kPWMDutyCycleMin, kPWMDutyCycleMax])
  simp only [kPWMDutyCycleMin, kPWMDutyCycleMax] at hclamp
  obtain ⟨hlo, hhi⟩ := hclamp
  have hoff : (0 : α) < kSpeedModelSpeedOffset := by norm_num [kSpeedModelSpeedOffset]
  unfold DutyCycleFromLinearSpeed
  simp only [kPWMDutyCycleMin, kPWMDutyCycleMax]
  constructor
  · intro hv
    split_ifs with h0 h1 h2 h3
    · exact ⟨le_refl _, zero_le_one⟩
    · exact ⟨zero_le_one, le_refl _⟩
    · exfalso
      linarith
    · exfalso
      linarith
    · exact ⟨hlo, hhi⟩
  · intro hv
    split_ifs with h0 h1 h2 h3
    · exact ⟨by linarith [(zero_le_one : (0 : α) ≤ 1)], le_refl _⟩
    · exfalso
      linarith
    · exact ⟨le_refl _, by linarith [(zero_le_one : (0 : α) ≤ 1)]⟩
    · exact ⟨by linarith, by linarith⟩
    · exfalso
      exact h0 (le_antisymm hv (not_lt.mp h3))

theorem speed_command_range {α : Type} [LinearOrderedField α] (log : α → α) (forward : Bool)
    (x : α) :
    (forward = true →
      0 ≤ DutyCycleFromLinearSpeed log
          (if (forward && decide (x < 0)) || (!forward && decide (0 < x)) then 0 else x) ∧
      DutyCycleFromLinearSpeed log
          (if (forward && decide (x < 0)) || (!forward && decide (0 < x)) then 0 else x) ≤ 1) ∧
    (forward = false →
      -1 ≤ DutyCycleFromLinearSpeed log
          (if (forward && decide (x < 0)) || (!forward && decide (0 < x)) then 0 else x) ∧
      DutyCycleFromLinearSpeed log
          (if (forward && decide (x < 0)) || (!forward && decide (0 < x)) then 0 else x) ≤ 0) := by
  constructor
  · intro hf
    subst hf
    apply (DutyCycleFromLinearSpeed_range log _).1
    by_cases hx : x < 0
    · simp [hx]
    · simp [hx, not_lt.mp hx]
  · intro hf
    subst hf
    apply (DutyCycleFromLinearSpeed_range log _).2
    by_cases hx : 0 < x
    · simp [hx]
    · simp [hx, not_lt.mp hx]

/-- C22: the emitted duty cycle never opposes the inferred direction. Over every ordered field
(the reals in particular), whatever `log` is and whatever the PID returns, the duty cycle that
`RunAfterPeriod` passes to `duty_cycle_setter_` lies in `[0, 1]` when the call infers
`is_turning_forward` true and in `[-1, 0]` when it infers false: a speed command
`target + pid_output` of the opposite sign is replaced by 0, and `DutyCycleFromLinearSpeed` keeps
the sign of its argument. So after `SetLinearSpeed` of a negative target the duty cycle of the next
call is not positive. -/
theorem duty_cycle_never_opposes_direction {α : Type} [LinearOrderedField α] (log : α → α)
    (robot : RobotModel α) (c : WheelSpeedController α) (ticks : Int)
    (now_nanos nanos_since_last_call : Nat) :
    ((c.RunAfterPeriod log robot ticks now_nanos nanos_since_last_call).controller.is_turning_forward_
        = true →
      0 ≤ (c.RunAfterPeriod log robot ticks now_nanos nanos_since_last_call).duty_cycle ∧
      (c.RunAfterPeriod log robot ticks now_nanos nanos_since_last_call).duty_cycle ≤ 1) ∧
    ((c.RunAfterPeriod log robot ticks now_nanos nanos_since_last_call).controller.is_turning_forward_
        = false →
      -1 ≤ (c.RunAfterPeriod log robot ticks now_nanos nanos_since_last_call).duty_cycle ∧
      (c.RunAfterPeriod log robot ticks now_nanos nanos_since_last_call).duty_cycle ≤ 0) ∧
    (∀ (now_seconds : α) (ticks0 : Int) (meters_per_second : α), meters_per_second < 0 →
      ((c.SetLinearSpeed now_seconds ticks0 meters_per_second).RunAfterPeriod log robot ticks
        now_nanos nanos_since_last_call).duty_cycle ≤ 0) ∧
    (∀ (forward : Bool) (pid_output : α),
      (forward = true →
        0 ≤ DutyCycleFromLinearSpeed log
            (if (forward && decide (c.pid_.target_ + pid_output < 0)) ||
                (!forward && decide (0 < c.pid_.target_ + pid_output)) then 0
              else c.pid_.target_ + pid_output) ∧
        DutyCycleFromLinearSpeed log
            (if (forward && decide (c.pid_.target_ + pid_output < 0)) ||
                (!forward && decide (0 < c.pid_.target_ + pid_output)) then 0
              else c.pid_.target_ + pid_output) ≤ 1) ∧
      (forward = false →
        -1 ≤ DutyCycleFromLinearSpeed log
            (if (forward && decide (c.pid_.target_ + pid_output < 0)) ||
                (!forward && decide (0 < c.pid_.target_ + pid_output)) then 0
              else c.pid_.target_ + pid_output) ∧
        DutyCycleFromLinearSpeed log
            (if (forward && decide (c.pid_.target_ + pid_output < 0)) ||
                (!forward && decide (0 < c.pid_.target_ + pid_output)) then 0
              else c.pid_.target_ + pid_output) ≤ 0)) := by
  have hrun : ∀ d : WheelSpeedController α,
      ((d.RunAfterPeriod log robot ticks now_nanos nanos_since_last_call).controller.is_turning_forward_
          = true →
        0 ≤ (d.RunAfterPeriod log robot ticks now_nanos nanos_since_last_call).duty_cycle ∧
        (d.RunAfterPeriod log robot ticks now_nanos nanos_since_last_call).duty_cycle ≤ 1) ∧
      ((d.RunAfterPeriod log robot ticks now_nanos nanos_since_last_call).controller.is_turning_forward_
          = false →
        -1 ≤ (d.RunAfterPeriod log robot ticks now_nanos nanos_since_last_call).duty_cycle ∧
        (d.RunAfterPeriod log robot ticks now_nanos nanos_since_last_call).duty_cycle ≤ 0) := by
    intro d
    exact speed_command_range log _ _
  refine ⟨(hrun c).1, (hrun c).2, fun now_seconds ticks0 v hv => ?_,
    fun forward pid_output => speed_command_range log forward _⟩
  refine ((hrun (c.SetLinearSpeed now_seconds ticks0 v)).2 ?_).2
  simp [WheelSpeedController.RunAfterPeriod, WheelSpeedController.SetLinearSpeed,
    not_lt.mpr (le_of_lt hv), ne_of_lt hv]

theorem duty_cycle_never_opposes_direction_witness :
    ((exampleController.SetLinearSpeed 0 0 (-1 / 5)).RunAfterPeriod exampleLog exampleRobot 5
        100000000 10000000).duty_cycle ≤ 0 ∧
    (0 ≤ (exampleController.RunAfterPeriod exampleLog exampleRobot 5 100000000
        10000000).duty_cycle ∧
      (exampleController.RunAfterPeriod exampleLog exampleRobot 5 100000000
        10000000).duty_cycle ≤ 1) :=
  ⟨(duty_cycle_never_opposes_direction exampleLog exampleRobot exampleController 5 100000000
      10000000).2.2.1 0 0 (-1 / 5) (by norm_num),
    (duty_cycle_never_opposes_direction exampleLog exampleRobot exampleController 5 100000000
      10000000).1 (by simp [WheelSpeedController.RunAfterPeriod, exampleController])⟩

/-- C23: the speed estimate fed to the PID. In every call of `RunAfterPeriod`, with
`ticks = wheel_tick_count_getter_() - num_wheel_ticks_start_` as the code computes it (an `int`;
it is the difference of the counts whenever that fits 32 bits), the value passed to `pid_.update`
(and kept in `average_wheel_speed_`) is, if `ticks > 0` and the elapsed time is not 0,
`kWheelRadius * kRadiansPerWheelTick * ticks / (SecondsFromNanos(now_nanos) - time_start_)`,
negated when the direction inferred in this call is backward; if `ticks` is not positive it is 0
when the inferred direction differs from `is_turning_forward_` of the previous call, and
otherwise `average_wheel_speed_` of the previous call unchanged. -/
theorem speed_estimate_fed_to_pid {α : Type} [LinearOrderedField α] (log : α → α)
    (robot : RobotModel α) (c : WheelSpeedController α) (ticks : Int)
    (now_nanos nanos_since_last_call : Nat) :
    (c.RunAfterPeriod log robot ticks now_nanos nanos_since_last_call).controller.pid_ =
      c.pid_.update (c.RunAfterPeriod log robot ticks now_nanos nanos_since_last_call).measurement
        (SecondsFromNanos nanos_since_last_call) ∧
    (c.RunAfterPeriod log robot ticks now_nanos
      nanos_since_last_call).controller.average_wheel_speed_ =
      (c.RunAfterPeriod log robot ticks now_nanos nanos_since_last_call).measurement ∧
    (-(2 ^ 31) ≤ ticks - c.num_wheel_ticks_start_ → ticks - c.num_wheel_ticks_start_ < 2 ^ 31 →
      int32 (ticks - c.num_wheel_ticks_start_) = ticks - c.num_wheel_ticks_start_) ∧
    (0 < int32 (ticks - c.num_wheel_ticks_start_) →
      SecondsFromNanos now_nanos - c.time_start_ ≠ 0 →
      ((c.RunAfterPeriod log robot ticks now_nanos nanos_since_last_call).controller.is_turning_forward_
          = true →
        (c.RunAfterPeriod log robot ticks now_nanos nanos_since_last_call).measurement =
          robot.kWheelRadius * robot.kRadiansPerWheelTick *
            ((int32 (ticks - c.num_wheel_ticks_start_) : Int) : α) /
            (SecondsFromNanos now_nanos - c.time_start_)) ∧
      ((c.RunAfterPeriod log robot ticks now_nanos nanos_since_last_call).controller.is_turning_forward_
          = false →
        (c.RunAfterPeriod log robot ticks now_nanos nanos_since_last_call).measurement =
          -(robot.kWheelRadius * robot.kRadiansPerWheelTick *
            ((int32 (ticks - c.num_wheel_ticks_start_) : Int) : α) /
            (SecondsFromNanos now_nanos - c.time_start_)))) ∧
    (¬ 0 < int32 (ticks - c.num_wheel_ticks_start_) →
      ((c.RunAfterPeriod log robot ticks now_nanos nanos_since_last_call).controller.is_turning_forward_
          ≠ c.is_turning_forward_ →
        (c.RunAfterPeriod log robot ticks now_nanos nanos_since_last_call).measurement = 0) ∧
      ((c.RunAfterPeriod log robot ticks now_nanos nanos_since_last_call).controller.is_turning_forward_
          = c.is_turning_forward_ →
        (c.RunAfterPeriod log robot ticks now_nanos nanos_since_last_call).measurement =
          c.average_wheel_speed_)) := by
  refine ⟨rfl, rfl, fun h0 h1 => ?_, fun hticks _ => ⟨fun hf => ?_, fun hf => ?_⟩,
    fun hticks => ⟨fun hne => ?_, fun heq => ?_⟩⟩
  · unfold int32
    rw [Int.emod_eq_of_lt (by omega) (by omega)]
    omega
  · simp only [WheelSpeedController.RunAfterPeriod] at hf ⊢
    simp only [hticks, ↓reduceIte, hf, Bool.not_true, Bool.false_eq_true]
  · simp only [WheelSpeedController.RunAfterPeriod] at hf ⊢
    simp only [hticks, ↓reduceIte, hf, Bool.not_false]
  · simp only [WheelSpeedController.RunAfterPeriod] at hne ⊢
    simp only [hticks, ↓reduceIte, hne, ite_true, ne_eq, not_false_eq_true]
  · simp only [WheelSpeedController.RunAfterPeriod] at heq ⊢
    simp only [hticks, ↓reduceIte, heq, ne_eq, not_true_eq_false]

theorem speed_estimate_fed_to_pid_witness :
    (exampleController.RunAfterPeriod exampleLog exampleRobot 5 100000000 10000000).measurement =
      exampleRobot.kWheelRadius * exampleRobot.kRadiansPerWheelTick *
        ((int32 (5 - exampleController.num_wheel_ticks_start_) : Int) : ℚ) /
        (SecondsFromNanos 100000000 - exampleController.time_start_) ∧
    int32 (5 - exampleController.num_wheel_ticks_start_) =
      5 - exampleController.num_wheel_ticks_start_ ∧
    (exampleController.RunAfterPeriod exampleLog exampleRobot 5 100000000 10000000).measurement =
      1 / 8 ∧
    ((exampleController.SetLinearSpeed 0 0 (-1 / 5)).RunAfterPeriod exampleLog exampleRobot 0
        100000000 10000000).measurement = 0 ∧
    (exampleController.RunAfterPeriod exampleLog exampleRobot 0 100000000 10000000).measurement =
      exampleController.average_wheel_speed_ :=
  ⟨((speed_estimate_fed_to_pid exampleLog exampleRobot exampleController 5 100000000
      10000000).2.2.2.1 (by decide)
      (by norm_num [SecondsFromNanos, exampleController])).1
      (by simp [WheelSpeedController.RunAfterPeriod, exampleController]),
    (speed_estimate_fed_to_pid exampleLog exampleRobot exampleController 5 100000000
      10000000).2.2.1 (by decide) (by decide),
    by
      rw [((speed_estimate_fed_to_pid exampleLog exampleRobot exampleController 5 100000000
        10000000).2.2.2.1 (by decide)
        (by norm_num [SecondsFromNanos, exampleController])).1
        (by simp [WheelSpeedController.RunAfterPeriod, exampleController])]
      norm_num [int32, exampleRobot, exampleController, SecondsFromNanos],
    ((speed_estimate_fed_to_pid exampleLog exampleRobot
      (exampleController.SetLinearSpeed 0 0 (-1 / 5)) 0 100000000 10000000).2.2.2.2
      (by decide)).1
      (by norm_num [WheelSpeedController.RunAfterPeriod, WheelSpeedController.SetLinearSpeed,
        exampleController]),
    ((speed_estimate_fed_to_pid exampleLog exampleRobot exampleController 0 100000000
      10000000).2.2.2.2 (by decide)).2
      (by simp [WheelSpeedController.RunAfterPeriod, exampleController])⟩

/-- C24, evaluated at a failing input: the bytes `170 3 0 0 0 0 0 0` are a start token followed by
header bytes that hold no token, with priority byte 3. The input stream reads them into
`incoming_header_` without looking at the priority. With the header complete, the next call of
`Run`, whatever the transport holds, evaluates `packet_buffer_.NewValue(incoming_header_.priority)`
with priority 3, which is not below `kNumLevels`: the assertion of `P2PPriority(int)` fails. -/
theorem received_priority_is_not_validated :
    P2PPacketInputStream.runN exampleProtocol .kLittleEndian 8 (newInputStream exampleProtocol 2)
        exampleGarbage = some (exampleAfterGarbage, []) ∧
    exampleAfterGarbage.state_ = .kReadingHeader ∧
    P2PHeader.sizeof exampleProtocol ≤ exampleAfterGarbage.current_field_read_bytes_ ∧
    exampleAfterGarbage.incoming_header_.priority = 3 ∧
    ¬ exampleAfterGarbage.incoming_header_.priority < P2PPriority.kNumLevels ∧
    P2PPriority.ofInt exampleAfterGarbage.incoming_header_.priority = none ∧
    exampleAfterGarbage.NewValue = none ∧
    ∀ input : List Nat, exampleAfterGarbage.Run exampleProtocol .kLittleEndian input = none := by
  refine ⟨by rfl, by rfl, by decide, by rfl, by decide, by rfl, by rfl, fun input => ?_⟩
  have hstate : exampleAfterGarbage.state_ = .kReadingHeader := by rfl
  have hbytes : P2PHeader.sizeof exampleProtocol ≤ exampleAfterGarbage.current_field_read_bytes_ := by
    decide
  have hslot : exampleAfterGarbage.NewValue = none := by rfl
  simp only [P2PPacketInputStream.Run, hstate, hbytes, ↓reduceIte,
    P2PPacketInputStream.headerComplete, hslot, Option.map_none']

theorem odometerDigits_succ (L n k : Nat) :
    odometerDigits L (n + 1) k = (k % L) :: odometerDigits L n (k / L) := by
  simp only [odometerDigits, List.range_succ_eq_map, List.map_cons, List.map_map, pow_zero,
    Nat.div_one]
  congr 1
  apply List.map_congr_left
  intro i _
  simp only [Function.comp, pow_succ', Nat.div_div_eq_div_mul]

theorem odometerDigits_getElem? (L n k i : Nat) (hi : i < n) :
    (odometerDigits L n k)[i]? = some (k / L ^ i % L) := by
  simp [odometerDigits, List.getElem?_map, List.getElem?_range hi]

theorem odometerDigits_length (L n k : Nat) : (odometerDigits L n k).length = n := by
  simp [odometerDigits]

theorem odometerDigits_zero (L n : Nat) :
    odometerDigits L n 0 = List.replicate n 0 := by
  induction n with
  | zero => rfl
  | succ n ih =>
    rw [odometerDigits_succ, List.replicate_succ, Nat.zero_mod, Nat.zero_div, ih]

theorem incrementSequenceNumber_odometerDigits (L : Nat) (hL : 2 ≤ L) (hL2 : L ≤ 255) (n : Nat) :
    ∀ k : Nat, incrementSequenceNumber L (odometerDigits L n k) = odometerDigits L n (k + 1) := by
  induction n with
  | zero =>
    intro k
    rfl
  | succ n ih =>
    intro k
    have hpos : 0 < L := by omega
    have hlt : k % L < L := Nat.mod_lt _ hpos
    have hdm : L * (k / L) + k % L = k := Nat.div_add_mod k L
    rw [odometerDigits_succ, odometerDigits_succ]
    simp only [incrementSequenceNumber]
    have h256 : (k % L + 1) % 256 = k % L + 1 := Nat.mod_eq_of_lt (by omega)
    rw [h256]
    by_cases hcarry : k % L + 1 < L
    · have hmod : (k % L + 1) % L = k % L + 1 := Nat.mod_eq_of_lt hcarry
      have hdiv : (k + 1) / L = k / L ∧ (k + 1) % L = k % L + 1 :=
        (Nat.div_mod_unique hpos).mpr ⟨by omega, hcarry⟩
      rw [hmod, hdiv.1, hdiv.2]
      simp
    · have heq : k % L + 1 = L := by omega
      have hmod : (k % L + 1) % L = 0 := by rw [heq, Nat.mod_self]
      have hdiv : (k + 1) / L = k / L + 1 ∧ (k + 1) % L = 0 :=
        (Nat.div_mod_unique hpos).mpr ⟨by rw [Nat.mul_add]; omega, hpos⟩
      rw [hmod, hdiv.1, hdiv.2, ih]
      simp

theorem littleEndianValue_incrementSequenceNumber (L : Nat) (hL : 2 ≤ L) (hL2 : L ≤ 255)
    (l : List Nat) (h : ∀ b ∈ l, b < L) :
    (l ≠ List.replicate l.length (L - 1) →
      littleEndianValue l < littleEndianValue (incrementSequenceNumber L l)) ∧
    (l = List.replicate l.length (L - 1) →
      incrementSequenceNumber L l = List.replicate l.length 0) := by
  induction l with
  | nil => exact ⟨fun hne => absurd rfl hne, fun _ => rfl⟩
  | cons b rest ih =>
    have hb : b < L := h b (List.mem_cons_self _ _)
    obtain ⟨ih1, ih2⟩ := ih (fun x hx => h x (List.mem_cons_of_mem _ hx))
    have h256 : (b + 1) % 256 = b + 1 := Nat.mod_eq_of_lt (by omega)
    simp only [incrementSequenceNumber, h256, List.length_cons, List.replicate_succ]
    by_cases hcarry : b + 1 < L
    · have hmod : (b + 1) % L = b + 1 := Nat.mod_eq_of_lt hcarry
      simp only [hmod, Nat.succ_pos, ↓reduceIte, littleEndianValue]
      refine ⟨fun _ => by omega, fun hall => ?_⟩
      injection hall with hhead _
      omega
    · have heq : b + 1 = L := by omega
      have hmod : (b + 1) % L = 0 := by rw [heq, Nat.mod_self]
      simp only [hmod, lt_irrefl, ↓reduceIte, littleEndianValue]
      refine ⟨fun hne => ?_, fun hall => ?_⟩
      · have hrest : rest ≠ List.replicate rest.length (L - 1) := by
          intro hrest
          apply hne
          rw [← hrest]
          congr 1
          omega
        have := ih1 hrest
        omega
      · injection hall with _ htail
        rw [ih2 htail]

theorem odometerDigits_injective (L : Nat) (n : Nat) :
    ∀ j k : Nat, odometerDigits L n j = odometerDigits L n k → j % L ^ n = k % L ^ n := by
  induction n with
  | zero =>
    intro j k _
    simp [Nat.mod_one]
  | succ n ih =>
    intro j k h
    rw [odometerDigits_succ, odometerDigits_succ] at h
    injection h with hhead htail
    rw [pow_succ', Nat.mod_mul, Nat.mod_mul, hhead, ih _ _ htail]

theorem odometerDigits_distinct (L n j k : Nat) (hjk : j < k) (hwindow : k < j + L ^ n) :
    odometerDigits L n j ≠ odometerDigits L n k := by
  intro h
  have hmod := odometerDigits_injective L n j k h
  have hdvd : L ^ n ∣ k - j := (Nat.modEq_iff_dvd' (le_of_lt hjk)).mp hmod
  have hle := Nat.le_of_dvd (by omega) hdvd
  omega
theorem P2PPacketOutputStream.callCommitted_counter (cfg : P2PProtocol) (e : Endianness)
    (bs : P2PByteStream) (s t : P2PPacketOutputStream) (c : OutputCall)
    (packet : Option P2PPacket) (h : s.callCommitted cfg e bs c = some (t, packet)) :
    s.call cfg e bs c = some t ∧
    ((packet = none ∧ t.current_sequence_number_ = s.current_sequence_number_) ∨
      ∃ x, packet = some x ∧
        t.current_sequence_number_ =
          incrementSequenceNumber cfg.kP2PLowestToken s.current_sequence_number_ ∧
        x.header.sequence_number = LocalToNetwork e s.current_sequence_number_) := by
  cases c with
  | fill priority length content =>
    simp only [P2PPacketOutputStream.callCommitted, P2PPacketOutputStream.call, Option.map_some',
      Option.some.injEq, Prod.mk.injEq] at h
    obtain ⟨h1, h2⟩ := h
    subst h1
    subst h2
    refine ⟨rfl, Or.inl ⟨rfl, ?_⟩⟩
    unfold P2PPacketOutputStream.fillNewPacket
    split
    · split <;> rfl
    · rfl
  | run timestamp_ns Write =>
    simp only [P2PPacketOutputStream.callCommitted, P2PPacketOutputStream.call] at h
    cases hrun : s.Run cfg bs Write timestamp_ns with
    | none => simp [hrun] at h
    | some r =>
      simp only [hrun, Option.map_some', Option.some.injEq, Prod.mk.injEq] at h
      obtain ⟨h1, h2⟩ := h
      subst h1
      subst h2
      exact ⟨by simp [P2PPacketOutputStream.call, hrun],
        Or.inl ⟨rfl, (P2PPacketOutputStream.Run_buffer cfg bs Write s timestamp_ns r hrun).2⟩⟩
  | commit priority =>
    simp only [P2PPacketOutputStream.callCommitted] at h
    cases hcommit : s.Commit cfg e priority with
    | none => simp [hcommit] at h
    | some r =>
      obtain ⟨t1, ok⟩ := r
      have hcall : s.call cfg e bs (.commit priority) = some t1 := by
        simp [P2PPacketOutputStream.call, hcommit]
      have hcommit0 := hcommit
      unfold P2PPacketOutputStream.Commit at hcommit
      cases hnew : s.packet_buffer_.NewValue priority with
      | none => simp [hnew] at hcommit
      | some packet0 =>
        have hw : (s.packet_buffer_.ring priority).write_index <
            (s.packet_buffer_.ring priority).values.length := by
          simp only [PriorityRingBuffer.NewValue, RingBuffer.NewValue,
            List.get?_eq_getElem?] at hnew
          exact (List.getElem?_eq_some_iff.mp hnew).1
        simp only [hnew] at hcommit
        split at hcommit
        · simp only [Option.some.injEq, Prod.mk.injEq] at hcommit
          obtain ⟨h1, h2⟩ := hcommit
          subst h1
          subst h2
          rw [hcommit0] at h
          simp only [Option.some.injEq, Prod.mk.injEq] at h
          obtain ⟨h1, h2⟩ := h
          subst h1
          subst h2
          exact ⟨hcall, Or.inl ⟨rfl, rfl⟩⟩
        · rename_i packet2 hprep
          have hheader := P2PPacket.PrepareToSend_header cfg _ _ hprep
          simp only [Option.some.injEq, Prod.mk.injEq] at hcommit
          obtain ⟨h1, h2⟩ := hcommit
          subst h1
          subst h2
          rw [hcommit0] at h
          simp only [Option.some.injEq, Prod.mk.injEq] at h
          obtain ⟨h1, h2⟩ := h
          subst h1
          refine ⟨hcall, Or.inr ⟨P2PPacketOutputStream.fixEndianness cfg e packet2, ?_, rfl, ?_⟩⟩
          · rw [← h2]
            simp only [PriorityRingBuffer.deref, PriorityRingBuffer.values_Commit,
              PriorityRingBuffer.setNewValue, PriorityRingBuffer.ring_setRing, ↓reduceIte,
              RingBuffer.setNewValue, List.get?_eq_getElem?]
            exact List.getElem?_set_self hw
          · simp [P2PPacketOutputStream.fixEndianness, P2PPacket.setChecksum, hheader]
theorem P2PPacketOutputStream.Commit_true_counter (cfg : P2PProtocol) (e : Endianness)
    (s t : P2PPacketOutputStream) (p : P2PPriority) (h : s.Commit cfg e p = some (t, true)) :
    t.current_sequence_number_ =
      incrementSequenceNumber cfg.kP2PLowestToken s.current_sequence_number_ := by
  unfold P2PPacketOutputStream.Commit at h
  split at h
  · exact absurd h (by simp)
  · dsimp only at h
    split at h
    · simp at h
    · simp only [Option.some.injEq, Prod.mk.injEq, and_true] at h
      subst h
      rfl

theorem LocalToNetwork_injective (e : Endianness) (a b : List Nat)
    (h : LocalToNetwork e a = LocalToNetwork e b) : a = b := by
  cases e
  · exact h
  · exact List.reverse_injective h

theorem P2PPacketOutputStream.committedPackets_odometer (cfg : P2PProtocol) (e : Endianness)
    (bs : P2PByteStream) (hL : 2 ≤ cfg.kP2PLowestToken) (hL2 : cfg.kP2PLowestToken ≤ 255)
    (cs : List OutputCall) :
    ∀ (s t : P2PPacketOutputStream) (packets : List P2PPacket) (k0 : Nat),
      s.current_sequence_number_ =
        odometerDigits cfg.kP2PLowestToken cfg.sizeofSequenceNumber k0 →
      s.committedPackets cfg e bs cs = some (t, packets) →
      s.calls cfg e bs cs = some t ∧
      t.current_sequence_number_ =
        odometerDigits cfg.kP2PLowestToken cfg.sizeofSequenceNumber (k0 + packets.length) ∧
      ∀ (j : Nat) (x : P2PPacket), packets[j]? = some x →
        x.header.sequence_number =
          LocalToNetwork e
            (odometerDigits cfg.kP2PLowestToken cfg.sizeofSequenceNumber (k0 + j)) := by
  induction cs with
  | nil =>
    intro s t packets k0 hs h
    simp only [P2PPacketOutputStream.committedPackets, Option.some.injEq, Prod.mk.injEq] at h
    obtain ⟨h1, h2⟩ := h
    subst h1
    subst h2
    exact ⟨rfl, by simpa using hs, fun j x hx => by simp at hx⟩
  | cons c cs ih =>
    intro s t packets k0 hs h
    simp only [P2PPacketOutputStream.committedPackets] at h
    cases hc : s.callCommitted cfg e bs c with
    | none => simp [hc] at h
    | some r =>
      obtain ⟨s1, packet⟩ := r
      simp only [hc] at h
      cases hrest : P2PPacketOutputStream.committedPackets cfg e bs s1 cs with
      | none => simp [hrest] at h
      | some r1 =>
        obtain ⟨t1, ps⟩ := r1
        simp only [hrest, Option.some.injEq, Prod.mk.injEq] at h
        obtain ⟨h1, h2⟩ := h
        subst h1
        subst h2
        obtain ⟨hcall, hstep⟩ :=
          P2PPacketOutputStream.callCommitted_counter cfg e bs s s1 c packet hc
        rcases hstep with ⟨hnone, hsame⟩ | ⟨x, hsome, hinc, hseq⟩
        · subst hnone
          obtain ⟨hcalls, hctr, hps⟩ := ih s1 t1 ps k0 (by rw [hsame, hs]) hrest
          refine ⟨by simp only [P2PPacketOutputStream.calls, hcall]; exact hcalls, ?_, ?_⟩
          · simpa using hctr
          · intro j y hy
            exact hps j y (by simpa using hy)
        · subst hsome
          obtain ⟨hcalls, hctr, hps⟩ := ih s1 t1 ps (k0 + 1)
            (by rw [hinc, hs, incrementSequenceNumber_odometerDigits _ hL hL2]) hrest
          refine ⟨by simp only [P2PPacketOutputStream.calls, hcall]; exact hcalls, ?_, ?_⟩
          · rw [hctr]
            congr 1
            simp only [Option.toList_some, List.singleton_append, List.length_cons]
            omega
          · intro j y hy
            cases j with
            | zero =>
              simp only [Option.toList_some, List.singleton_append, List.getElem?_cons_zero,
                Option.some.injEq] at hy
              subst hy
              rw [hseq, hs]
              rfl
            | succ j =>
              simp only [Option.toList_some, List.singleton_append,
                List.getElem?_cons_succ] at hy
              rw [hps j y hy]
              congr 2
              omega

/-- C21: the sequence counter is a little-endian odometer in base `kP2PLowestToken`. For
`2 ≤ kP2PLowestToken ≤ 255`, after any sequence of calls on a freshly constructed output stream
in which `k` calls of `Commit` returned true, byte `i` of `current_sequence_number_` is
`floor(k / kP2PLowestToken^i) mod kP2PLowestToken`. The packet committed by call number `j`
(from 0) carries the counter after `j` commits, in network order, so any `kP2PLowestToken^n`
consecutive committed packets carry pairwise distinct sequence numbers. A further `Commit` that
returns true makes the counter, read as a little-endian integer, strictly larger, unless all its
bytes are `kP2PLowestToken - 1`, in which case they all become 0. -/
theorem sequence_counter_is_odometer (cfg : P2PProtocol) (e : Endianness) (bs : P2PByteStream)
    (hL : 2 ≤ cfg.kP2PLowestToken) (hL2 : cfg.kP2PLowestToken ≤ 255)
    (mem t : P2PPacketOutputStream) (cs : List OutputCall) (packets : List P2PPacket)
    (h : (P2PPacketOutputStream.init cfg mem).committedPackets cfg e bs cs = some (t, packets)) :
    (P2PPacketOutputStream.init cfg mem).calls cfg e bs cs = some t ∧
    t.current_sequence_number_.length = cfg.sizeofSequenceNumber ∧
    (∀ i : Nat, i < cfg.sizeofSequenceNumber →
      t.current_sequence_number_[i]? =
        some (packets.length / cfg.kP2PLowestToken ^ i % cfg.kP2PLowestToken)) ∧
    (∀ (j : Nat) (x : P2PPacket), packets[j]? = some x →
      x.header.sequence_number =
        LocalToNetwork e (odometerDigits cfg.kP2PLowestToken cfg.sizeofSequenceNumber j)) ∧
    (∀ (j k : Nat) (x y : P2PPacket), j < k →
      k < j + cfg.kP2PLowestToken ^ cfg.sizeofSequenceNumber →
      packets[j]? = some x → packets[k]? = some y →
      x.header.sequence_number ≠ y.header.sequence_number) ∧
    (∀ (p : P2PPriority) (t1 : P2PPacketOutputStream), t.Commit cfg e p = some (t1, true) →
      (t.current_sequence_number_ ≠
          List.replicate cfg.sizeofSequenceNumber (cfg.kP2PLowestToken - 1) →
        littleEndianValue t.current_sequence_number_ <
          littleEndianValue t1.current_sequence_number_) ∧
      (t.current_sequence_number_ =
          List.replicate cfg.sizeofSequenceNumber (cfg.kP2PLowestToken - 1) →
        t1.current_sequence_number_ = List.replicate cfg.sizeofSequenceNumber 0)) := by
  have hinit : (P2PPacketOutputStream.init cfg mem).current_sequence_number_ =
      odometerDigits cfg.kP2PLowestToken cfg.sizeofSequenceNumber 0 := by
    rw [odometerDigits_zero]
    rfl
  obtain ⟨hcalls, hctr, hps⟩ := P2PPacketOutputStream.committedPackets_odometer cfg e bs hL hL2
    cs _ t packets 0 hinit h
  simp only [Nat.zero_add] at hctr hps
  have hlen : t.current_sequence_number_.length = cfg.sizeofSequenceNumber := by
    rw [hctr, odometerDigits_length]
  refine ⟨hcalls, hlen, fun i hi => ?_, hps, fun j k x y hjk hwindow hx hy heq => ?_,
    fun p t1 hcommit => ?_⟩
  · rw [hctr]
    exact odometerDigits_getElem? _ _ _ i hi
  · rw [hps j x hx, hps k y hy] at heq
    exact odometerDigits_distinct _ _ j k hjk hwindow (LocalToNetwork_injective e _ _ heq)
  · have hbytes : ∀ b ∈ t.current_sequence_number_, b < cfg.kP2PLowestToken := by
      intro b hb
      rw [hctr] at hb
      simp only [odometerDigits, List.mem_map] at hb
      obtain ⟨i, _, hi⟩ := hb
      rw [← hi]
      exact Nat.mod_lt _ (by omega)
    have hmono := littleEndianValue_incrementSequenceNumber cfg.kP2PLowestToken hL hL2
      t.current_sequence_number_ hbytes
    rw [hlen] at hmono
    rw [P2PPacketOutputStream.Commit_true_counter cfg e t t1 p hcommit]
    exact hmono

theorem sequence_counter_is_odometer_witness :
    (P2PPacketOutputStream.init exampleProtocol (rawOutputStream exampleProtocol 2)).calls
        exampleProtocol .kLittleEndian P2PByteStreamLinux
        [.fill .kLow 3 [1, 170, 3], .commit .kLow, .commit .kHigh] = some exampleCommitted ∧
    exampleCommitted.current_sequence_number_.length = exampleProtocol.sizeofSequenceNumber ∧
    (∀ i : Nat, i < exampleProtocol.sizeofSequenceNumber →
      exampleCommitted.current_sequence_number_[i]? =
        some (exampleCommittedPackets.length / exampleProtocol.kP2PLowestToken ^ i %
          exampleProtocol.kP2PLowestToken)) ∧
    (∀ (j : Nat) (x : P2PPacket), exampleCommittedPackets[j]? = some x →
      x.header.sequence_number =
        LocalToNetwork .kLittleEndian
          (odometerDigits exampleProtocol.kP2PLowestToken exampleProtocol.sizeofSequenceNumber
            j)) ∧
    (∀ (j k : Nat) (x y : P2PPacket), j < k →
      k < j + exampleProtocol.kP2PLowestToken ^ exampleProtocol.sizeofSequenceNumber →
      exampleCommittedPackets[j]? = some x → exampleCommittedPackets[k]? = some y →
      x.header.sequence_number ≠ y.header.sequence_number) ∧
    (∀ (p : P2PPriority) (t1 : P2PPacketOutputStream),
      exampleCommitted.Commit exampleProtocol .kLittleEndian p = some (t1, true) →
      (exampleCommitted.current_sequence_number_ ≠
          List.replicate exampleProtocol.sizeofSequenceNumber
            (exampleProtocol.kP2PLowestToken - 1) →
        littleEndianValue exampleCommitted.current_sequence_number_ <
          littleEndianValue t1.current_sequence_number_) ∧
      (exampleCommitted.current_sequence_number_ =
          List.replicate exampleProtocol.sizeofSequenceNumber
            (exampleProtocol.kP2PLowestToken - 1) →
        t1.current_sequence_number_ =
          List.replicate exampleProtocol.sizeofSequenceNumber 0)) :=
  sequence_counter_is_odometer exampleProtocol .kLittleEndian P2PByteStreamLinux (by decide)
    (by decide) (rawOutputStream exampleProtocol 2) exampleCommitted
    [.fill .kLow 3 [1, 170, 3], .commit .kLow, .commit .kHigh] exampleCommittedPackets (by rfl)

theorem P2PPacketInputStream.NewValue_setNewValue (s t : P2PPacketInputStream)
    (priority : P2PPriority) (packet v : P2PPacket)
    (hslot : s.NewValue = some (priority, packet))
    (hheader : t.incoming_header_.priority = s.incoming_header_.priority)
    (hbuffer : t.packet_buffer_ = s.packet_buffer_.setNewValue priority v) :
    t.NewValue = some (priority, v) := by
  unfold P2PPacketInputStream.NewValue at hslot ⊢
  rw [hheader, hbuffer]
  cases hp : P2PPriority.ofInt s.incoming_header_.priority with
  | none => simp [hp] at hslot
  | some q =>
    simp only [hp] at hslot ⊢
    cases hq : s.packet_buffer_.NewValue q with
    | none => simp [hq] at hslot
    | some packet0 =>
      simp only [hq, Option.some.injEq, Prod.mk.injEq] at hslot
      obtain ⟨h1, _⟩ := hslot
      subst h1
      have hw : (s.packet_buffer_.ring q).write_index <
          (s.packet_buffer_.ring q).values.length := by
        simp only [PriorityRingBuffer.NewValue, RingBuffer.NewValue,
          List.get?_eq_getElem?] at hq
        exact (List.getElem?_eq_some_iff.mp hq).1
      have hnew : (s.packet_buffer_.setNewValue q v).NewValue q = some v := by
        simp only [PriorityRingBuffer.NewValue, PriorityRingBuffer.setNewValue,
          PriorityRingBuffer.ring_setRing, ↓reduceIte, RingBuffer.NewValue,
          RingBuffer.setNewValue, RingBuffer.write_index, RingBuffer.Capacity, List.length_set,
          List.get?_eq_getElem?]
        exact List.getElem?_set_self hw
      simp only [hnew]

theorem P2PPacket.setContent_length (p q : P2PPacket) (i b : Nat)
    (h : p.setContent i b = some q) :
    q = { p with content_and_footer := p.content_and_footer.set i b } ∧ q.length = p.length ∧
      i < p.content_and_footer.length := by
  unfold P2PPacket.setContent at h
  split at h
  · rename_i hi
    injection h with h
    subst h
    exact ⟨rfl, rfl, hi⟩
  · exact absurd h (by simp)
theorem P2PPacketInputStream.Run_InsidePacket (cfg : P2PProtocol) (e : Endianness)
    (s t : P2PPacketInputStream) (input rest : List Nat) (hinv : s.InsidePacket)
    (hrun : s.Run cfg e input = some (t, rest)) : t.InsidePacket := by
  cases hstate : s.state_ with
  | kWaitingForPacket =>
    simp only [P2PPacketInputStream.Run, hstate] at hrun
    intro priority packet _
    cases input with
    | nil =>
      simp only [Option.some.injEq, Prod.mk.injEq] at hrun
      obtain ⟨h1, _⟩ := hrun
      subst h1
      simp [hstate]
    | cons b more =>
      simp only at hrun
      split at hrun <;>
        (simp only [Option.some.injEq, Prod.mk.injEq] at hrun
         obtain ⟨h1, _⟩ := hrun
         subst h1
         simp [hstate])
  | kReadingHeader =>
    simp only [P2PPacketInputStream.Run, hstate] at hrun
    by_cases hdone : P2PHeader.sizeof cfg ≤ s.current_field_read_bytes_
    · simp only [hdone, ↓reduceIte, P2PPacketInputStream.headerComplete] at hrun
      cases hslot : s.NewValue with
      | none => simp [hslot] at hrun
      | some v =>
        obtain ⟨priority0, packet0⟩ := v
        simp only [hslot] at hrun
        by_cases hcont : s.incoming_header_.is_continuation = 0
        · simp only [hcont, ↓reduceIte, Option.map_some', Option.some.injEq,
            Prod.mk.injEq] at hrun
          obtain ⟨h1, _⟩ := hrun
          subst h1
          intro priority packet _
          exact ⟨fun _ => Nat.zero_le _, fun h => absurd h (by simp)⟩
        · simp only [hcont, ↓reduceIte] at hrun
          split at hrun
          · simp only [Option.map_some', Option.some.injEq, Prod.mk.injEq] at hrun
            obtain ⟨h1, _⟩ := hrun
            subst h1
            intro priority packet _
            exact ⟨fun h => absurd h (by simp), fun h => absurd h (by simp)⟩
          · simp only [Option.map_some', Option.some.injEq, Prod.mk.injEq] at hrun
            obtain ⟨h1, _⟩ := hrun
            subst h1
            intro priority packet hnew
            have hnew1 : s.NewValue = some (priority, packet) := hnew
            rw [hslot] at hnew1
            simp only [Option.some.injEq, Prod.mk.injEq] at hnew1
            obtain ⟨_, h2⟩ := hnew1
            subst h2
            exact ⟨fun _ => Nat.sub_le _ _, fun h => absurd h (by simp)⟩
    · simp only [hdone, ↓reduceIte] at hrun
      intro priority packet _
      cases input with
      | nil =>
        simp only [Option.some.injEq, Prod.mk.injEq] at hrun
        obtain ⟨h1, _⟩ := hrun
        subst h1
        simp [hstate]
      | cons b more =>
        simp only at hrun
        split at hrun
        · simp only [Option.some.injEq, Prod.mk.injEq] at hrun
          obtain ⟨h1, _⟩ := hrun
          subst h1
          simp
        · split at hrun <;>
            (simp only [Option.some.injEq, Prod.mk.injEq] at hrun
             obtain ⟨h1, _⟩ := hrun
             subst h1
             simp [hstate])
  | kReadingContent =>
    simp only [P2PPacketInputStream.Run, hstate] at hrun
    cases hslot : s.NewValue with
    | none => simp [hslot] at hrun
    | some v =>
      obtain ⟨priority0, packet0⟩ := v
      have hle := (hinv priority0 packet0 hslot).1 hstate
      simp only [hslot] at hrun
      by_cases hdone : packet0.length ≤ s.current_field_read_bytes_
      · simp only [hdone, ↓reduceIte, Option.some.injEq, Prod.mk.injEq] at hrun
        obtain ⟨h1, _⟩ := hrun
        subst h1
        intro priority packet _
        exact ⟨fun h => absurd h (by simp), fun h => absurd h (by simp)⟩
      · simp only [hdone, ↓reduceIte] at hrun
        cases input with
        | nil =>
          simp only [Option.some.injEq, Prod.mk.injEq] at hrun
          obtain ⟨h1, _⟩ := hrun
          subst h1
          exact hinv
        | cons b more =>
          simp only at hrun
          cases hset : packet0.setContent s.current_field_read_bytes_ b with
          | none => simp [hset] at hrun
          | some packet1 =>
            obtain ⟨_, hlen1, _⟩ := P2PPacket.setContent_length _ _ _ _ hset
            simp only [hset] at hrun
            intro priority packet hnew
            have hnew1 := P2PPacketInputStream.NewValue_setNewValue s t priority0 packet0
              packet1 hslot
            split at hrun
            · split at hrun
              · rename_i _ hlt
                simp only [Option.some.injEq, Prod.mk.injEq] at hrun
                obtain ⟨h1, _⟩ := hrun
                subst h1
                have h2 := hnew1 rfl rfl
                rw [h2] at hnew
                simp only [Option.some.injEq, Prod.mk.injEq] at hnew
                obtain ⟨_, h3⟩ := hnew
                subst h3
                refine ⟨fun h => absurd h (by simp), fun _ => ?_⟩
                rw [hlen1]
                exact hlt
              · simp only [Option.some.injEq, Prod.mk.injEq] at hrun
                obtain ⟨h1, _⟩ := hrun
                subst h1
                exact ⟨fun h => absurd h (by simp), fun h => absurd h (by simp)⟩
            · simp only [Option.some.injEq, Prod.mk.injEq] at hrun
              obtain ⟨h1, _⟩ := hrun
              subst h1
              have h2 := hnew1 rfl rfl
              rw [h2] at hnew
              simp only [Option.some.injEq, Prod.mk.injEq] at hnew
              obtain ⟨_, h3⟩ := hnew
              subst h3
              refine ⟨fun _ => ?_, fun h => ?_⟩
              · rw [hlen1]
                show s.current_field_read_bytes_ + 1 ≤ packet0.length
                omega
              · exact absurd h (by simp)
  | kDisambiguatingStartTokenInContent =>
    simp only [P2PPacketInputStream.Run, hstate] at hrun
    cases hslot : s.NewValue with
    | none => simp [hslot] at hrun
    | some v =>
      obtain ⟨priority0, packet0⟩ := v
      have hlt := (hinv priority0 packet0 hslot).2 hstate
      simp only [hslot] at hrun
      cases input with
      | nil =>
        simp only [Option.some.injEq, Prod.mk.injEq] at hrun
        obtain ⟨h1, _⟩ := hrun
        subst h1
        exact hinv
      | cons b more =>
        simp only at hrun
        cases hset : packet0.setContent s.current_field_read_bytes_ b with
        | none => simp [hset] at hrun
        | some packet1 =>
          obtain ⟨_, hlen1, _⟩ := P2PPacket.setContent_length _ _ _ _ hset
          simp only [hset] at hrun
          intro priority packet hnew
          have hnew1 := P2PPacketInputStream.NewValue_setNewValue s t priority0 packet0
            packet1 hslot
          split at hrun
          · simp only [Option.some.injEq, Prod.mk.injEq] at hrun
            obtain ⟨h1, _⟩ := hrun
            subst h1
            have h2 := hnew1 rfl rfl
            rw [h2] at hnew
            simp only [Option.some.injEq, Prod.mk.injEq] at hnew
            obtain ⟨_, h3⟩ := hnew
            subst h3
            refine ⟨fun _ => ?_, fun h => absurd h (by simp)⟩
            rw [hlen1]
            show s.current_field_read_bytes_ + 1 ≤ packet0.length
            omega
          · split at hrun <;>
              (simp only [Option.some.injEq, Prod.mk.injEq] at hrun
               obtain ⟨h1, _⟩ := hrun
               subst h1
               exact ⟨fun h => absurd h (by simp), fun h => absurd h (by simp)⟩)
  | kReadingFooter =>
    have hstate1 : t.state_ ≠ .kReadingContent ∧
        t.state_ ≠ .kDisambiguatingStartTokenInContent := by
      simp only [P2PPacketInputStream.Run, hstate] at hrun
      cases hslot : s.NewValue with
      | none => simp [hslot] at hrun
      | some v =>
        obtain ⟨priority0, packet0⟩ := v
        simp only [hslot] at hrun
        cases input with
        | nil =>
          split at hrun <;>
            (simp only [Option.some.injEq, Prod.mk.injEq] at hrun
             obtain ⟨h1, _⟩ := hrun
             subst h1
             simp [hstate])
        | cons b more =>
          simp only at hrun
          repeat' (split at hrun)
          all_goals
            first
            | (simp only [Option.some.injEq, Prod.mk.injEq] at hrun
               obtain ⟨h1, _⟩ := hrun
               subst h1
               simp [hstate])
            | simp at hrun
    intro priority packet _
    exact ⟨fun h => absurd h hstate1.1, fun h => absurd h hstate1.2⟩

theorem P2PPacketInputStream.runN_InsidePacket (cfg : P2PProtocol) (e : Endianness) (n : Nat) :
    ∀ (s t : P2PPacketInputStream) (input rest : List Nat), s.InsidePacket →
      P2PPacketInputStream.runN cfg e n s input = some (t, rest) → t.InsidePacket := by
  induction n with
  | zero =>
    intro s t input rest hinv h
    simp only [P2PPacketInputStream.runN, Option.some.injEq, Prod.mk.injEq] at h
    obtain ⟨h1, _⟩ := h
    subst h1
    exact hinv
  | succ n ih =>
    intro s t input rest hinv h
    simp only [P2PPacketInputStream.runN] at h
    cases hrun : s.Run cfg e input with
    | none => simp [hrun] at h
    | some r =>
      obtain ⟨s1, rest1⟩ := r
      simp only [hrun] at h
      exact ih s1 t rest1 rest (P2PPacketInputStream.Run_InsidePacket cfg e s s1 input rest1
        hinv hrun) h

theorem P2PPacketInputStream.init_InsidePacket (mem : P2PPacketInputStream) :
    (P2PPacketInputStream.init mem).InsidePacket := by
  intro priority packet _
  exact ⟨fun h => absurd h (by simp [P2PPacketInputStream.init]),
    fun h => absurd h (by simp [P2PPacketInputStream.init])⟩
theorem P2PPacketInputStream.Run_storeIndex (cfg : P2PProtocol) (e : Endianness)
    (s : P2PPacketInputStream) (priority : P2PPriority) (packet : P2PPacket) (b : Nat)
    (more : List Nat) (i : Nat) (hinv : s.InsidePacket)
    (hslot : s.NewValue = some (priority, packet)) (hidx : s.storeIndex cfg = some i) :
    ((s.state_ = .kReadingContent ∨ s.state_ = .kDisambiguatingStartTokenInContent) →
      i < packet.length ∧
      ∀ t out, s.Run cfg e (b :: more) = some (t, out) →
        out = more ∧
        t.packet_buffer_ = s.packet_buffer_.setNewValue priority
          { packet with content_and_footer := packet.content_and_footer.set i b }) ∧
    (s.state_ = .kReadingFooter → packet.length ≤ i ∧ i < packet.length + cfg.sizeofChecksum) ∧
    (s.Run cfg e (b :: more) = none ↔ packet.content_and_footer.length ≤ i) := by
  cases hstate : s.state_ with
  | kWaitingForPacket => simp [P2PPacketInputStream.storeIndex, hstate] at hidx
  | kReadingHeader => simp [P2PPacketInputStream.storeIndex, hstate] at hidx
  | kReadingContent =>
    simp only [P2PPacketInputStream.storeIndex, hstate, hslot] at hidx
    split at hidx
    · exact absurd hidx (by simp)
    · rename_i hdone
      injection hidx with hidx
      subst hidx
      refine ⟨fun _ => ⟨by omega, fun t out hrun => ?_⟩, fun h => absurd h (by simp), ?_⟩
      · simp only [P2PPacketInputStream.Run, hstate, hslot, hdone, ↓reduceIte] at hrun
        cases hset : packet.setContent s.current_field_read_bytes_ b with
        | none => simp [hset] at hrun
        | some packet1 =>
          obtain ⟨hpacket1, _, _⟩ := P2PPacket.setContent_length _ _ _ _ hset
          subst hpacket1
          simp only [hset] at hrun
          repeat' (split at hrun)
          all_goals
            simp only [Option.some.injEq, Prod.mk.injEq] at hrun
            obtain ⟨h1, h2⟩ := hrun
            subst h1
            exact ⟨h2.symm, rfl⟩
      · simp only [P2PPacketInputStream.Run, hstate, hslot, hdone, ↓reduceIte,
          P2PPacket.setContent]
        by_cases hin : s.current_field_read_bytes_ < packet.content_and_footer.length
        · simp only [hin, ↓reduceIte]
          constructor
          · intro h
            repeat' (split at h)
            all_goals simp at h
          · intro h
            omega
        · simp only [hin, ↓reduceIte, true_iff]
          omega
  | kDisambiguatingStartTokenInContent =>
    have hlt := (hinv priority packet hslot).2 hstate
    simp only [P2PPacketInputStream.storeIndex, hstate, hslot, Option.some.injEq] at hidx
    subst hidx
    refine ⟨fun _ => ⟨hlt, fun t out hrun => ?_⟩, fun h => absurd h (by simp), ?_⟩
    · simp only [P2PPacketInputStream.Run, hstate, hslot] at hrun
      cases hset : packet.setContent s.current_field_read_bytes_ b with
      | none => simp [hset] at hrun
      | some packet1 =>
        obtain ⟨hpacket1, _, _⟩ := P2PPacket.setContent_length _ _ _ _ hset
        subst hpacket1
        simp only [hset] at hrun
        repeat' (split at hrun)
        all_goals
          simp only [Option.some.injEq, Prod.mk.injEq] at hrun
          obtain ⟨h1, h2⟩ := hrun
          subst h1
          exact ⟨h2.symm, rfl⟩
    · simp only [P2PPacketInputStream.Run, hstate, hslot, P2PPacket.setContent]
      by_cases hin : s.current_field_read_bytes_ < packet.content_and_footer.length
      · simp only [hin, ↓reduceIte]
        constructor
        · intro h
          repeat' (split at h)
          all_goals simp at h
        · intro h
          omega
      · simp only [hin, ↓reduceIte, true_iff]
        omega
  | kReadingFooter =>
    simp only [P2PPacketInputStream.storeIndex, hstate, hslot] at hidx
    split at hidx
    · exact absurd hidx (by simp)
    · rename_i hdone
      injection hidx with hidx
      subst hidx
      refine ⟨fun h => ?_, fun _ => ⟨by omega, by omega⟩, ?_⟩
      · rcases h with h | h <;> exact absurd h (by simp)
      · simp only [P2PPacketInputStream.Run, hstate, hslot, hdone, ↓reduceIte,
          P2PPacket.setContent]
        by_cases hin : packet.length + s.current_field_read_bytes_ <
            packet.content_and_footer.length
        · simp only [hin, ↓reduceIte]
          constructor
          · intro h
            repeat' (split at h)
            all_goals simp at h
          · intro h
            omega
        · simp only [hin, ↓reduceIte, true_iff]
          omega
/-- C25: receive positions stay inside the packet under reception. In every state the input
stream reaches from its construction, with `packet` the slot
`packet_buffer_.NewValue(incoming_header_.priority)`: `current_field_read_bytes_` is at most the
stored length in `kReadingContent` and below it in `kDisambiguatingStartTokenInContent`; a byte
read in these states is stored in `content()` at `current_field_read_bytes_`, an index strictly
below the stored length, and nothing else in the buffer changes; a byte read in `kReadingFooter`
is stored at an index in `[length, length + sizeof(P2PFooter))`. The stored length itself is
the one received: the store is outside `content_and_footer` exactly when the call of `Run` has no
defined result. -/
theorem receive_positions_stay_inside_packet (cfg : P2PProtocol) (e : Endianness)
    (mem s : P2PPacketInputStream) (n : Nat) (input rest : List Nat) (priority : P2PPriority)
    (packet : P2PPacket)
    (hreach : P2PPacketInputStream.runN cfg e n (P2PPacketInputStream.init mem) input =
      some (s, rest))
    (hslot : s.NewValue = some (priority, packet)) :
    ((s.state_ = .kReadingContent ∨ s.state_ = .kDisambiguatingStartTokenInContent) →
      s.current_field_read_bytes_ ≤ packet.length) ∧
    (s.state_ = .kDisambiguatingStartTokenInContent →
      s.current_field_read_bytes_ < packet.length) ∧
    ∀ (b : Nat) (more : List Nat) (i : Nat), s.storeIndex cfg = some i →
      ((s.state_ = .kReadingContent ∨ s.state_ = .kDisambiguatingStartTokenInContent) →
        i < packet.length ∧
        ∀ t out, s.Run cfg e (b :: more) = some (t, out) →
          out = more ∧
          t.packet_buffer_ = s.packet_buffer_.setNewValue priority
            { packet with content_and_footer := packet.content_and_footer.set i b }) ∧
      (s.state_ = .kReadingFooter →
        packet.length ≤ i ∧ i < packet.length + cfg.sizeofChecksum) ∧
      (s.Run cfg e (b :: more) = none ↔ packet.content_and_footer.length ≤ i) := by
  have hinv : s.InsidePacket := P2PPacketInputStream.runN_InsidePacket cfg e n _ s input rest
    (P2PPacketInputStream.init_InsidePacket mem) hreach
  refine ⟨fun h => ?_, (hinv priority packet hslot).2, fun b more i hidx =>
    P2PPacketInputStream.Run_storeIndex cfg e s priority packet b more i hinv hslot hidx⟩
  rcases h with h | h
  · exact (hinv priority packet hslot).1 h
  · exact le_of_lt ((hinv priority packet hslot).2 h)

theorem receive_positions_stay_inside_packet_witness :
    (exampleInputAfter 10 [170, 0, 0, 4, 5, 0, 0, 0, 1]).state_ = .kReadingContent ∧
    (exampleInputAfter 10 [170, 0, 0, 4, 5, 0, 0, 0, 1]).storeIndex exampleProtocol = some 1 ∧
    (exampleInputAfter 10 [170, 0, 0, 4, 5, 0, 0, 0, 1]).current_field_read_bytes_ ≤ 4 ∧
    (1 < 4 ∧
      ∀ t out, (exampleInputAfter 10 [170, 0, 0, 4, 5, 0, 0, 0, 1]).Run exampleProtocol
          .kLittleEndian (2 :: [3]) = some (t, out) →
        out = [3] ∧
        t.packet_buffer_ =
          (exampleInputAfter 10 [170, 0, 0, 4, 5, 0, 0, 0, 1]).packet_buffer_.setNewValue .kLow
            { header := { start_token := 170, priority := 0, is_continuation := 0, length := 4
                          sequence_number := [5, 0, 0, 0] }
              content_and_footer := ([1, 0, 0, 0, 0, 0, 0, 0, 0] : List Nat).set 1 2 }) :=
  ⟨by rfl, by rfl,
    (receive_positions_stay_inside_packet exampleProtocol .kLittleEndian
      (newInputStream exampleProtocol 2) (exampleInputAfter 10 [170, 0, 0, 4, 5, 0, 0, 0, 1]) 10
      [170, 0, 0, 4, 5, 0, 0, 0, 1] [] .kLow
      { header := { start_token := 170, priority := 0, is_continuation := 0, length := 4
                    sequence_number := [5, 0, 0, 0] }
        content_and_footer := [1, 0, 0, 0, 0, 0, 0, 0, 0] }
      (by rfl) (by rfl)).1 (Or.inl (by rfl)),
    ((receive_positions_stay_inside_packet exampleProtocol .kLittleEndian
      (newInputStream exampleProtocol 2) (exampleInputAfter 10 [170, 0, 0, 4, 5, 0, 0, 0, 1]) 10
      [170, 0, 0, 4, 5, 0, 0, 0, 1] [] .kLow
      { header := { start_token := 170, priority := 0, is_continuation := 0, length := 4
                    sequence_number := [5, 0, 0, 0] }
        content_and_footer := [1, 0, 0, 0, 0, 0, 0, 0, 0] }
      (by rfl) (by rfl)).2.2 2 [3] 1 (by rfl)).1 (Or.inl (by rfl))⟩

/-- The length that bounds the receive positions is the one received, whatever it is: with
`kP2PMaxContentLength = 8` a header announcing 200 content bytes is stored as it is; the first
nine content bytes fill `content_and_footer`, and the tenth, at index 9, below the stored length
200, has no place in the packet. -/
theorem received_length_is_stored_unchecked :
    ((P2PPacketInputStream.runN exampleProtocol .kLittleEndian 18 (newInputStream exampleProtocol 2)
        [170, 0, 0, 200, 5, 0, 0, 0, 1, 2, 3, 4, 5, 6, 7, 8, 9, 10]).map fun r =>
          (r.1.state_, r.1.current_field_read_bytes_, r.1.storeIndex exampleProtocol,
            r.1.NewValue.map fun v => (v.2.length, v.2.content_and_footer), r.2)) =
      some (.kReadingContent, 9, some 9, some (200, [1, 2, 3, 4, 5, 6, 7, 8, 9]), [10]) ∧
    exampleProtocol.kP2PMaxContentLength = 8 ∧
    P2PPacketInputStream.runN exampleProtocol .kLittleEndian 19 (newInputStream exampleProtocol 2)
        [170, 0, 0, 200, 5, 0, 0, 0, 1, 2, 3, 4, 5, 6, 7, 8, 9, 10] = none := by
  refine ⟨by rfl, by rfl, by rfl⟩

end HF1
